import Mathlib

/-! # GNL export and statistics engine (`write.cpp`)

A shallow embedding of the writers of `write.cpp` and of the data they read,
followed by the properties established about them.

Conventions of the embedding:
* object addresses (`void *`, `Block *`, ...) are natural numbers;
* `int` values are unbounded integers: the counts, areas and indices of a
  circuit held in memory are taken to stay within the range of `int`;
* `double` values are elements of a linearly ordered field `K` with a floor
  function; `log`, `exp` and `sqrt` of `<cmath>` are passed as arguments, so
  the definitions are computable, and are read over `ℝ` with the real
  functions;
* a file is the list of its lines, a line is the list of the items streamed
  into it (`out << a << b << endl`), the `printf` widths being dropped.
-/

set_option autoImplicit false

namespace GNL

/-! ## Identifier assignment: `CounterMap` -/

/-- Object identity: the address held in a `void *`. -/
abbrev Ptr := Nat

/-- Class `CounterMap`: the `std::map<void *, int> counterMap` (as the list of
its entries, newest first; it is only ever searched by key) and the counter
`next`. -/
structure CounterMap where
  counterMap : List (Ptr × Int)
  next : Int
deriving DecidableEq

/-- Modelled from the spec: the constructor of `CounterMap` lives in `main.h`;
a new instance has an empty map and hands out `0` first ("the first identity
seen in a given service instance receives 0"). -/
def CounterMap.fresh : CounterMap := ⟨[], 0⟩

/-- Entry stored under key `p`, as found by `std::map::insert`/`find`. -/
def CounterMap.find (m : CounterMap) (p : Ptr) : Option Int :=
  (m.counterMap.find? (fun e => e.1 == p)).map Prod.snd

/-- Method `CounterMap::operator[]`: `insert` the pair `(p, next)`; when the
insertion took place (`mi.second`) bump `next`; return the mapped value of
the entry now stored under `p`. -/
def CounterMap.get (m : CounterMap) (p : Ptr) : Int × CounterMap :=
  match m.find p with
  | some v => (v, m)
  | none => (m.next, ⟨(p, m.next) :: m.counterMap, m.next + 1⟩)

/-- A sequence of `operator[]` calls on one instance, with the returned ids. -/
def CounterMap.queries (m : CounterMap) : List Ptr → List Int × CounterMap
  | [] => ([], m)
  | p :: ps =>
    let r := m.get p
    let rest := CounterMap.queries r.2 ps
    (r.1 :: rest.1, rest.2)


/-- What a `CounterMap` looks like after the identities `seen` were queried. -/
structure CounterMap.Inv (m : CounterMap) (seen : List Ptr) : Prop where
  next_eq : m.next = (seen.dedup.length : Int)
  find_none : ∀ p, m.find p = none ↔ p ∉ seen
  find_lt : ∀ p v, m.find p = some v → 0 ≤ v ∧ v < m.next
  find_inj : ∀ p q v, m.find p = some v → m.find q = some v → p = q

/-! ## Ordered maps, files and outcomes -/

/-- A `std::map<int, V>`: the list of its entries in ascending key order, the
order in which the map is iterated. -/
abbrev IntMap (V : Type) := List (Int × V)

/-- Statement `f(m[k])` on a `std::map<int, V>`: `operator[]` inserts the
default value `d` under a missing key, and the entry is then updated by `f`. -/
def IntMap.modify {V : Type} (d : V) (f : V → V) (k : Int) : IntMap V → IntMap V
  | [] => [(k, f d)]
  | (k', v) :: rest =>
    if k < k' then (k, f d) :: (k', v) :: rest
    else if k = k' then (k', f v) :: rest
    else (k', v) :: IntMap.modify d f k rest

/-- Lookup `m.find(k)` in a `std::map<int, V>`. -/
def IntMap.find {V : Type} (m : IntMap V) (k : Int) : Option V :=
  (List.find? (fun e => e.1 == k) m).map Prod.snd

/-- One item streamed into an output line: text, an `int`, or a `double`
printed as a number. -/
inductive Item (K : Type)
  | str (s : String)
  | int (i : Int)
  | num (x : K)
deriving DecidableEq

/-- One line of an artifact: the items streamed up to the line end. -/
abbrev Line (K : Type) := List (Item K)

/-- The destinations: which paths an `ofstream` can open, and the content of
the files written so far. -/
structure FileSys (K : Type) where
  canOpen : String → Bool
  files : List (String × List (Line K))

/-- A successfully opened `ofstream out(filename)` that received `lines`
before it was closed: the file is created or truncated, then filled. -/
def FileSys.write {K : Type} (fs : FileSys K) (filename : String) (lines : List (Line K)) :
    FileSys K :=
  { fs with files := (filename, lines) :: fs.files.filter (fun e => e.1 != filename) }

/-- Content of the file at a path, when it was written. -/
def FileSys.read {K : Type} (fs : FileSys K) (filename : String) : Option (List (Line K)) :=
  (fs.files.find? (fun e => e.1 == filename)).map Prod.snd

/-- How a writer ends: it returns (`done`), it throws a message (`thrown`),
or it never returns (`hang`). The object state and the files are those left
behind. -/
inductive Outcome (σ K : Type)
  | done (s : σ) (fs : FileSys K)
  | thrown (msg : String) (s : σ) (fs : FileSys K)
  | hang

/-- Conversion `int(x)` of a `double`: truncation toward zero. -/
def truncToInt {K : Type} [LinearOrderedField K] [FloorRing K] (x : K) : Int :=
  if 0 ≤ x then ⌊x⌋ else ⌈x⌉

/-! ## Circuit data model -/

/-- Modelled from the spec: class `Librarycell` is declared in `main.h`; the
writers read its name, the sequential flag, the pin counts `I()` and `O()` and
the two area metrics `Size()` and `Weight()`. -/
structure Librarycell where
  Name : String
  Sequential : Bool
  I : Int
  O : Int
  Size : Int
  Weight : Int
deriving DecidableEq

/-- Modelled from the spec: class `Block` is declared in `main.h`; one placed
instance of a library cell, with its address, its `moduleNumber`, and the
addresses of the nets on its input and output pins in pin order. -/
structure Block where
  addr : Ptr
  cell : Librarycell
  moduleNumber : Int
  inputs : List Ptr
  outputs : List Ptr
deriving DecidableEq

/-- A `Terminal`: the pair of a block and a pin position. -/
abbrev Terminal := Block × Int

/-- Modelled from the spec: class `Module::InputNet` is declared in `main.h`;
a primary input with its ordered sinks. -/
structure InputNet where
  addr : Ptr
  sinks : List Terminal
deriving DecidableEq

/-- Modelled from the spec: class `Module::OutputNet` is declared in
`main.h`; a net driven by the terminal `source`, with its ordered sinks. -/
structure OutputNet where
  addr : Ptr
  source : Terminal
  sinks : List Terminal
deriving DecidableEq

/-- Modelled from the spec: class `Module` is declared in `main.h`; the
members read by the writers of `write.cpp`. -/
structure Module where
  number : Int
  area : Int
  numBlocks : Int
  numInputs : Int
  numOutputs : Int
  blocks : List Block
  inputs : List InputNet
  outputs : List OutputNet
  internalNets : List OutputNet

/-- Modelled from the spec: `Globals::PtreeNode` is declared in `main.h`; one
recorded node of the partition forest. -/
structure PtreeNode where
  parent : Int
  child1 : Int
  child2 : Int
  area : Int
  numBlocks : Int
  inputs : Int
  outputs : Int
deriving DecidableEq

/-- Modelled from the spec: classes `TreeNode`, `Leaf` and `CompoundNode` are
declared in `main.h`; a node of the bipartition forest carries its area and
its input and output counts, a compound node has two children. -/
inductive TreeNode
  | leaf (area numInputs numOutputs : Int)
  | compound (area numInputs numOutputs : Int) (left right : TreeNode)
deriving DecidableEq

/-- Accessor `TreeNode::Size()`: the aggregate area. -/
def TreeNode.Size : TreeNode → Int
  | .leaf a _ _ => a
  | .compound a _ _ _ _ => a

/-- Accessor `TreeNode::NumInputs()`. -/
def TreeNode.NumInputs : TreeNode → Int
  | .leaf _ i _ => i
  | .compound _ i _ _ _ => i

/-- Accessor `TreeNode::NumOutputs()`. -/
def TreeNode.NumOutputs : TreeNode → Int
  | .leaf _ _ o => o
  | .compound _ _ o _ _ => o

/-- Modelled from the spec: `TreeNode::NumTerminals()` is defined in `main.h`;
the terminal count is the number of input and output pins crossing the
boundary of the node. -/
def TreeNode.NumTerminals (n : TreeNode) : Int := n.NumInputs + n.NumOutputs

/-- Modelled from the spec: `TreeNode::GFraction()` is defined in `main.h`;
the G-fraction is outputs / (inputs + outputs). -/
def TreeNode.GFraction {K : Type} [LinearOrderedField K] (n : TreeNode) : K :=
  (n.NumOutputs : K) / ((n.NumInputs + n.NumOutputs : Int) : K)

/-- All nodes of a tree, in the pre-order in which `AddRtdData` and
`FillBucketsWithTree` visit them. -/
def TreeNode.nodes : TreeNode → List TreeNode
  | .leaf a i o => [.leaf a i o]
  | .compound a i o l r => .compound a i o l r :: (l.nodes ++ r.nodes)

/-- Modelled from the spec: `ModuleType::Region` is declared in `main.h`; one
band of the target model, stored in `regions` under its area threshold. -/
structure Region (K : Type) where
  meanT : K
  sigmaT : K
  meanG : K
  sigmaG : K
  p : K
  q : K
  g_factor : K
deriving DecidableEq

/-- Modelled from the spec: class `ModuleType` is declared in `main.h`; its
address, the partition forest `forrest` (the entries of the map in iteration
order), the region table, the bucket cache and the two written flags. -/
structure ModuleType (K : Type) where
  addr : Ptr
  forrest : List (Int × TreeNode)
  regions : IntMap (Region K)
  buckets : IntMap (List TreeNode)
  rtdWritten : Bool
  datWritten : Bool
deriving DecidableEq

/-- The six target statistics `tgT, tgI, tgO, tgG, tgSdevT, tgSdevG`. -/
structure Target (K : Type) where
  tgT : K
  tgI : K
  tgO : K
  tgG : K
  tgSdevT : K
  tgSdevG : K
deriving DecidableEq

/-- What `write.cpp` takes from outside: the `<cmath>` functions on `double`,
and the two target-model evaluators of `ModuleType` defined in another file,
`GetMeanIO(B, ...)` filling the six target statistics and `GetIO(area, I, O)`
filling the two pin estimates. -/
structure Extern (K : Type) where
  log : K → K
  exp : K → K
  sqrt : K → K
  GetMeanIO : ModuleType K → K → Target K
  GetIO : ModuleType K → Int → Int × Int

/-- The globals read by the writers: `Globals::version`, the `time` string,
`argRead.ar_commandLine`, `argRead.areaAsWeight`, `Globals::circuit`,
`Globals::hierarchy` and `Globals::treeData`. -/
structure Globals where
  version : String
  time : String
  commandLine : String
  areaAsWeight : Bool
  circuit : Ptr
  hierarchy : List (String × List String)
  treeData : List PtreeNode

/-- The entries of a `std::map` come in strictly ascending key order. -/
def IntMap.Sorted {V : Type} (m : IntMap V) : Prop :=
  List.Pairwise (fun a b => a.1 < b.1) m

/-! ## Statistics engine -/

section Statistics

variable {K : Type} [LinearOrderedField K] [FloorRing K]

/-- Statement `++(rtd[area][terminals])`: both `operator[]` calls create the
missing entry (an empty inner map, a zero count) before the increment. -/
def rtdIncrement (area terminals : Int) (rtd : IntMap (IntMap Int)) : IntMap (IntMap Int) :=
  IntMap.modify [] (IntMap.modify 0 (fun c => c + 1) terminals) area rtd

/-- Method `AddRtdData`. `CompoundNode::AddRtdData` counts the node under
`rtd[area][numInputs + numOutputs]` and recurses into `left`, then `right`.
Modelled from the spec: `Leaf::AddRtdData` is defined in `main.h`; a leaf
counts its own (area, terminal-count) pair. -/
def TreeNode.AddRtdData : TreeNode → IntMap (IntMap Int) → IntMap (IntMap Int)
  | .leaf a i o, rtd => rtdIncrement a (i + o) rtd
  | .compound a i o l r, rtd =>
    r.AddRtdData (l.AddRtdData (rtdIncrement a (i + o) rtd))

/-- The data lines of the `.rtd` file: both maps are walked with reverse
iterators, one `"%10d %10d %10d\n"` line per inner entry. -/
def rtdLines (rtd : IntMap (IntMap Int)) : List (Int × Int × Int) :=
  rtd.reverse.flatMap (fun bi => bi.2.reverse.map (fun ti => (bi.1, ti.1, ti.2)))

/-- A data line of the `.rtd` file as a line of items. -/
def rtdLine (e : Int × Int × Int) : Line K := [.int e.1, .int e.2.1, .int e.2.2]

/-- The two comment lines and the blank line that open `.rtd` and `.dat`. -/
def statHeader (g : Globals) (kind name : String) : List (Line K) :=
  [[.str ("# " ++ kind ++ " for circuit "), .str name, .str " generated by gnl ",
      .str g.version, .str " on ", .str g.time],
   [.str "# command line: ", .str g.commandLine],
   []]

/-- Method `ModuleType::WriteRtd`. -/
def ModuleType.WriteRtd (g : Globals) (s : ModuleType K) (fs : FileSys K) (name : String) :
    Outcome (ModuleType K) K :=
  if s.rtdWritten then .done s fs
  else
    match s.forrest with
    | [root] =>
      let rtd := root.2.AddRtdData []
      let filename := name ++ ".rtd"
      if !fs.canOpen filename then
        .thrown ("Cannot open " ++ filename ++ " for writing") s fs
      else
        .done { s with rtdWritten := true }
          (fs.write filename (statHeader g "rtd" name ++ (rtdLines rtd).map rtdLine))
    | _ => .thrown "Internal error: forrest is not a tree" s fs

/-- The bucket index `int(log(double(Size())) / log(1.9))`. -/
def bucketIndex (log : K → K) (size : Int) : Int :=
  truncToInt (log (size : K) / log 1.9)

/-- Method `TreeNode::FillBucketsWithTree`, inherited by a leaf: the node is
appended to the list of its bucket. `CompoundNode::FillBucketsWithTree` does
the same and recurses into `left`, then `right`. -/
def TreeNode.FillBucketsWithTree (log : K → K) :
    TreeNode → IntMap (List TreeNode) → IntMap (List TreeNode)
  | .leaf a i o, buckets =>
    IntMap.modify [] (fun l => l ++ [.leaf a i o]) (bucketIndex log a) buckets
  | .compound a i o l r, buckets =>
    r.FillBucketsWithTree log (l.FillBucketsWithTree log
      (IntMap.modify [] (fun l' => l' ++ [.compound a i o l r]) (bucketIndex log a) buckets))

/-- Key `buckets.rbegin()->first` of the last entry of a bucket map. -/
def lastKey (buckets : IntMap (List TreeNode)) : Int :=
  match buckets.getLast? with
  | some e => e.1
  | none => 0

/-- Method `ModuleType::FillBuckets`: nothing to do when the cache is filled;
otherwise the forest must be one tree, whose nodes are bucketed, and the root
is appended to the bucket one above the last one. -/
def ModuleType.FillBuckets (log : K → K) (s : ModuleType K) : Except String (ModuleType K) :=
  if s.buckets.length != 0 then .ok s
  else
    match s.forrest with
    | [root] =>
      let buckets := root.2.FillBucketsWithTree log s.buckets
      .ok { s with buckets :=
        IntMap.modify [] (fun l => l ++ [root.2]) (lastKey buckets + 1) buckets }
    | _ => .error "Internal error: forrest is not a tree"

/-- Method `ModuleType::WriteDatWord`: a negative value is printed as the
placeholder `"-"` (padded to the width of the column), any other value as a
number; `g` selects the narrower column of the G-fraction fields and is
`false` where the source leaves it out. -/
def WriteDatWord (v : K) (g : Bool) : Item K :=
  if g then
    if v < 0 then .str "-    " else .num v
  else
    if v < 0 then .str "-   " else .num v

/-- Method `ModuleType::WriteDatLine`: the area, six target words, a gap, and
six actual words. -/
def WriteDatLine (B : K) (tg : Target K) (T I O g sdevT sdevG : K) : Line K :=
  [.num B,
   WriteDatWord tg.tgT false, WriteDatWord tg.tgI false, WriteDatWord tg.tgO false,
   WriteDatWord tg.tgG true, WriteDatWord tg.tgSdevT false, WriteDatWord tg.tgSdevG true,
   .str "  ",
   WriteDatWord T false, WriteDatWord I false, WriteDatWord O false,
   WriteDatWord g true, WriteDatWord sdevT false, WriteDatWord sdevG true]

/-- The actual values of one bucket, as `WriteDat` computes them. -/
structure Actual (K : Type) where
  B : K
  T : K
  I : K
  O : K
  g : K
  sdevT : K
  sdevG : K
deriving DecidableEq

/-- First half of the body of the bucket loop of `WriteDat`: the member count
`num`, the five sums, the means, and for `num > 1` the two sample standard
deviations (`-1` otherwise). -/
def bucketActual (x : Extern K) (members : List TreeNode) : Actual K :=
  let num : Int := members.length
  let bSum := members.foldl (fun acc mi => acc + x.log (mi.Size : K)) 0
  let tSum := members.foldl (fun acc mi => acc + (mi.NumTerminals : K)) 0
  let iSum := members.foldl (fun acc mi => acc + (mi.NumInputs : K)) 0
  let oSum := members.foldl (fun acc mi => acc + (mi.NumOutputs : K)) 0
  let gSum := members.foldl (fun acc mi => acc + (mi.GFraction : K)) 0
  let B := x.exp (bSum / (num : K))
  let T := tSum / (num : K)
  let I := iSum / (num : K)
  let O := oSum / (num : K)
  let g := gSum / (num : K)
  if num > 1 then
    let sqDivTSum := members.foldl
      (fun acc mi => acc + ((mi.NumTerminals : K) - T) * ((mi.NumTerminals : K) - T)) 0
    let sqDivGSum := members.foldl
      (fun acc mi => acc + ((mi.GFraction : K) - g) * ((mi.GFraction : K) - g)) 0
    ⟨B, T, I, O, g, x.sqrt (sqDivTSum / ((num - 1 : Int) : K)),
      x.sqrt (sqDivGSum / ((num - 1 : Int) : K))⟩
  else
    ⟨B, T, I, O, g, -1, -1⟩

/-- The target values adopted from a region: `tgT = meanT`, `tgG = meanG`,
`tgI = tgT * (1 - tgG)`, `tgO = tgT * tgG`, and the two sigmas. -/
def Region.target (r : Region K) : Target K :=
  ⟨r.meanT, r.meanT * (1 - r.meanG), r.meanT * r.meanG, r.meanG, r.sigmaT, r.sigmaG⟩

/-- The target-only line `WriteDatLine(out, tgB, tg..., -1, -1, -1, -1, -1, -1)`. -/
def targetOnlyLine (tgB : Int) (tg : Target K) : Line K :=
  WriteDatLine (tgB : K) tg (-1) (-1) (-1) (-1) (-1) (-1)

/-- The `do ... while (tgB < B * 0.999)` loop of `WriteDat` for a bucket of
mean area `B`, started with the region cursor `ri` at the head of the given
entries; `gm` is what `GetMeanIO(B, ...)` fills in at the top of every round.
The result is the target-only lines written, the target values left for the
row of the bucket, and the entries from the final cursor on; `none` when the
loop never ends (a round that writes a line and leaves the cursor in place
is repeated unchanged for ever). -/
def regionLoop (gm : Target K) (B : K) :
    IntMap (Region K) → Option (List (Line K) × Target K × IntMap (Region K))
  | [] => some ([], gm, [])
  | (tgB, r) :: rest =>
    if (tgB : K) < B * 1.0001 then
      if (tgB : K) < B * 0.999 then
        (regionLoop gm B rest).map
          (fun res => (targetOnlyLine tgB r.target :: res.1, res.2))
      else some ([], r.target, rest)
    else
      if (tgB : K) < B * 0.999 then none
      else some ([], gm, (tgB, r) :: rest)

/-- The row of a bucket: `WriteDatLine(out, B, tg..., T, I, O, g, sdevT, sdevG)`. -/
def bucketLine (a : Actual K) (tg : Target K) : Line K :=
  WriteDatLine a.B tg a.T a.I a.O a.g a.sdevT a.sdevG

/-- The loop of `WriteDat` over the buckets in ascending index order, with
the region cursor carried from one bucket to the next: the lines written, or
`none` when a region loop never ends. -/
def datLines (x : Extern K) (s : ModuleType K) :
    IntMap (List TreeNode) → IntMap (Region K) → Option (List (Line K))
  | [], _ => some []
  | bi :: rest, ri =>
    let a := bucketActual x bi.2
    match regionLoop (Extern.GetMeanIO x s a.B) a.B ri with
    | none => none
    | some (lines, tg, ri') =>
      (datLines x s rest ri').map (fun more => lines ++ bucketLine a tg :: more)

/-- The two column-header comment lines of the `.dat` file. -/
def datColumns : List (Line K) :=
  [[.str "#               ----------------------- target value ---------------------        ---------------------- actual value ----------------------"],
   [.str "#      B        meanT      meanI      meanO     meanG    stddevT   stddevg        meanT      meanI      meanO     meanG    stddevT   stddevg"]]

/-- Method `ModuleType::WriteDat`. The debug listing of the buckets goes to
the debug stream `dout`, not to a file, and is left out. -/
def ModuleType.WriteDat (x : Extern K) (g : Globals) (s : ModuleType K) (fs : FileSys K)
    (name : String) : Outcome (ModuleType K) K :=
  if s.datWritten then .done s fs
  else
    match s.FillBuckets x.log with
    | .error msg => .thrown msg s fs
    | .ok s1 =>
      let filename := name ++ ".dat"
      if !fs.canOpen filename then
        .thrown ("Cannot open " ++ filename ++ " for writing") s1 fs
      else
        match datLines x s1 s1.buckets s1.regions with
        | none => .hang
        | some lines =>
          .done { s1 with datWritten := true }
            (fs.write filename (statHeader g "data" name ++ datColumns ++ lines))

end Statistics

/-- Number of nodes of a list with a given area and terminal count. -/
def pairCount (ns : List TreeNode) (a t : Int) : Nat :=
  ns.countP (fun n => decide (n.Size = a ∧ n.NumTerminals = t))

/-- Count stored in `rtd[a][t]`, when both entries exist. -/
def rtdGet (rtd : IntMap (IntMap Int)) (a t : Int) : Option Int :=
  (IntMap.find rtd a).bind (fun inner => IntMap.find inner t)

/-- Sum of the counts stored in an inner map of `rtd`. -/
def innerTotal (inner : IntMap Int) : Int := (inner.map (fun e => e.2)).sum

/-- Sum of all the counts stored in `rtd`. -/
def rtdTotal (rtd : IntMap (IntMap Int)) : Int := (rtd.map (fun e => innerTotal e.2)).sum

/-- State of `rtd` after the nodes `ns` were counted: both levels are sorted,
a pair is stored exactly when it occurs among `ns`, with its number of
occurrences, and the counts add up to the number of nodes. -/
structure RtdInv (rtd : IntMap (IntMap Int)) (ns : List TreeNode) : Prop where
  sorted : IntMap.Sorted rtd
  inner : ∀ a i, IntMap.find rtd a = some i → IntMap.Sorted i
  get : ∀ a t, rtdGet rtd a t
    = if pairCount ns a t = 0 then none else some (pairCount ns a t : Int)
  total : rtdTotal rtd = (ns.length : Int)

/-- State of the bucket map after the nodes `ns` were bucketed: the keys are
sorted, the bucket of an index lists the nodes with that index in visiting
order, no bucket is empty, and the bucket sizes add up to the number of
nodes. -/
structure BucketInv {K : Type} [LinearOrderedField K] [FloorRing K] (log : K → K)
    (b : IntMap (List TreeNode)) (ns : List TreeNode) : Prop where
  sorted : IntMap.Sorted b
  get : ∀ k, (IntMap.find b k).getD []
    = ns.filter (fun n => decide (bucketIndex log n.Size = k))
  nonempty : ∀ k l, IntMap.find b k = some l → l ≠ []
  total : ((b.map (fun e => (e.2.length : Int))).sum) = (ns.length : Int)

/-- The rows of the `.dat` file that go with a plan: for each bucket, the
target-only lines of a run of regions (with the values stored in each region)
followed by the row of the bucket with the given target values. -/
def datRows {K : Type} [LinearOrderedField K] (x : Extern K) :
    List ((IntMap (Region K) × Target K) × (Int × List TreeNode)) → List (Line K)
  | [] => []
  | ((seg, tg), bi) :: rest =>
    seg.map (fun e => targetOnlyLine e.1 e.2.target)
      ++ bucketLine (bucketActual x bi.2) tg :: datRows x rest

/-! ## Module writers -/

section Writers

variable {K : Type} [LinearOrderedField K] [FloorRing K]

/-- Method `ModuleType::WriteRegions`: the region table, one block of lines
per region; the interpolation parameters are written for thresholds above 1. -/
def ModuleType.WriteRegions (s : ModuleType K) (pre : String) : List (Line K) :=
  [[.str pre], [.str pre, .str "Regions:"]] ++
  s.regions.flatMap (fun ri =>
    [[.str pre, .str "  B >= ", .int ri.1],
     [.str pre, .str "    meanT  = ", .num ri.2.meanT],
     [.str pre, .str "    sigmaT = ", .num ri.2.sigmaT],
     [.str pre, .str "    meanG  = ", .num ri.2.meanG],
     [.str pre, .str "    sigmaG = ", .num ri.2.sigmaG]] ++
    (if ri.1 > 1 then
      [[.str pre, .str "    p      = ", .num ri.2.p],
       [.str pre, .str "    q      = ", .num ri.2.q],
       [.str pre, .str "    g_fact = ", .num ri.2.g_factor]]
     else []))

/-- The lines of one entry of `Globals::hierarchy`: the parent name, then the
children, the first one marked with a backslash. -/
def hierarchyLines (pre : String) (hi : String × List String) : List (Line K) :=
  [.str pre, .str "  ", .str hi.1] ::
  hi.2.enum.map (fun li =>
    [.str pre, .str "    ", .str (if li.1 = 0 then "\\" else " "), .str "| ", .str li.2])

/-- Method `Module::WriteInfoHeader`: the command line, the basic circuit
parameters next to the estimates of `GetIO`, the region table, and for the
top-level module type the hierarchy listing. -/
def Module.WriteInfoHeader (x : Extern K) (g : Globals) (m : Module) (modType : ModuleType K)
    (pre : String) : List (Line K) :=
  let numPins := m.numInputs + m.numOutputs
  let io := Extern.GetIO x modType m.area
  let P := io.1 + io.2
  [[.str pre, .str "Command line: ", .str g.commandLine],
   [.str pre],
   [.str pre, .str "Basic circuit parameters:"],
   [.str pre, .str "   blocks: ", .int m.numBlocks],
   [.str pre, .str "   inputs:  ", .int m.numInputs, .str "   (", .int io.1, .str ")"],
   [.str pre, .str "   outputs: ", .int m.numOutputs, .str "   (", .int io.2, .str ")"],
   [.str pre, .str "   pins:    ", .int numPins, .str "   (", .int P, .str ")"],
   [.str pre, .str "   g_frac:  ", .num ((m.numOutputs : K) / (numPins : K)), .str "   (",
     .num ((io.2 : K) / (P : K)), .str ")"]] ++
  modType.WriteRegions pre ++
  [[.str pre]] ++
  (if g.circuit = modType.addr ∧ g.hierarchy ≠ [] then
    [[.str pre, .str "Hierarchy:"]] ++ g.hierarchy.flatMap (hierarchyLines pre) ++ [[.str pre]]
   else [])

/-- The `[blocks]` section of the `.tree` file: one `moduleNumber` per block,
in list order. -/
def Module.treeBlocks (m : Module) : List (Line K) :=
  m.blocks.map (fun bi => [.int bi.moduleNumber])

/-- The `[tree]` section of the `.tree` file: one `parent child1 child2`
triple per entry of `Globals::treeData`, in list order. -/
def treeTriples (g : Globals) : List (Line K) :=
  g.treeData.map (fun ti => [.int ti.parent, .str " ", .int ti.child1, .str " ", .int ti.child2])

/-- Method `Module::WriteTree`. -/
def Module.WriteTree (x : Extern K) (g : Globals) (m : Module) (modType : ModuleType K)
    (fs : FileSys K) (name : String) : Outcome Unit K :=
  let filename := name ++ ".tree"
  if !fs.canOpen filename then
    .thrown ("Cannot open " ++ filename ++ " for writing") () fs
  else
    .done () (fs.write filename (
      [[.str "# Tree data ", .str name, .str " generated by gnl ", .str g.version,
        .str " on ", .str g.time]] ++
      m.WriteInfoHeader x g modType "# " ++
      [[], [.str "[top]"], [.int m.number]] ++
      [[], [.str "[blocks]"]] ++ m.treeBlocks ++
      [[], [.str "[tree]"]] ++ treeTriples g))

end Writers

/-! ## Netlist writers -/

section NetlistWriters

variable {K : Type}

/-- A `std::map<string, V>`: the list of its entries in ascending key order. -/
abbrev StrMap (V : Type) := List (String × V)

/-- Statement `m[k] = v` on a `std::map<string, V>`: the value of an existing
entry is replaced, a missing entry is inserted at its place in key order. -/
def StrMap.assign {V : Type} (k : String) (v : V) : StrMap V → StrMap V
  | [] => [(k, v)]
  | (k', v') :: rest =>
    if k < k' then (k, v) :: (k', v') :: rest
    else if k = k' then (k', v) :: rest
    else (k', v') :: StrMap.assign k v rest

/-- One node line of the `.ptree` file: `parent area numBlocks inputs outputs
0`, followed by the two children when `child1 >= 0`. -/
def ptreeLine (ti : PtreeNode) : Line K :=
  [.int ti.parent, .str " ", .int ti.area, .str " ", .int ti.numBlocks, .str " ",
   .int ti.inputs, .str " ", .int ti.outputs, .str " 0 "] ++
  (if ti.child1 ≥ 0 then [.int ti.child1, .str " ", .int ti.child2] else [])

/-- The node lines of the `.ptree` file: `Globals::treeData` walked with a
reverse iterator. -/
def ptreeLines (g : Globals) : List (Line K) :=
  g.treeData.reverse.map ptreeLine

/-- Method `Module::WritePtree`. -/
def Module.WritePtree [LinearOrderedField K] (x : Extern K) (g : Globals) (m : Module)
    (modType : ModuleType K) (fs : FileSys K) (name : String) : Outcome Unit K :=
  let filename := name ++ ".ptree"
  if !fs.canOpen filename then
    .thrown ("Cannot open " ++ filename ++ " for writing") () fs
  else
    .done () (fs.write filename (
      [[.str "# ptree ", .str name, .str " generated by gnl ", .str g.version,
        .str " on ", .str g.time]] ++
      m.WriteInfoHeader x g modType "# " ++
      ptreeLines g))

/-- The map `cells` of `WriteHnl`: `cells[name] = cell` for every block in
list order. -/
def Module.cells (m : Module) : StrMap Librarycell :=
  m.blocks.foldl (fun cells bi => StrMap.assign bi.cell.Name bi.cell cells) []

/-- The pin names `" i" << 1 ... " i" << n` written by the loop
`for (int i = 1; i <= n; ++i)`. -/
def pinNames (pre : String) (n : Int) : List (Item K) :=
  (List.range n.toNat).flatMap (fun i => [.str pre, .int ((i : Int) + 1)])

/-- The lines of one library cell in the `.hnl` file. -/
def cellLines (g : Globals) (li : String × Librarycell) : List (Line K) :=
  [[.str (if li.2.Sequential then "sequential " else "combinational "), .str li.1]] ++
  (if li.2.I ≠ 0 then [.str "input" :: pinNames " i" li.2.I] else []) ++
  (if li.2.O ≠ 0 then [.str "output" :: pinNames " o" li.2.O] else []) ++
  [[.str "area ", .int (if g.areaAsWeight then li.2.Weight else li.2.Size)],
   [.str "end"], []]

/-- The tokens `" n" << netMap[p]` for a sequence of nets, with the map left
behind. -/
def netTokens (netMap : CounterMap) : List Ptr → List (Item K) × CounterMap
  | [] => ([], netMap)
  | p :: ps =>
    let r := netMap.get p
    let rest := netTokens r.2 ps
    (.str " n" :: .int r.1 :: rest.1, rest.2)

/-- The block lines of the circuit body of the `.hnl` file: the cell name,
the nets of the input pins, then the nets of the output pins. -/
def hnlBlockLines (netMap : CounterMap) : List Block → List (Line K) × CounterMap
  | [] => ([], netMap)
  | bi :: rest =>
    let r1 := netTokens (K := K) netMap bi.inputs
    let r2 := netTokens (K := K) r1.2 bi.outputs
    let more := hnlBlockLines r2.2 rest
    ((.str bi.cell.Name :: (r1.1 ++ r2.1)) :: more.1, more.2)

/-- The circuit body of the `.hnl` file after the `circuit` line: the input
line and the output line (each left out when the list is empty), the block
lines, with the map left behind. -/
def hnlBody (m : Module) : List (Line K) × CounterMap :=
  let r1 := netTokens (K := K) CounterMap.fresh (m.inputs.map (fun ni => ni.addr))
  let r2 := netTokens (K := K) r1.2 (m.outputs.map (fun ni => ni.addr))
  let r3 := hnlBlockLines (K := K) r2.2 m.blocks
  ((if m.inputs ≠ [] then [.str "input" :: r1.1] else []) ++
   (if m.outputs ≠ [] then [.str "output" :: r2.1] else []) ++
   r3.1, r3.2)

/-- Method `Module::WriteHnl`. -/
def Module.WriteHnl [LinearOrderedField K] (x : Extern K) (g : Globals) (m : Module)
    (modType : ModuleType K) (fs : FileSys K) (name : String) : Outcome Unit K :=
  let cells := m.cells
  let filename := name ++ ".hnl"
  if !fs.canOpen filename then
    .thrown ("Cannot open " ++ filename ++ " for writing") () fs
  else
    .done () (fs.write filename (
      [[.str "# Netlist ", .str name, .str " generated by gnl ", .str g.version,
        .str " on ", .str g.time]] ++
      m.WriteInfoHeader x g modType "# " ++
      cells.flatMap (cellLines g) ++
      [[.str "circuit ", .str name]] ++
      (hnlBody m).1 ++
      [[.str "end"]]))

/-- Method `Module::TotalPinCount`. -/
def Module.TotalPinCount (m : Module) : Int :=
  m.blocks.foldl (fun pins bi => pins + ((bi.inputs.length : Int) + (bi.outputs.length : Int))) 0

/-- The state shared by the net writers of one file: the `CounterMap` of the
cells and the pad counter. -/
structure NetState where
  cellMap : CounterMap
  padCounter : Int
deriving DecidableEq

/-- A loop `for (ni = nets.begin(); ni != nets.end(); ++ni) (*ni)->Write(...)`
over a list of nets, each call appending its lines and updating the shared
state. -/
def writeAll {α : Type} (f : α → NetState → List (Line K) × NetState) :
    List α → NetState → List (Line K) × NetState
  | [], st => ([], st)
  | ni :: rest, st =>
    let r := f ni st
    let more := writeAll f rest r.2
    (r.1 ++ more.1, more.2)

/-- Method `Module::Net::WriteNetD`: one sink record per sink. -/
def Net.WriteNetD (cellMap : CounterMap) : List Terminal → List (Line K) × CounterMap
  | [] => ([], cellMap)
  | ti :: rest =>
    let r := cellMap.get ti.1.addr
    let more := Net.WriteNetD r.2 rest
    ([.str "a", .int r.1, .str " l I"] :: more.1, more.2)

/-- Method `Module::InputNet::WriteNetD`: the pad as source, then the sinks. -/
def InputNet.WriteNetD (n : InputNet) (st : NetState) : List (Line K) × NetState :=
  let r := Net.WriteNetD (K := K) st.cellMap n.sinks
  ([.str "p", .int (st.padCounter + 1), .str " s O"] :: r.1, ⟨r.2, st.padCounter + 1⟩)

/-- Method `Module::OutputNet::WriteNetD`: the driving cell as source, the pad
of an external net as first sink, then the sinks. -/
def OutputNet.WriteNetD (external : Bool) (n : OutputNet) (st : NetState) :
    List (Line K) × NetState :=
  let s := st.cellMap.get n.source.1.addr
  let r := Net.WriteNetD (K := K) s.2 n.sinks
  if external then
    ([.str "a", .int s.1, .str " s O"] :: [.str "p", .int (st.padCounter + 1), .str " l I"]
      :: r.1, ⟨r.2, st.padCounter + 1⟩)
  else
    ([.str "a", .int s.1, .str " s O"] :: r.1, ⟨r.2, st.padCounter⟩)

/-- The five header lines of the `.netD` file. -/
def Module.netDHeader (m : Module) : List (Line K) :=
  [[.str "0"],
   [.int (m.TotalPinCount + m.numInputs + m.numOutputs)],
   [.int ((m.internalNets.length : Int) + m.numInputs + m.numOutputs)],
   [.int (m.numBlocks + m.numInputs + m.numOutputs)],
   [.int (m.numBlocks - 1)]]

/-- The body of the `.netD` file: the input nets, the external output nets,
the internal nets, with a fresh `CounterMap` and the pad counter at 0. -/
def Module.netDBody (m : Module) : List (Line K) × NetState :=
  let r1 := writeAll (K := K) InputNet.WriteNetD m.inputs ⟨CounterMap.fresh, 0⟩
  let r2 := writeAll (K := K) (OutputNet.WriteNetD true) m.outputs r1.2
  let r3 := writeAll (K := K) (OutputNet.WriteNetD false) m.internalNets r2.2
  (r1.1 ++ r2.1 ++ r3.1, r3.2)

/-- Method `Module::WriteNetD`. -/
def Module.WriteNetD (m : Module) (fs : FileSys K) (name : String) : Outcome Unit K :=
  let filename := name ++ ".netD"
  if !fs.canOpen filename then
    .thrown ("Cannot open " ++ filename ++ " for writing") () fs
  else
    .done () (fs.write filename (m.netDHeader ++ (m.netDBody (K := K)).1))

/-- Method `Module::InputNet::WriteNetD2`: one record per sink, each with a
pad of its own as source. -/
def InputNet.sinksNetD2 (st : NetState) : List Terminal → List (Line K) × NetState
  | [] => ([], st)
  | ti :: rest =>
    let r := st.cellMap.get ti.1.addr
    let more := InputNet.sinksNetD2 ⟨r.2, st.padCounter + 1⟩ rest
    ([.str "p", .int (st.padCounter + 1), .str " s O"] :: [.str "a", .int r.1, .str " l I"]
      :: more.1, more.2)

/-- Method `Module::InputNet::WriteNetD2`. -/
def InputNet.WriteNetD2 (n : InputNet) (st : NetState) : List (Line K) × NetState :=
  InputNet.sinksNetD2 st n.sinks

/-- The sink loop of `Module::OutputNet::WriteNetD2`: one record per sink,
the driving cell looked up again for each. -/
def OutputNet.sinksNetD2 (source : Ptr) (cellMap : CounterMap) :
    List Terminal → List (Line K) × CounterMap
  | [] => ([], cellMap)
  | ti :: rest =>
    let s := cellMap.get source
    let r := s.2.get ti.1.addr
    let more := OutputNet.sinksNetD2 source r.2 rest
    ([.str "a", .int s.1, .str " s O"] :: [.str "a", .int r.1, .str " l I"] :: more.1, more.2)

/-- Method `Module::OutputNet::WriteNetD2`: for an external net a record from
the driving cell to the pad, then one record per sink. -/
def OutputNet.WriteNetD2 (external : Bool) (n : OutputNet) (st : NetState) :
    List (Line K) × NetState :=
  if external then
    let s := st.cellMap.get n.source.1.addr
    let r := OutputNet.sinksNetD2 (K := K) n.source.1.addr s.2 n.sinks
    ([.str "a", .int s.1, .str " s O"] :: [.str "p", .int (st.padCounter + 1), .str " l I"]
      :: r.1, ⟨r.2, st.padCounter + 1⟩)
  else
    let r := OutputNet.sinksNetD2 (K := K) n.source.1.addr st.cellMap n.sinks
    (r.1, ⟨r.2, st.padCounter⟩)

/-- The count `numIn` of `WriteNetD2`: the sinks of the input nets. -/
def Module.numIn (m : Module) : Int :=
  m.inputs.foldl (fun acc ni => acc + (ni.sinks.length : Int)) 0

/-- The count `numOut` of `WriteNetD2`: the sinks of the external output nets
and one more for each of them, then the sinks of the internal nets. -/
def Module.numOut (m : Module) : Int :=
  m.internalNets.foldl (fun acc ni => acc + (ni.sinks.length : Int))
    (m.outputs.foldl (fun acc ni => acc + ((ni.sinks.length : Int) + 1)) 0)

/-- The five header lines of the `.netD2` file. -/
def Module.netD2Header (m : Module) : List (Line K) :=
  [[.str "0"],
   [.int (2 * (m.numIn + m.numOut))],
   [.int (m.numIn + m.numOut)],
   [.int (m.numBlocks + m.numOutputs + m.numIn)],
   [.int (m.numBlocks - 1)]]

/-- The body of the `.netD2` file. -/
def Module.netD2Body (m : Module) : List (Line K) × NetState :=
  let r1 := writeAll (K := K) InputNet.WriteNetD2 m.inputs ⟨CounterMap.fresh, 0⟩
  let r2 := writeAll (K := K) (OutputNet.WriteNetD2 true) m.outputs r1.2
  let r3 := writeAll (K := K) (OutputNet.WriteNetD2 false) m.internalNets r2.2
  (r1.1 ++ r2.1 ++ r3.1, r3.2)

/-- Method `Module::WriteNetD2`. -/
def Module.WriteNetD2 (m : Module) (fs : FileSys K) (name : String) : Outcome Unit K :=
  let filename := name ++ ".netD2"
  if !fs.canOpen filename then
    .thrown ("Cannot open " ++ filename ++ " for writing") () fs
  else
    .done () (fs.write filename (m.netD2Header ++ (m.netD2Body (K := K)).1))

end NetlistWriters

section PlacementWriters

variable {K : Type}

/-- Method `Module::Net::WriteNets`: one `<cellName>_<id> I` line per sink. -/
def Net.WriteNets (cellMap : CounterMap) : List Terminal → List (Line K) × CounterMap
  | [] => ([], cellMap)
  | ti :: rest =>
    let r := cellMap.get ti.1.addr
    let more := Net.WriteNets r.2 rest
    ([.str ti.1.cell.Name, .str "_", .int r.1, .str " I"] :: more.1, more.2)

/-- Method `Module::InputNet::WriteNets`: the degree line, the pad as driver,
then the sinks. -/
def InputNet.WriteNets (n : InputNet) (st : NetState) : List (Line K) × NetState :=
  let r := Net.WriteNets (K := K) st.cellMap n.sinks
  ([.str "NetDegree : ", .int ((n.sinks.length : Int) + 1)]
    :: [.str "pad_", .int (st.padCounter + 1), .str " O"] :: r.1, ⟨r.2, st.padCounter + 1⟩)

/-- Method `Module::OutputNet::WriteNets`: the degree line, the source block
as driver, the pad of an external net, then the sinks. -/
def OutputNet.WriteNets (external : Bool) (n : OutputNet) (st : NetState) :
    List (Line K) × NetState :=
  let s := st.cellMap.get n.source.1.addr
  let r := Net.WriteNets (K := K) s.2 n.sinks
  if external then
    ([.str "NetDegree : ", .int ((n.sinks.length : Int) + 1 + 1)]
      :: [.str n.source.1.cell.Name, .str "_", .int s.1, .str " O"]
      :: [.str "pad_", .int (st.padCounter + 1), .str " I"] :: r.1, ⟨r.2, st.padCounter + 1⟩)
  else
    ([.str "NetDegree : ", .int ((n.sinks.length : Int) + 0 + 1)]
      :: [.str n.source.1.cell.Name, .str "_", .int s.1, .str " O"] :: r.1,
      ⟨r.2, st.padCounter⟩)

/-- The pad declarations of the `.nodes` file, `pad_1` to `pad_n`. -/
def padLines (n : Int) : List (Line K) :=
  (List.range n.toNat).map (fun i => [.str "pad_", .int ((i : Int) + 1), .str " terminal"])

/-- The block declarations of the `.nodes` file, `<cellName>_<id>` with the
id of the block in `cellMap`, and the map left behind. -/
def nodesBlockLines (cellMap : CounterMap) : List Block → List (Line K) × CounterMap
  | [] => ([], cellMap)
  | bi :: rest =>
    let r := cellMap.get bi.addr
    let more := nodesBlockLines r.2 rest
    ([.str bi.cell.Name, .str "_", .int r.1] :: more.1, more.2)

/-- The net records of the `.nets` file, written with the `cellMap` left by
the `.nodes` pass and the pad counter at 0. -/
def Module.netsBody (m : Module) (cellMap : CounterMap) : List (Line K) × NetState :=
  let r1 := writeAll (K := K) InputNet.WriteNets m.inputs ⟨cellMap, 0⟩
  let r2 := writeAll (K := K) (OutputNet.WriteNets true) m.outputs r1.2
  let r3 := writeAll (K := K) (OutputNet.WriteNets false) m.internalNets r2.2
  (r1.1 ++ r2.1 ++ r3.1, r3.2)

/-- The content of the `.nodes` file. -/
def Module.nodesFile [LinearOrderedField K] (x : Extern K) (g : Globals) (m : Module)
    (modType : ModuleType K) (name : String) : List (Line K) :=
  [[.str "UCLA nodes 1.0"],
   [.str "# Netlist ", .str name, .str " generated by gnl ", .str g.version, .str " on ",
    .str g.time]] ++
  m.WriteInfoHeader x g modType "# " ++
  [[.str "NumNodes : ", .int (m.numBlocks + m.numInputs + m.numOutputs)],
   [.str "NumTerminals : ", .int (m.numInputs + m.numOutputs)]] ++
  padLines (m.numInputs + m.numOutputs) ++
  (nodesBlockLines CounterMap.fresh m.blocks).1

/-- The content of the `.nets` file. -/
def Module.netsFile [LinearOrderedField K] (x : Extern K) (g : Globals) (m : Module)
    (modType : ModuleType K) (name : String) : List (Line K) :=
  [[.str "UCLA nets  1.0"],
   [.str "# Netlist ", .str name, .str " generated by gnl ", .str g.version, .str " on ",
    .str g.time]] ++
  m.WriteInfoHeader x g modType "# " ++
  [[.str "NumNets : ", .int ((m.internalNets.length : Int) + m.numInputs + m.numOutputs)],
   [.str "NumPins : ", .int (m.TotalPinCount + m.numInputs + m.numOutputs)]] ++
  (m.netsBody (nodesBlockLines (K := K) CounterMap.fresh m.blocks).2).1

/-- Method `Module::WriteNets`: the `.nodes` file is written and closed, then
the `.nets` file is opened. -/
def Module.WriteNets [LinearOrderedField K] (x : Extern K) (g : Globals) (m : Module)
    (modType : ModuleType K) (fs : FileSys K) (name : String) : Outcome Unit K :=
  let filename := name ++ ".nodes"
  if !fs.canOpen filename then
    .thrown ("Cannot open " ++ filename ++ " for writing") () fs
  else
    let fs1 := fs.write filename (m.nodesFile x g modType name)
    let filename2 := name ++ ".nets"
    if !fs1.canOpen filename2 then
      .thrown ("Cannot open " ++ filename2 ++ " for writing") () fs1
    else
      .done () (fs1.write filename2 (m.netsFile x g modType name))

/-- Method `Module::WriteInfo`. The default value of the `prefix` argument of
`WriteInfoHeader` is declared in `main.h` and is passed in as `pre`. -/
def Module.WriteInfo [LinearOrderedField K] (x : Extern K) (g : Globals) (m : Module)
    (modType : ModuleType K) (pre : String) (fs : FileSys K) (name : String) :
    Outcome Unit K :=
  let filename := name ++ ".info"
  if !fs.canOpen filename then
    .thrown ("Cannot open " ++ filename ++ " for writing") () fs
  else
    .done () (fs.write filename (
      [[.str "Netlist ", .str name, .str " generated by gnl ", .str g.version, .str " on ",
        .str g.time]] ++
      m.WriteInfoHeader x g modType pre))

/-- The fixed script written to the `.plot` file. -/
def plotLines (name : String) : List (Line K) :=
  [[.str "set logscale xy"],
   [.str "set data style linespoints"],
   [],
   [.str "plot \"", .str name, .str ".rtd\" tit \"Scattered T data\" with points, \\"],
   [.str "     \"", .str name, .str ".dat\" using 1:2 tit \"Target mean T\" with lines"],
   [],
   [.str "pause -1"],
   [],
   [.str "plot \"", .str name, .str ".dat\" using 1:2 tit \"Target mean T\" with lines, \\"],
   [.str "     \"", .str name, .str ".dat\" using 1:8 tit \"Actual mean T\", \\"],
   [.str "     \"", .str name, .str ".dat\" using 1:3 tit \"Target mean I\" with lines, \\"],
   [.str "     \"", .str name, .str ".dat\" using 1:9 tit \"Actual mean I\", \\"],
   [.str "     \"", .str name, .str ".dat\" using 1:4 tit \"Target mean O\" with lines, \\"],
   [.str "     \"", .str name, .str ".dat\" using 1:10 tit \"Actual mean O\", \\"],
   [.str "     \"", .str name, .str ".dat\" using 1:6 tit \"Target sigma T\" with lines, \\"],
   [.str "     \"", .str name, .str ".dat\" using 1:12 tit \"Actual sigma T\""],
   [],
   [.str "pause -1"],
   [],
   [.str "set nologscale y"],
   [.str "plot \"", .str name, .str ".dat\" using 1:5 tit \"Target mean g\" with lines, \\"],
   [.str "     \"", .str name, .str ".dat\" using 1:11 tit \"Actual mean g\", \\"],
   [.str "     \"", .str name, .str ".dat\" using 1:7 tit \"Target sigma g\" with lines, \\"],
   [.str "     \"", .str name, .str ".dat\" using 1:13 tit \"Actual sigma g\""],
   [],
   [.str "pause -1"]]

/-- Method `Module::WritePlots`: the two statistics files of the module type
are written first, then the `.plot` file is opened. -/
def Module.WritePlots [LinearOrderedField K] [FloorRing K] (x : Extern K) (g : Globals)
    (modType : ModuleType K) (fs : FileSys K) (name : String) : Outcome (ModuleType K) K :=
  match modType.WriteRtd g fs name with
  | .hang => .hang
  | .thrown msg s1 fs1 => .thrown msg s1 fs1
  | .done s1 fs1 =>
    match s1.WriteDat x g fs1 name with
    | .hang => .hang
    | .thrown msg s2 fs2 => .thrown msg s2 fs2
    | .done s2 fs2 =>
      let filename := name ++ ".plot"
      if !fs2.canOpen filename then
        .thrown ("Cannot open " ++ filename ++ " for writing") s2 fs2
      else
        .done s2 (fs2.write filename (plotLines name))

end PlacementWriters

/-! ## Sample data -/

/-- Sample collaborators around given `log`, `exp` and `sqrt`: a target model
that answers the area it is asked about in every field, and an IO estimate
of `(0, 0)`. -/
def sampleExtern {K : Type} (log exp sqrt : K → K) : Extern K :=
  { log := log
    exp := exp
    sqrt := sqrt
    GetMeanIO := fun _ B => ⟨B, B, B, B, B, B⟩
    GetIO := fun _ _ => (0, 0) }

/-- Sample globals: no hierarchy and no recorded forest nodes. -/
def sampleGlobals : Globals :=
  { version := "1.0", time := "now", commandLine := "gnl", areaAsWeight := false,
    circuit := 0, hierarchy := [], treeData := [] }

/-- Sample destinations: every path can be opened, nothing is written yet. -/
def sampleFiles (K : Type) : FileSys K := ⟨fun _ => true, []⟩

/-- Sample module type with an empty forest and no statistics computed. -/
def emptyForestType (K : Type) : ModuleType K :=
  { addr := 1, forrest := [], regions := [], buckets := [], rtdWritten := false,
    datWritten := false }

/-- Sample module: one inverter between one input net and one output net. -/
def sampleModule : Module :=
  let inv : Librarycell := ⟨"INV", false, 1, 1, 1, 1⟩
  let b : Block := ⟨100, inv, 7, [200], [201]⟩
  { number := 3, area := 1, numBlocks := 1, numInputs := 1, numOutputs := 1,
    blocks := [b], inputs := [⟨200, [(b, 0)]⟩], outputs := [⟨201, (b, 0), []⟩],
    internalNets := [] }

/-- Sample region: `meanT = 4`, `meanG = 0.5`, `sigmaT = 1`, `sigmaG = 0.1`. -/
def sampleRegion (K : Type) [LinearOrderedField K] : Region K :=
  ⟨4, 1, 1 / 2, 1 / 10, 0, 0, 0⟩

/-- Sample module type: a single leaf of the given area with two inputs and
two outputs, and the one-region table with `sampleRegion` at threshold 1. -/
def leafType (K : Type) [LinearOrderedField K] (area : Int) : ModuleType K :=
  { addr := 1, forrest := [(0, .leaf area 2 2)],
    regions := [(1, sampleRegion K)],
    buckets := [], rtdWritten := false, datWritten := false }

/-- Sample partition tree: five nodes, two of them leaves of area 2 with two
terminals. -/
def sampleTree : TreeNode :=
  .compound 5 2 1 (.leaf 2 1 1) (.compound 3 2 1 (.leaf 2 1 1) (.leaf 1 1 1))

/-- Sample module type over `sampleTree`, with no regions and no statistics
computed. -/
def treeType (K : Type) : ModuleType K :=
  { addr := 1, forrest := [(0, sampleTree)], regions := [], buckets := [],
    rtdWritten := false, datWritten := false }

/-! ## Auxiliary notions for the writers -/

/-- Sample globals with three recorded forest nodes: a root with the children
1 and 2, then two leaves (`child1 = -1`). -/
def treeGlobals : Globals :=
  { version := "1.0", time := "now", commandLine := "gnl", areaAsWeight := false,
    circuit := 0, hierarchy := [],
    treeData := [⟨-1, 1, 2, 5, 2, 2, 1⟩, ⟨0, -1, -1, 2, 1, 1, 1⟩, ⟨0, -1, -1, 3, 1, 2, 1⟩] }

/-- The first ten items of a `.ptree` node line, up to the constant `0`. -/
def ptreeBase {K : Type} (ti : PtreeNode) : Line K :=
  [.int ti.parent, .str " ", .int ti.area, .str " ", .int ti.numBlocks, .str " ",
   .int ti.inputs, .str " ", .int ti.outputs, .str " 0 "]

/-- The files left behind by a writer that ended (normally or by a throw). -/
def Outcome.files {σ K : Type} : Outcome σ K → Option (FileSys K)
  | .done _ fs => some fs
  | .thrown _ _ fs => some fs
  | .hang => none

/-- Sample destinations: no path can be opened, nothing is written. -/
def closedFiles (K : Type) : FileSys K := ⟨fun _ => false, []⟩

/-- Every identity known to the map `a` has the same id in the map `b`. -/
def CounterMap.le (a b : CounterMap) : Prop :=
  ∀ p v, a.find p = some v → b.find p = some v

/-- The id stored for an identity in a map (0 when there is none). -/
def CounterMap.idOf (c : CounterMap) (p : Ptr) : Int := (c.find p).getD 0

/-- The tokens `n<id>` of a sequence of nets under a given numbering. -/
def tokensOf {K : Type} (ids : Ptr → Int) (ps : List Ptr) : List (Item K) :=
  ps.flatMap (fun p => [.str " n", .int (ids p)])

/-- The nets looked up by `WriteHnl`, in the order of the lookups: the primary
inputs, the primary outputs, then for every block its input pins and its
output pins. -/
def Module.hnlNets (m : Module) : List Ptr :=
  m.inputs.map (fun ni => ni.addr) ++ (m.outputs.map (fun ni => ni.addr) ++
    m.blocks.flatMap (fun bi => bi.inputs ++ bi.outputs))

/-- The library cell of the last block of a list with a given cell name. -/
def lastCell (bs : List Block) (k : String) : Option Librarycell :=
  (bs.reverse.find? (fun b => b.cell.Name == k)).map (fun b => b.cell)

/-- Sample module with three blocks over two library cells, a two-input
`NAND` used twice around an `INV`, and no nets listed. -/
def twoCellModule : Module :=
  let nand : Librarycell := ⟨"NAND", false, 2, 1, 2, 3⟩
  let inv : Librarycell := ⟨"INV", false, 1, 1, 1, 2⟩
  { number := 0, area := 5, numBlocks := 3, numInputs := 0, numOutputs := 0,
    blocks := [⟨100, nand, 1, [], []⟩, ⟨101, inv, 2, [], []⟩, ⟨102, nand, 3, [], []⟩],
    inputs := [], outputs := [], internalNets := [] }

/-! ## Pins, sinks and records -/

/-- The input pins of the listed blocks: a block with each of its input pin
positions. -/
def Module.inputPins (m : Module) : List Terminal :=
  m.blocks.flatMap (fun b => (List.range b.inputs.length).map (fun i => (b, Int.ofNat i)))

/-- The output pins of the listed blocks. -/
def Module.outputPins (m : Module) : List Terminal :=
  m.blocks.flatMap (fun b => (List.range b.outputs.length).map (fun i => (b, Int.ofNat i)))

/-- The sink terminals of all listed nets, in the order in which the nets are
written. -/
def Module.allSinks (m : Module) : List Terminal :=
  m.inputs.flatMap (fun ni => ni.sinks) ++ (m.outputs.flatMap (fun ni => ni.sinks) ++
    m.internalNets.flatMap (fun ni => ni.sinks))

/-- The source terminals of the nets in `outputs` and `internalNets`. -/
def Module.allSources (m : Module) : List Terminal :=
  m.outputs.map (fun ni => ni.source) ++ m.internalNets.map (fun ni => ni.source)

/-- The role of a pin record `<node> <direction> <role>` of a `.netD` file:
its third item. -/
def Line.role {K : Type} : Line K → Option String
  | [_, _, .str r] => some r
  | _ => none

/-- Number of source records (`s O`) among the lines of a `.netD` body. -/
def sourceCount {K : Type} (lines : List (Line K)) : Nat :=
  lines.countP (fun l => decide (Line.role l = some " s O"))

/-- Sample module with a dangling sink: the module of `sampleModule`, whose
input net also feeds a block that is not in the block list. -/
def dangleModule : Module :=
  let inv : Librarycell := ⟨"INV", false, 1, 1, 1, 1⟩
  let b : Block := ⟨100, inv, 7, [200], [201]⟩
  let c : Block := ⟨101, inv, 8, [200], [202]⟩
  { number := 3, area := 1, numBlocks := 1, numInputs := 1, numOutputs := 1,
    blocks := [b], inputs := [⟨200, [(b, 0), (c, 0)]⟩], outputs := [⟨201, (b, 0), []⟩],
    internalNets := [] }

/-- The mark that ends a pin line of the `.nets` file (`" O"` or `" I"`): its
last item. -/
def Line.mark {K : Type} (l : Line K) : Option String :=
  match l.getLast? with
  | some (.str s) => some s
  | _ => none

/-- A net record of the `.nets` file: a `NetDegree : k` line followed by `k`
pin lines, the first of them (the driver) marked `O` and all others marked
`I`. -/
def IsNetRecord {K : Type} (r : List (Line K)) : Prop :=
  ∃ (k : Int) (driver : Line K) (rest : List (Line K)),
    r = [.str "NetDegree : ", .int k] :: driver :: rest ∧
    k = ((driver :: rest).length : Int) ∧
    Line.mark driver = some " O" ∧
    ∀ l ∈ rest, Line.mark l = some " I"

/-! ## The records of the `.netD2` file, as the specification words them -/

/-- An end of a two-pin record of the `.netD2` file: a pad, or the cell of a
block. -/
inductive Endpoint where
  | pad : Endpoint
  | cell : Ptr → Endpoint
deriving DecidableEq, Repr

/-- A two-pin record: its source and its sink. -/
abbrev PairRecord := Endpoint × Endpoint

/-- Whether a record has a pad at one of its ends. -/
def PairRecord.hasPad (r : PairRecord) : Bool :=
  r.1 == Endpoint.pad || r.2 == Endpoint.pad

/-- Specification of the records of the `.netD2` file: one record (pad, sink
cell) per sink of every input net, then for every external output net one
record (driver cell, pad) and one record (driver cell, sink cell) per sink,
then one record (driver cell, sink cell) per sink of every internal net. -/
def Module.specNetD2Records (m : Module) : List PairRecord :=
  m.inputs.flatMap (fun n => n.sinks.map (fun t => (Endpoint.pad, Endpoint.cell t.1.addr))) ++
  m.outputs.flatMap (fun n => (Endpoint.cell n.source.1.addr, Endpoint.pad)
    :: n.sinks.map (fun t => (Endpoint.cell n.source.1.addr, Endpoint.cell t.1.addr))) ++
  m.internalNets.flatMap (fun n =>
    n.sinks.map (fun t => (Endpoint.cell n.source.1.addr, Endpoint.cell t.1.addr)))

/-- The line of one end of a record: `p<k>` for the pad with the next pad
number, `a<id>` for a cell, followed by the role of the end. -/
def specEndLine {K : Type} (ids : Ptr → Int) (padCounter : Int) (role : String) :
    Endpoint → Line K
  | .pad => [.str "p", .int (padCounter + 1), .str role]
  | .cell c => [.str "a", .int (ids c), .str role]

/-- Specification of the body of the `.netD2` file: every record as a source
line (`s O`) followed by a sink line (`l I`), the pads numbered from
`padCounter + 1` in the order of the records. -/
def specNetD2Lines {K : Type} (ids : Ptr → Int) : Int → List PairRecord → List (Line K)
  | _, [] => []
  | padCounter, r :: rest =>
    specEndLine ids padCounter " s O" r.1 :: specEndLine ids padCounter " l I" r.2
      :: specNetD2Lines ids (if PairRecord.hasPad r then padCounter + 1 else padCounter) rest

/-- The number of pads of a list of records. -/
def specPads (recs : List PairRecord) : Int := (recs.countP PairRecord.hasPad : Nat)

/-- Sample module with fan-out: an `INV` block and a `NAND` block; the input
net feeds both blocks, the `INV` drives an internal net into the `NAND`, and
the `NAND` drives the external output net. -/
def fanoutModule : Module :=
  let inv : Librarycell := ⟨"INV", false, 1, 1, 1, 1⟩
  let nand : Librarycell := ⟨"NAND", false, 2, 1, 2, 2⟩
  let b : Block := ⟨100, inv, 7, [200], [201]⟩
  let c : Block := ⟨101, nand, 8, [200, 201], [202]⟩
  { number := 3, area := 3, numBlocks := 2, numInputs := 1, numOutputs := 1,
    blocks := [b, c], inputs := [⟨200, [(b, 0), (c, 0)]⟩], outputs := [⟨202, (c, 0), []⟩],
    internalNets := [⟨201, (b, 0), [(c, 1)]⟩] }

/-- The object state left behind by a writer that ended (normally or by a
throw). -/
def Outcome.state {σ K : Type} : Outcome σ K → Option σ
  | .done s _ => some s
  | .thrown _ s _ => some s
  | .hang => none

/-! ## The net records of the `.nets` file, as the specification words them -/

/-- Specification of the sink lines of a net: every sink block under its cell
name and its position `pos` in the block list, marked `I`. -/
def specSinkLines {K : Type} (pos : Block → Int) (sinks : List Terminal) : List (Line K) :=
  sinks.map (fun t => [.str t.1.cell.Name, .str "_", .int (pos t.1), .str " I"])

/-- Specification of the record of an input net driven by the pad `pad_<k>`. -/
def specInputRecord {K : Type} (pos : Block → Int) (k : Int) (n : InputNet) : List (Line K) :=
  [.str "NetDegree : ", .int ((n.sinks.length : Int) + 1)]
    :: [.str "pad_", .int k, .str " O"] :: specSinkLines pos n.sinks

/-- Specification of the record of an external output net, which feeds the
pad `pad_<k>`. -/
def specExternalRecord {K : Type} (pos : Block → Int) (k : Int) (n : OutputNet) :
    List (Line K) :=
  [.str "NetDegree : ", .int ((n.sinks.length : Int) + 1 + 1)]
    :: [.str n.source.1.cell.Name, .str "_", .int (pos n.source.1), .str " O"]
    :: [.str "pad_", .int k, .str " I"] :: specSinkLines pos n.sinks

/-- Specification of the record of an internal net. -/
def specInternalRecord {K : Type} (pos : Block → Int) (n : OutputNet) : List (Line K) :=
  [.str "NetDegree : ", .int ((n.sinks.length : Int) + 0 + 1)]
    :: [.str n.source.1.cell.Name, .str "_", .int (pos n.source.1), .str " O"]
    :: specSinkLines pos n.sinks

/-- Specification of the net records of the `.nets` file: the input nets in
list order with the pads 1, 2, ..., then the external output nets with the
next pads, then the internal nets. -/
def Module.specNetsRecords {K : Type} (m : Module) (pos : Block → Int) :
    List (List (Line K)) :=
  List.zipWith (fun n k => specInputRecord pos (Int.ofNat k) n) m.inputs
      (List.range' 1 m.inputs.length) ++
    List.zipWith (fun n k => specExternalRecord pos (Int.ofNat k) n) m.outputs
      (List.range' (m.inputs.length + 1) m.outputs.length) ++
    m.internalNets.map (specInternalRecord pos)

/-- The position of a block in the block list of a module, from 0. -/
def Module.blockPos (m : Module) (b : Block) : Int := Int.ofNat (m.blocks.indexOf b)

/-! ## The area column of the `.dat` file -/

/-- The area of a data row of the `.dat` file: its first word, when it is a
number. -/
def Line.area {K : Type} : Line K → Option K
  | .num B :: _ => some B
  | _ => none

/-- The area column of a list of lines: the areas of its data rows, in
order. -/
def areaColumn {K : Type} (L : List (Line K)) : List K := L.filterMap Line.area

/-- Sample module type with two regions inside the tolerance of one bucket:
a node of area 6000 over two leaves of area 3000, and regions at the
thresholds 2998 and 2999. -/
def toleranceType (K : Type) [LinearOrderedField K] : ModuleType K :=
  { addr := 1, forrest := [(0, .compound 6000 4 4 (.leaf 3000 2 2) (.leaf 3000 2 2))],
    regions := [(2998, sampleRegion K), (2999, sampleRegion K)],
    buckets := [], rtdWritten := false, datWritten := false }

/-! ## The target-model evaluator, as the specification words it -/

/-- The characters written by `out << i` for an `int`: its decimal digits,
after a minus sign for a negative value. -/
def decimal : Int → List Char
  | .ofNat n => Nat.toDigits 10 n
  | .negSucc n => '-' :: Nat.toDigits 10 (n + 1)

/-- The characters written for one item streamed into a file; `fmt` stands
for the formatting of a `double`. -/
def Item.chars {K : Type} (fmt : K → List Char) : Item K → List Char
  | .str s => s.data
  | .int i => decimal i
  | .num v => fmt v

/-- The characters written for a line, without the line end. -/
def Line.chars {K : Type} (fmt : K → List Char) (l : Line K) : List Char :=
  l.flatMap (Item.chars fmt)

/-- The name of the node on a pin line of `.nets` or a pad line of `.nodes`:
the characters written before the last item of the line, which is the mark
(` O`, ` I` or ` terminal`). -/
def Line.nodeChars {K : Type} (fmt : K → List Char) (l : Line K) : List Char :=
  Line.chars fmt l.dropLast

/-- The name `pad_<k>` as it is written. -/
def padChars (k : Nat) : List Char := "pad_".data ++ Nat.toDigits 10 k

/-- The name `<cellName>_<i>` of a block as it is written. -/
def blockChars (nm : String) (i : Nat) : List Char := nm.data ++ '_' :: Nat.toDigits 10 i

/-- The names declared by the `.nodes` file: those of the pad lines, then
those of the block lines (a block line has no mark). -/
def Module.declaredNames {K : Type} (fmt : K → List Char) (m : Module) : List (List Char) :=
  (padLines (K := K) (m.numInputs + m.numOutputs)).map (Line.nodeChars fmt) ++
    (nodesBlockLines (K := K) CounterMap.fresh m.blocks).1.map (Line.chars fmt)

/-- Whether a net record of the `.nets` file (a `NetDegree` line followed by
pin lines) references the node of a given name on one of its pin lines. -/
def referencesNode {K : Type} (fmt : K → List Char) (name : List Char) (r : List (Line K)) :
    Bool :=
  decide (name ∈ r.tail.map (Line.nodeChars fmt))

/-- Sample module with a library cell named `pad`: an `INV` block feeding a
block of the cell `pad`, which drives the external output net. -/
def padCellModule : Module :=
  let inv : Librarycell := ⟨"INV", false, 1, 1, 1, 1⟩
  let pad : Librarycell := ⟨"pad", false, 1, 1, 1, 1⟩
  let b : Block := ⟨100, inv, 7, [200], [201]⟩
  let c : Block := ⟨101, pad, 8, [201], [202]⟩
  { number := 3, area := 2, numBlocks := 2, numInputs := 1, numOutputs := 1,
    blocks := [b, c], inputs := [⟨200, [(b, 0)]⟩], outputs := [⟨202, (c, 0), []⟩],
    internalNets := [⟨201, (b, 0), [(c, 0)]⟩] }


/-- Sample module with a block of the cell `pad` at position 0 of the block
list: the blocks of `padCellModule` in the other order. -/
def padFirstModule : Module :=
  { padCellModule with blocks := padCellModule.blocks.reverse }
/-! # Properties -/

/-! ## Properties of `CounterMap` -/

theorem CounterMap.find_push (m : CounterMap) (p q : Ptr) (v n : Int) :
    CounterMap.find ⟨(p, v) :: m.counterMap, n⟩ q = if p = q then some v else m.find q := by
  unfold CounterMap.find
  by_cases h : p = q
  · simp [List.find?_cons, h]
  · simp [List.find?_cons, h]

theorem dedup_length_snoc_of_mem {p : Ptr} {seen : List Ptr} (h : p ∈ seen) :
    (seen ++ [p]).dedup.length = seen.dedup.length := by
  rw [← List.card_toFinset, ← List.card_toFinset]
  congr 1
  ext x
  simp only [List.toFinset_append, List.toFinset_cons, List.toFinset_nil, Finset.mem_union,
    Finset.mem_insert, List.mem_toFinset, Finset.not_mem_empty, or_false]
  constructor
  · rintro (hx | rfl)
    · exact hx
    · exact h
  · exact Or.inl

theorem dedup_length_snoc_of_not_mem {p : Ptr} {seen : List Ptr} (h : p ∉ seen) :
    (seen ++ [p]).dedup.length = seen.dedup.length + 1 := by
  rw [← List.card_toFinset, ← List.card_toFinset]
  have : (seen ++ [p]).toFinset = insert p seen.toFinset := by
    ext x
    simp only [List.toFinset_append, List.toFinset_cons, List.toFinset_nil, Finset.mem_union,
      Finset.mem_insert, List.mem_toFinset, Finset.not_mem_empty, or_false]
    exact or_comm
  rw [this, Finset.card_insert_of_not_mem (by simpa using h)]

theorem CounterMap.Inv.fresh : CounterMap.fresh.Inv [] where
  next_eq := rfl
  find_none := by intro p; simp [CounterMap.fresh, CounterMap.find]
  find_lt := by intro p v h; simp [CounterMap.fresh, CounterMap.find] at h
  find_inj := by intro p q v h; simp [CounterMap.fresh, CounterMap.find] at h

/-- One call of `operator[]` keeps the invariant, returns the stored id of a
known identity and the number of identities seen so far for a new one. -/
theorem CounterMap.Inv.get {m : CounterMap} {seen : List Ptr} (h : m.Inv seen) (p : Ptr) :
    (m.get p).2.Inv (seen ++ [p]) ∧ (m.get p).2.find p = some (m.get p).1 ∧
    (∀ q v, m.find q = some v → (m.get p).2.find q = some v) ∧
    (p ∉ seen → (m.get p).1 = (seen.dedup.length : Int)) := by
  unfold CounterMap.get
  cases hf : m.find p with
  | some v =>
    have hp : p ∈ seen := by
      by_contra hc
      rw [(h.find_none p).2 hc] at hf
      cases hf
    refine ⟨⟨?_, ?_, h.find_lt, h.find_inj⟩, hf, fun _ _ hq => hq, fun hc => absurd hp hc⟩
    · simpa [dedup_length_snoc_of_mem hp] using h.next_eq
    · intro q
      rw [h.find_none q]
      constructor
      · intro hq hq2
        rcases List.mem_append.1 hq2 with h1 | h1
        · exact hq h1
        · simp only [List.mem_singleton] at h1
          exact hq (h1 ▸ hp)
      · intro hq hq2
        exact hq (List.mem_append_left _ hq2)
  | none =>
    have hp : p ∉ seen := (h.find_none p).1 hf
    refine ⟨⟨?_, ?_, ?_, ?_⟩, ?_, ?_, fun _ => h.next_eq⟩
    · simp only [dedup_length_snoc_of_not_mem hp, h.next_eq]
      push_cast
      rfl
    · intro q
      rw [CounterMap.find_push]
      by_cases hpq : p = q
      · subst hpq
        simp
      · simp only [hpq, if_false, h.find_none q, List.mem_append, List.mem_singleton, not_or]
        constructor
        · intro hq
          exact ⟨hq, fun e => hpq e.symm⟩
        · exact fun hq => hq.1
    · intro q v
      rw [CounterMap.find_push]
      by_cases hpq : p = q
      · simp only [hpq, if_true, Option.some.injEq]
        rintro rfl
        have := h.next_eq
        constructor
        · rw [this]; exact Int.natCast_nonneg _
        · simp
      · simp only [hpq, if_false]
        intro hq
        have := h.find_lt q v hq
        exact ⟨this.1, by show v < m.next + 1; omega⟩
    · intro q r v
      rw [CounterMap.find_push, CounterMap.find_push]
      by_cases hpq : p = q <;> by_cases hpr : p = r
      · intro _ _; exact hpq.symm.trans hpr
      · rw [if_pos hpq, if_neg hpr]
        intro e hr
        cases e
        have := (h.find_lt r _ hr).2
        omega
      · rw [if_neg hpq, if_pos hpr]
        intro hq e
        cases e
        have := (h.find_lt q _ hq).2
        omega
      · rw [if_neg hpq, if_neg hpr]
        exact h.find_inj q r v
    · rw [CounterMap.find_push]; simp
    · intro q v hq
      rw [CounterMap.find_push]
      by_cases hpq : p = q
      · subst hpq
        rw [hf] at hq
        cases hq
      · simp [hpq, hq]

/-- A run of queries from a state satisfying the invariant. -/
theorem CounterMap.Inv.queries (qs : List Ptr) :
    ∀ (m : CounterMap) (seen : List Ptr), m.Inv seen →
      (m.queries qs).2.Inv (seen ++ qs) ∧ (m.queries qs).1.length = qs.length ∧
      (∀ q v, m.find q = some v → (m.queries qs).2.find q = some v) ∧
      (∀ (i : Nat) (p : Ptr) (v : Int), qs[i]? = some p → (m.queries qs).1[i]? = some v →
        (m.queries qs).2.find p = some v) ∧
      (∀ pre q suf, qs = pre ++ q :: suf → q ∉ seen ++ pre →
        (m.queries qs).1[pre.length]? = some (((seen ++ pre).dedup.length : Nat) : Int)) := by
  induction qs with
  | nil =>
    intro m seen h
    refine ⟨by simpa [CounterMap.queries] using h, rfl, fun _ _ hq => hq, ?_, ?_⟩
    · intro i p v hp
      simp at hp
    · intro pre q suf e
      simp at e
  | cons a qs ih =>
    intro m seen h
    obtain ⟨h1, h2, h3, h4⟩ := h.get a
    obtain ⟨i1, i2, i3, i4, i5⟩ := ih (m.get a).2 (seen ++ [a]) h1
    simp only [CounterMap.queries]
    refine ⟨by simpa using i1, by simp [i2], fun q v hq => i3 q v (h3 q v hq), ?_, ?_⟩
    · intro i p v hp hv
      cases i with
      | zero =>
        simp only [List.getElem?_cons_zero, Option.some.injEq] at hp hv
        subst hp hv
        exact i3 _ _ h2
      | succ i =>
        simp only [List.getElem?_cons_succ] at hp hv
        exact i4 i p v hp hv
    · intro pre q suf e hq
      cases pre with
      | nil =>
        simp only [List.nil_append, List.cons.injEq] at e
        simp only [List.append_nil] at hq
        simp only [List.length_nil, List.getElem?_cons_zero, List.append_nil, Option.some.injEq]
        rw [← e.1] at hq
        exact h4 hq
      | cons b pre =>
        simp only [List.cons_append, List.cons.injEq] at e
        obtain ⟨rfl, e⟩ := e
        simp only [List.length_cons, List.getElem?_cons_succ]
        have := i5 pre q suf e (by simpa using hq)
        simpa using this

/-- C1. Queries to a fresh `CounterMap`: one id is returned per query; an
identity that was not queried before gets the number of distinct identities
queried before it (the n-th distinct identity gets n-1, the first gets 0); and
two queries return the same id exactly when they ask for the same identity, so
a repeat returns the original id and distinct identities get distinct ids. -/
theorem counterMap_ids (qs : List Ptr) :
    (CounterMap.fresh.queries qs).1.length = qs.length ∧
    (∀ pre q suf, qs = pre ++ q :: suf → q ∉ pre →
      (CounterMap.fresh.queries qs).1[pre.length]? = some ((pre.dedup.length : Nat) : Int)) ∧
    (∀ (i j : Nat) (p q : Ptr) (v w : Int), qs[i]? = some p → qs[j]? = some q →
      (CounterMap.fresh.queries qs).1[i]? = some v →
      (CounterMap.fresh.queries qs).1[j]? = some w → (p = q ↔ v = w)) := by
  obtain ⟨h1, h2, -, h4, h5⟩ := CounterMap.Inv.queries qs CounterMap.fresh [] CounterMap.Inv.fresh
  refine ⟨h2, ?_, ?_⟩
  · intro pre q suf e hq
    simpa using h5 pre q suf e (by simpa using hq)
  · intro i j p q v w hp hq hv hw
    have hv2 := h4 i p v hp hv
    have hw2 := h4 j q w hq hw
    constructor
    · rintro rfl
      rw [hv2] at hw2
      exact Option.some.inj hw2
    · rintro rfl
      exact h1.find_inj p q v hv2 hw2

/-- Witness for C1: the queries 7, 9, 7, 4, 9 are answered 0, 1, 0, 2, 1. -/
theorem counterMap_ids_witness :
    (CounterMap.fresh.queries [7, 9, 7, 4, 9]).1 = [0, 1, 0, 2, 1] ∧
    (CounterMap.fresh.queries [7, 9, 7, 4, 9]).1[3]? = some (2 : Int) :=
  ⟨by decide, (counterMap_ids [7, 9, 7, 4, 9]).2.1 [7, 9, 7] 4 [9] rfl (by decide)⟩

/-! ## Ordered maps -/

section IntMapLemmas

variable {V : Type}

theorem IntMap.find_nil (k : Int) : IntMap.find ([] : IntMap V) k = none := rfl

theorem IntMap.find_cons (k' : Int) (v : V) (m : IntMap V) (k : Int) :
    IntMap.find ((k', v) :: m) k = if k' = k then some v else IntMap.find m k := by
  unfold IntMap.find
  by_cases h : k' = k
  · simp [List.find?_cons, h]
  · simp [List.find?_cons, h]

theorem IntMap.mem_modify (d : V) (f : V → V) (k : Int) (m : IntMap V) (e : Int × V)
    (h : e ∈ IntMap.modify d f k m) : e.1 = k ∨ e ∈ m := by
  induction m with
  | nil =>
    simp only [IntMap.modify, List.mem_singleton] at h
    exact Or.inl (by rw [h])
  | cons hd tl ih =>
    obtain ⟨k', v⟩ := hd
    simp only [IntMap.modify] at h
    split at h
    · rcases List.mem_cons.1 h with h | h
      · exact Or.inl (by rw [h])
      · exact Or.inr h
    · split at h
      · next hk =>
        rcases List.mem_cons.1 h with h | h
        · exact Or.inl (by rw [h, hk])
        · exact Or.inr (List.mem_cons_of_mem _ h)
      · rcases List.mem_cons.1 h with h | h
        · exact Or.inr (by rw [h]; exact List.mem_cons_self _ _)
        · rcases ih h with h | h
          · exact Or.inl h
          · exact Or.inr (List.mem_cons_of_mem _ h)

theorem IntMap.modify_sorted (d : V) (f : V → V) (k : Int) (m : IntMap V)
    (h : IntMap.Sorted m) : IntMap.Sorted (IntMap.modify d f k m) := by
  induction m with
  | nil => simp [IntMap.modify, IntMap.Sorted]
  | cons hd tl ih =>
    obtain ⟨k', v⟩ := hd
    unfold IntMap.Sorted at h ih ⊢
    rw [List.pairwise_cons] at h
    simp only [IntMap.modify]
    split
    · next hlt =>
      rw [List.pairwise_cons]
      refine ⟨?_, List.pairwise_cons.2 h⟩
      intro b hb
      rcases List.mem_cons.1 hb with hb | hb
      · rw [hb]; exact hlt
      · exact lt_trans hlt (h.1 b hb)
    · split
      · exact List.pairwise_cons.2 h
      · next h1 h2 =>
        rw [List.pairwise_cons]
        refine ⟨?_, ih h.2⟩
        intro b hb
        rcases IntMap.mem_modify d f k tl b hb with hb | hb
        · rw [hb]; omega
        · exact h.1 b hb

theorem IntMap.find_eq_none_of_lt (m : IntMap V) (k : Int) (h : ∀ b ∈ m, k < b.1) :
    IntMap.find m k = none := by
  induction m with
  | nil => rfl
  | cons hd tl ih =>
    obtain ⟨k', v⟩ := hd
    rw [IntMap.find_cons]
    have := h (k', v) (List.mem_cons_self _ _)
    rw [if_neg (by simp only at this; omega)]
    exact ih (fun b hb => h b (List.mem_cons_of_mem _ hb))

theorem IntMap.find_modify (d : V) (f : V → V) (k : Int) (m : IntMap V)
    (h : IntMap.Sorted m) (k' : Int) :
    IntMap.find (IntMap.modify d f k m) k'
      = if k' = k then some (f ((IntMap.find m k).getD d)) else IntMap.find m k' := by
  induction m with
  | nil =>
    simp only [IntMap.modify, IntMap.find_cons, IntMap.find_nil, Option.getD_none]
    by_cases e : k = k'
    · simp [e]
    · have e2 : ¬k' = k := fun e' => e e'.symm
      simp [e, e2]
  | cons hd tl ih =>
    obtain ⟨k0, v⟩ := hd
    unfold IntMap.Sorted at h ih
    rw [List.pairwise_cons] at h
    simp only [IntMap.modify]
    split
    · next hlt =>
      have hn : IntMap.find ((k0, v) :: tl) k = none :=
        IntMap.find_eq_none_of_lt _ _ (by
          intro b hb
          rcases List.mem_cons.1 hb with hb | hb
          · rw [hb]; exact hlt
          · exact lt_trans hlt (h.1 b hb))
      rw [hn, IntMap.find_cons]
      by_cases e : k = k'
      · simp [e]
      · have e2 : ¬k' = k := fun e' => e e'.symm
        simp [e, e2]
    · split
      · next h1 hk =>
        subst hk
        simp only [IntMap.find_cons, if_true, Option.getD_some]
        by_cases e : k = k'
        · simp [e]
        · have e2 : ¬k' = k := fun e' => e e'.symm
          simp [e, e2]
      · next h1 h2 =>
        rw [IntMap.find_cons, ih h.2, IntMap.find_cons, IntMap.find_cons, if_neg (Ne.symm h2)]
        by_cases e : k0 = k'
        · have : k' ≠ k := by omega
          simp [e, this]
        · simp [e]

theorem IntMap.mem_iff_find (m : IntMap V) (h : IntMap.Sorted m) (k : Int) (v : V) :
    (k, v) ∈ m ↔ IntMap.find m k = some v := by
  induction m with
  | nil => simp [IntMap.find_nil]
  | cons hd tl ih =>
    obtain ⟨k0, v0⟩ := hd
    unfold IntMap.Sorted at h ih
    rw [List.pairwise_cons] at h
    rw [IntMap.find_cons, List.mem_cons]
    by_cases e : k0 = k
    · subst e
      simp only [if_true, Option.some.injEq, Prod.mk.injEq, true_and]
      constructor
      · rintro (h1 | h1)
        · exact h1.symm
        · exact absurd (h.1 _ h1) (lt_irrefl _)
      · intro h1
        exact Or.inl h1.symm
    · simp only [if_neg e, ← ih h.2, Prod.mk.injEq]
      constructor
      · rintro (h1 | h1)
        · exact absurd h1.1.symm e
        · exact h1
      · exact Or.inr

end IntMapLemmas

/-! ## Written flags and structural failures -/

section StatFlags

variable {K : Type} [LinearOrderedField K] [FloorRing K]

theorem FillBuckets_of_length_ne_one (log : K → K) (s : ModuleType K) (hb : s.buckets = [])
    (hf : s.forrest.length ≠ 1) :
    s.FillBuckets log = .error "Internal error: forrest is not a tree" := by
  unfold ModuleType.FillBuckets
  rw [hb]
  match hs : s.forrest with
  | [] => simp
  | [root] => rw [hs] at hf; simp at hf
  | _ :: _ :: _ => simp

omit [LinearOrderedField K] [FloorRing K] in
theorem WriteRtd_of_length_ne_one (g : Globals) (s : ModuleType K) (fs : FileSys K)
    (name : String) (hr : s.rtdWritten = false) (hf : s.forrest.length ≠ 1) :
    s.WriteRtd g fs name = .thrown "Internal error: forrest is not a tree" s fs := by
  unfold ModuleType.WriteRtd
  rw [hr]
  match hs : s.forrest with
  | [] => simp
  | [root] => rw [hs] at hf; simp at hf
  | _ :: _ :: _ => simp

theorem WriteDat_done_flag (x : Extern K) (g : Globals) (s s' : ModuleType K)
    (fs fs' : FileSys K) (name : String) (h : s.WriteDat x g fs name = .done s' fs') :
    s'.datWritten = true := by
  unfold ModuleType.WriteDat at h
  by_cases hd : s.datWritten = true
  · simp only [hd, if_true, Outcome.done.injEq] at h
    rw [← h.1]; exact hd
  · cases hF : s.FillBuckets x.log with
    | error e => simp [hd, hF] at h
    | ok s1 =>
      by_cases hc : fs.canOpen (name ++ ".dat") = true
      · cases hl : datLines x s1 s1.buckets s1.regions with
        | none => simp [hd, hF, hc, hl] at h
        | some ls =>
          simp [hd, hF, hc, hl] at h
          rw [← h.1]
      · simp [hd, hF, hc] at h

omit [LinearOrderedField K] [FloorRing K] in
theorem WriteRtd_done_flag (g : Globals) (s s' : ModuleType K)
    (fs fs' : FileSys K) (name : String) (h : s.WriteRtd g fs name = .done s' fs') :
    s'.rtdWritten = true := by
  unfold ModuleType.WriteRtd at h
  by_cases hd : s.rtdWritten = true
  · simp only [hd, if_true, Outcome.done.injEq] at h
    rw [← h.1]; exact hd
  · match hs : s.forrest with
    | [] => simp [hd, hs] at h
    | _ :: _ :: _ => simp [hd, hs] at h
    | [root] =>
      by_cases hc : fs.canOpen (name ++ ".rtd") = true
      · simp [hd, hs, hc] at h
        rw [← h.1]
      · simp [hd, hs, hc] at h

/-- C2. Once `WriteDat` has returned normally on a `ModuleType`, another
`WriteDat` on the resulting object (any name stub, any globals, any state of
the destinations) returns at once: the object and the files are unchanged.
The same holds for `WriteRtd` after a `WriteRtd` that returned normally. -/
theorem stats_written_once (x : Extern K) (g g2 : Globals) (s s' : ModuleType K)
    (fs fs' fs2 : FileSys K) (name name2 : String) :
    (s.WriteDat x g fs name = .done s' fs' → s'.WriteDat x g2 fs2 name2 = .done s' fs2) ∧
    (s.WriteRtd g fs name = .done s' fs' → s'.WriteRtd g2 fs2 name2 = .done s' fs2) := by
  constructor
  · intro h
    have hd := WriteDat_done_flag x g s s' fs fs' name h
    simp [ModuleType.WriteDat, hd]
  · intro h
    have hd := WriteRtd_done_flag g s s' fs fs' name h
    simp [ModuleType.WriteRtd, hd]

/-- C3. With no statistics computed yet (both flags unset, bucket cache
empty) and a forest that is not exactly one root, `WriteRtd` and `WriteDat`
both throw "Internal error: forrest is not a tree", leaving the object and
every file as they were: nothing is opened or written. -/
theorem stats_fail_without_tree (x : Extern K) (g : Globals) (s : ModuleType K)
    (fs : FileSys K) (name : String) (hf : s.forrest.length ≠ 1)
    (hr : s.rtdWritten = false) (hd : s.datWritten = false) (hb : s.buckets = []) :
    s.WriteRtd g fs name = .thrown "Internal error: forrest is not a tree" s fs ∧
    s.WriteDat x g fs name = .thrown "Internal error: forrest is not a tree" s fs := by
  refine ⟨WriteRtd_of_length_ne_one g s fs name hr hf, ?_⟩
  unfold ModuleType.WriteDat
  rw [hd, FillBuckets_of_length_ne_one x.log s hb hf]
  simp

end StatFlags

/-- Witness for C3: the empty forest. -/
theorem stats_fail_without_tree_witness :
    (emptyForestType ℝ).forrest.length ≠ 1 ∧
    (emptyForestType ℝ).WriteRtd sampleGlobals (sampleFiles ℝ) "c"
      = .thrown "Internal error: forrest is not a tree" (emptyForestType ℝ) (sampleFiles ℝ) ∧
    (emptyForestType ℝ).WriteDat (sampleExtern Real.log Real.exp Real.sqrt) sampleGlobals
        (sampleFiles ℝ) "c"
      = .thrown "Internal error: forrest is not a tree" (emptyForestType ℝ) (sampleFiles ℝ) :=
  ⟨by decide, stats_fail_without_tree (sampleExtern Real.log Real.exp Real.sqrt) sampleGlobals
    (emptyForestType ℝ) (sampleFiles ℝ) "c" (by decide) rfl rfl rfl⟩

/-! ## The raw scatter data -/

theorem IntMap.sum_modify {V : Type} (w : V → Int) (d : V) (f : V → V) (k : Int)
    (m : IntMap V) (hd : w d = 0) (hf : ∀ v, w (f v) = w v + 1) :
    ((IntMap.modify d f k m).map (fun e => w e.2)).sum = (m.map (fun e => w e.2)).sum + 1 := by
  induction m with
  | nil => simp [IntMap.modify, hf, hd]
  | cons hd' tl ih =>
    obtain ⟨k', v⟩ := hd'
    simp only [IntMap.modify]
    split
    · simp [hf, hd]; omega
    · split
      · simp [hf]; omega
      · simp only [List.map_cons, List.sum_cons, ih]; omega

theorem innerTotal_modify (t : Int) (inner : IntMap Int) :
    innerTotal (IntMap.modify 0 (fun c => c + 1) t inner) = innerTotal inner + 1 :=
  IntMap.sum_modify (fun c => c) 0 (fun c => c + 1) t inner rfl (fun _ => rfl)

theorem rtdTotal_increment (a t : Int) (rtd : IntMap (IntMap Int)) :
    rtdTotal (rtdIncrement a t rtd) = rtdTotal rtd + 1 :=
  IntMap.sum_modify innerTotal [] _ a rtd rfl (innerTotal_modify t)

theorem pairCount_snoc (ns : List TreeNode) (n : TreeNode) (a t : Int) :
    pairCount (ns ++ [n]) a t
      = pairCount ns a t + (if n.Size = a ∧ n.NumTerminals = t then 1 else 0) := by
  unfold pairCount
  rw [List.countP_append, List.countP_cons, List.countP_nil]
  by_cases h : n.Size = a ∧ n.NumTerminals = t
  · simp [h]
  · simp [h]

theorem RtdInv.empty_rtd : RtdInv [] [] where
  sorted := List.Pairwise.nil
  inner := by intro a i h; simp [IntMap.find_nil] at h
  get := by intro a t; simp [rtdGet, IntMap.find_nil, pairCount]
  total := rfl

/-- Counting one more node keeps the invariant. -/
theorem RtdInv.increment {rtd : IntMap (IntMap Int)} {ns : List TreeNode} (h : RtdInv rtd ns)
    (n : TreeNode) : RtdInv (rtdIncrement n.Size n.NumTerminals rtd) (ns ++ [n]) := by
  have hfind := IntMap.find_modify ([] : IntMap Int)
    (IntMap.modify 0 (fun c => c + 1) n.NumTerminals) n.Size rtd h.sorted
  have hin : IntMap.Sorted ((IntMap.find rtd n.Size).getD []) := by
    cases hf : IntMap.find rtd n.Size with
    | none => exact List.Pairwise.nil
    | some i => exact h.inner _ _ hf
  refine ⟨IntMap.modify_sorted _ _ _ _ h.sorted, ?_, ?_, ?_⟩
  · intro a i hi
    unfold rtdIncrement at hi
    rw [hfind] at hi
    by_cases e : a = n.Size
    · rw [if_pos e] at hi
      cases hi
      exact IntMap.modify_sorted _ _ _ _ hin
    · rw [if_neg e] at hi
      exact h.inner a i hi
  · intro a t
    have hg := h.get a t
    rw [pairCount_snoc]
    unfold rtdGet at hg ⊢
    unfold rtdIncrement
    rw [hfind]
    by_cases e : a = n.Size
    · rw [if_pos e, Option.some_bind, IntMap.find_modify _ _ _ _ hin]
      by_cases e2 : t = n.NumTerminals
      · subst e e2
        have hg2 : (IntMap.find ((IntMap.find rtd n.Size).getD []) n.NumTerminals)
            = (IntMap.find rtd n.Size).bind (fun i => IntMap.find i n.NumTerminals) := by
          cases IntMap.find rtd n.Size <;> rfl
        rw [if_pos rfl, hg2, hg]
        by_cases z : pairCount ns n.Size n.NumTerminals = 0
        · simp [z]
        · simp [z]
      · have hg2 : (IntMap.find ((IntMap.find rtd n.Size).getD []) t)
            = (IntMap.find rtd a).bind (fun i => IntMap.find i t) := by
          rw [e]
          cases IntMap.find rtd n.Size <;> rfl
        have e3 : ¬(n.Size = a ∧ n.NumTerminals = t) := fun c => e2 c.2.symm
        rw [if_neg e2, hg2, hg, if_neg e3, Nat.add_zero]
    · have e3 : ¬(n.Size = a ∧ n.NumTerminals = t) := fun c => e c.1.symm
      rw [if_neg e, hg, if_neg e3, Nat.add_zero]
  · rw [rtdTotal_increment, h.total]
    simp

theorem TreeNode.Size_leaf (a i o : Int) : (TreeNode.leaf a i o).Size = a := rfl

theorem TreeNode.NumTerminals_leaf (a i o : Int) :
    (TreeNode.leaf a i o).NumTerminals = i + o := rfl

theorem TreeNode.Size_compound (a i o : Int) (l r : TreeNode) :
    (TreeNode.compound a i o l r).Size = a := rfl

theorem TreeNode.NumTerminals_compound (a i o : Int) (l r : TreeNode) :
    (TreeNode.compound a i o l r).NumTerminals = i + o := rfl

/-- Gathering a whole tree counts each of its nodes once. -/
theorem RtdInv.AddRtdData (root : TreeNode) :
    ∀ (rtd : IntMap (IntMap Int)) (ns : List TreeNode), RtdInv rtd ns →
      RtdInv (root.AddRtdData rtd) (ns ++ root.nodes) := by
  induction root with
  | leaf a i o =>
    intro rtd ns h
    exact h.increment (.leaf a i o)
  | compound a i o l r ihl ihr =>
    intro rtd ns h
    have h1 := h.increment (.compound a i o l r)
    have h2 := ihr _ _ (ihl _ _ h1)
    simpa [TreeNode.AddRtdData, TreeNode.nodes, TreeNode.Size_compound,
      TreeNode.NumTerminals_compound] using h2

theorem mem_rtdLines (rtd : IntMap (IntMap Int)) (ns : List TreeNode) (h : RtdInv rtd ns)
    (a t c : Int) : (a, t, c) ∈ rtdLines rtd ↔ rtdGet rtd a t = some c := by
  unfold rtdLines rtdGet
  simp only [List.mem_flatMap, List.mem_reverse, List.mem_map, Prod.mk.injEq, Prod.exists]
  constructor
  · rintro ⟨a', i, hi, t', c', hc, rfl, rfl, rfl⟩
    rw [(IntMap.mem_iff_find rtd h.sorted _ i).1 hi, Option.some_bind]
    exact (IntMap.mem_iff_find i (h.inner _ i ((IntMap.mem_iff_find rtd h.sorted _ i).1 hi)) _ _).1 hc
  · intro hb
    cases hf : IntMap.find rtd a with
    | none => rw [hf] at hb; cases hb
    | some i =>
      rw [hf, Option.some_bind] at hb
      exact ⟨a, i, (IntMap.mem_iff_find rtd h.sorted _ i).2 hf, t, c,
        (IntMap.mem_iff_find i (h.inner _ i hf) _ _).2 hb, rfl, rfl, rfl⟩

theorem rtdLines_sum (rtd : IntMap (IntMap Int)) :
    ((rtdLines rtd).map (fun e => e.2.2)).sum = rtdTotal rtd := by
  unfold rtdLines rtdTotal
  induction rtd with
  | nil => rfl
  | cons hd tl ih =>
    simp only [List.reverse_cons, List.flatMap_append, List.flatMap_cons, List.flatMap_nil,
      List.append_nil, List.map_append, List.sum_append, List.map_cons, List.sum_cons, ih,
      List.map_map]
    have : (List.map ((fun e : Int × Int × Int => e.2.2) ∘ fun ti : Int × Int => (hd.1, ti.1, ti.2))
        hd.2.reverse).sum = innerTotal hd.2 := by
      unfold innerTotal
      rw [List.map_reverse, List.sum_reverse]
      rfl
    rw [this]
    omega

theorem rtdLines_descending (rtd : IntMap (IntMap Int)) (ns : List TreeNode) (h : RtdInv rtd ns) :
    (rtdLines rtd).Pairwise
      (fun e1 e2 => e2.1 < e1.1 ∨ (e2.1 = e1.1 ∧ e2.2.1 < e1.2.1)) := by
  unfold rtdLines
  rw [List.pairwise_flatMap]
  constructor
  · intro bi hbi
    rw [List.pairwise_map, List.pairwise_reverse]
    have hs := h.inner bi.1 bi.2 ((IntMap.mem_iff_find rtd h.sorted _ _).1 (List.mem_reverse.1 hbi))
    exact hs.imp (fun hab => Or.inr ⟨rfl, hab⟩)
  · rw [List.pairwise_reverse]
    refine h.sorted.imp ?_
    intro b1 b2 hlt e1 he1 e2 he2
    obtain ⟨t1, _, rfl⟩ := List.mem_map.1 he1
    obtain ⟨t2, _, rfl⟩ := List.mem_map.1 he2
    exact Or.inl hlt

/-- C5. On a forest of one tree, `WriteRtd` writes after the header one line
of three integers `a t c` for every entry `(a, t, c)` of `rtdLines` of the
gathered map, in that order, and nothing else; and these entries are: one
`(a, t, c)` exactly for the pairs `(a, t)` that occur among the nodes of the
tree (`t` being inputs + outputs), with `c` the number of nodes having the
pair; in strictly descending lexicographic order of `(a, t)`, hence one line
per pair; and the counts add up to the number of nodes. -/
theorem rtd_lines_spec {K : Type} (g : Globals) (s : ModuleType K) (fs : FileSys K)
    (name : String) (key : Int) (root : TreeNode) (hs : s.forrest = [(key, root)])
    (hr : s.rtdWritten = false) (ho : fs.canOpen (name ++ ".rtd") = true) :
    s.WriteRtd g fs name = .done { s with rtdWritten := true }
      (fs.write (name ++ ".rtd")
        (statHeader g "rtd" name ++ (rtdLines (root.AddRtdData [])).map
          (fun e => [.int e.1, .int e.2.1, .int e.2.2]))) ∧
    (∀ a t c : Int, (a, t, c) ∈ rtdLines (root.AddRtdData []) ↔
      (0 < c ∧ c = ((root.nodes.countP
        (fun n => decide (n.Size = a ∧ n.NumInputs + n.NumOutputs = t)) : Nat) : Int))) ∧
    (rtdLines (root.AddRtdData [])).Pairwise
      (fun e1 e2 => e2.1 < e1.1 ∨ (e2.1 = e1.1 ∧ e2.2.1 < e1.2.1)) ∧
    ((rtdLines (root.AddRtdData [])).map (fun e => e.2.2)).sum = (root.nodes.length : Int) := by
  have hinv : RtdInv (root.AddRtdData []) root.nodes := by
    simpa using RtdInv.AddRtdData root [] [] RtdInv.empty_rtd
  refine ⟨?_, ?_, rtdLines_descending _ _ hinv, ?_⟩
  · have hl : (fun e : Int × Int × Int => ([.int e.1, .int e.2.1, .int e.2.2] : Line K))
        = rtdLine := by
      funext e
      rfl
    simp [ModuleType.WriteRtd, hr, hs, ho, hl]
  · intro a t c
    rw [mem_rtdLines _ _ hinv, hinv.get]
    show _ ↔ 0 < c ∧ c = (pairCount root.nodes a t : Int)
    by_cases z : pairCount root.nodes a t = 0
    · simp only [z, if_true, Nat.cast_zero]
      constructor
      · intro h; cases h
      · rintro ⟨h1, h2⟩; omega
    · simp only [z, if_false, Option.some.injEq]
      constructor
      · intro h; omega
      · rintro ⟨h1, h2⟩; omega
  · rw [rtdLines_sum, hinv.total]

/-- Witness for C5: the five-node sample tree gives the four lines `5 3 1`,
`3 3 1`, `2 2 2` and `1 2 1`, the pair (2, 2) being counted twice. -/
theorem rtd_lines_spec_witness :
    rtdLines (sampleTree.AddRtdData []) = [(5, 3, 1), (3, 3, 1), (2, 2, 2), (1, 2, 1)] ∧
    (treeType ℝ).WriteRtd sampleGlobals (sampleFiles ℝ) "c"
      = .done { treeType ℝ with rtdWritten := true }
        ((sampleFiles ℝ).write ("c" ++ ".rtd")
          (statHeader sampleGlobals "rtd" "c"
            ++ [[.int 5, .int 3, .int 1], [.int 3, .int 3, .int 1],
                [.int 2, .int 2, .int 2], [.int 1, .int 2, .int 1]])) ∧
    ((rtdLines (sampleTree.AddRtdData [])).map (fun e => e.2.2)).sum
      = (sampleTree.nodes.length : Int) := by
  have h := rtd_lines_spec sampleGlobals (treeType ℝ) (sampleFiles ℝ) "c" 0 sampleTree
    rfl rfl rfl
  have hl : rtdLines (sampleTree.AddRtdData [])
      = [(5, 3, 1), (3, 3, 1), (2, 2, 2), (1, 2, 1)] := by decide
  refine ⟨hl, ?_, h.2.2.2⟩
  have h1 := h.1
  rw [hl] at h1
  exact h1

/-! ## The bucket index over the reals -/

theorem log_base_pos : 0 < Real.log 1.9 := Real.log_pos (by norm_num)

theorem truncToInt_of_nonneg {K : Type} [LinearOrderedField K] [FloorRing K] (v : K)
    (h : 0 ≤ v) : truncToInt v = ⌊v⌋ := by
  unfold truncToInt
  rw [if_pos h]

theorem log_ratio_nonneg (a : Int) (h : 1 ≤ a) : 0 ≤ Real.log (a : ℝ) / Real.log 1.9 := by
  have h1 : (1 : ℝ) ≤ (a : ℝ) := by exact_mod_cast h
  exact div_nonneg (Real.log_nonneg h1) log_base_pos.le

theorem bucketIndex_real_floor (a : Int) (h : 1 ≤ a) :
    bucketIndex Real.log a = ⌊Real.log (a : ℝ) / Real.log 1.9⌋ := by
  unfold bucketIndex
  exact truncToInt_of_nonneg _ (log_ratio_nonneg a h)

/-- For an area of at least 1 the floor of the logarithm ratio is `k` exactly
when the area lies between the `k`-th and the next power of 1.9. -/
theorem floor_log_ratio_eq_iff (a : Int) (h : 1 ≤ a) (k : ℕ) :
    ⌊Real.log (a : ℝ) / Real.log 1.9⌋ = (k : Int) ↔
      ((1.9 : ℝ) ^ k ≤ (a : ℝ) ∧ (a : ℝ) < (1.9 : ℝ) ^ (k + 1)) := by
  have ha : (0 : ℝ) < (a : ℝ) := by
    have : (1 : ℝ) ≤ (a : ℝ) := by exact_mod_cast h
    linarith
  have hb := log_base_pos
  have hp : ∀ n : ℕ, (0 : ℝ) < (1.9 : ℝ) ^ n := fun n => pow_pos (by norm_num) n
  rw [Int.floor_eq_iff, le_div_iff₀ hb, div_lt_iff₀ hb]
  have e1 : ((k : Int) : ℝ) * Real.log 1.9 = Real.log ((1.9 : ℝ) ^ k) := by
    rw [Real.log_pow]; push_cast; ring
  have e2 : (((k : Int) : ℝ) + 1) * Real.log 1.9 = Real.log ((1.9 : ℝ) ^ (k + 1)) := by
    rw [Real.log_pow]; push_cast; ring
  rw [e1, e2, Real.log_le_log_iff (hp k) ha, Real.log_lt_log_iff ha (hp (k + 1))]

theorem bucketIndex_real_nonneg (a : Int) (h : 1 ≤ a) : 0 ≤ bucketIndex Real.log a := by
  rw [bucketIndex_real_floor a h]
  exact Int.floor_nonneg.2 (log_ratio_nonneg a h)

theorem bucketIndex_real_mono (a b : Int) (h : 1 ≤ a) (hab : a ≤ b) :
    bucketIndex Real.log a ≤ bucketIndex Real.log b := by
  rw [bucketIndex_real_floor a h, bucketIndex_real_floor b (le_trans h hab)]
  apply Int.floor_mono
  have ha : (0 : ℝ) < (a : ℝ) := by
    have : (1 : ℝ) ≤ (a : ℝ) := by exact_mod_cast h
    linarith
  have hab2 : (a : ℝ) ≤ (b : ℝ) := by exact_mod_cast hab
  exact div_le_div_of_nonneg_right (Real.log_le_log ha hab2) log_base_pos.le

/-- Evaluation of the real bucket index of a concrete area. -/
theorem bucketIndex_real_eq (a : Int) (k : ℕ) (h : 1 ≤ a) (h1 : (1.9 : ℝ) ^ k ≤ (a : ℝ))
    (h2 : (a : ℝ) < (1.9 : ℝ) ^ (k + 1)) : bucketIndex Real.log a = (k : Int) := by
  rw [bucketIndex_real_floor a h]
  exact (floor_log_ratio_eq_iff a h k).2 ⟨h1, h2⟩

/-- C7. For an area `a >= 1`, over the reals: the bucket index (truncation of
`log a / log 1.9`) is the floor of that ratio and is not negative; it is `k`
exactly when `1.9^k <= a < 1.9^(k+1)`, so it is the unique such `k`; an area
equal to `1.9^k` gets index `k`, and area 1 gets index 0; two areas with the
same floor value get the same index; and the index does not decrease when the
area grows. -/
theorem bucket_index_real (a : Int) (h : 1 ≤ a) :
    bucketIndex Real.log a = ⌊Real.log (a : ℝ) / Real.log 1.9⌋ ∧
    0 ≤ bucketIndex Real.log a ∧
    (∀ k : ℕ, bucketIndex Real.log a = (k : Int) ↔
      ((1.9 : ℝ) ^ k ≤ (a : ℝ) ∧ (a : ℝ) < (1.9 : ℝ) ^ (k + 1))) ∧
    (∀ k : ℕ, (a : ℝ) = (1.9 : ℝ) ^ k → bucketIndex Real.log a = (k : Int)) ∧
    bucketIndex Real.log 1 = 0 ∧
    (∀ b : Int, 1 ≤ b →
      ⌊Real.log (a : ℝ) / Real.log 1.9⌋ = ⌊Real.log (b : ℝ) / Real.log 1.9⌋ →
      bucketIndex Real.log a = bucketIndex Real.log b) ∧
    (∀ b : Int, a ≤ b → bucketIndex Real.log a ≤ bucketIndex Real.log b) := by
  refine ⟨bucketIndex_real_floor a h, bucketIndex_real_nonneg a h, ?_, ?_, ?_, ?_, ?_⟩
  · intro k
    rw [bucketIndex_real_floor a h]
    exact floor_log_ratio_eq_iff a h k
  · intro k hk
    refine bucketIndex_real_eq a k h hk.ge ?_
    rw [hk, pow_succ]
    have : (0 : ℝ) < (1.9 : ℝ) ^ k := pow_pos (by norm_num) k
    nlinarith
  · have := bucketIndex_real_eq 1 0 le_rfl (by norm_num) (by norm_num)
    simpa using this
  · intro b hb e
    rw [bucketIndex_real_floor a h, bucketIndex_real_floor b hb, e]
  · intro b hab
    exact bucketIndex_real_mono a b h hab

/-- Witness for C7: area 4 lies between `1.9^2 = 3.61` and `1.9^3 = 6.859`, so
its bucket index is 2. -/
theorem bucket_index_real_witness :
    (1 : Int) ≤ 4 ∧ bucketIndex Real.log 4 = 2 :=
  ⟨by decide, ((bucket_index_real 4 (by decide)).2.2.1 2).2 (by norm_num)⟩

/-! ## Bucket fill -/

section BucketFill

variable {K : Type} [LinearOrderedField K] [FloorRing K]

theorem BucketInv.empty_cache (log : K → K) : BucketInv log [] [] where
  sorted := List.Pairwise.nil
  get := by intro k; simp [IntMap.find_nil]
  nonempty := by intro k l h; simp [IntMap.find_nil] at h
  total := rfl

/-- Appending one node to its bucket keeps the invariant. -/
theorem BucketInv.push {log : K → K} {b : IntMap (List TreeNode)} {ns : List TreeNode}
    (h : BucketInv log b ns) (n : TreeNode) :
    BucketInv log (IntMap.modify [] (fun l => l ++ [n]) (bucketIndex log n.Size) b)
      (ns ++ [n]) := by
  have hfind := IntMap.find_modify ([] : List TreeNode) (fun l => l ++ [n])
    (bucketIndex log n.Size) b h.sorted
  refine ⟨IntMap.modify_sorted _ _ _ _ h.sorted, ?_, ?_, ?_⟩
  · intro k
    rw [hfind, List.filter_append]
    by_cases e : k = bucketIndex log n.Size
    · rw [if_pos e, Option.getD_some, ← e, h.get k]
      simp [e]
    · have e2 : ¬bucketIndex log n.Size = k := fun c => e c.symm
      rw [if_neg e, h.get k]
      simp [e2]
  · intro k l hl
    rw [hfind] at hl
    by_cases e : k = bucketIndex log n.Size
    · rw [if_pos e] at hl
      cases hl
      simp
    · rw [if_neg e] at hl
      exact h.nonempty k l hl
  · rw [IntMap.sum_modify (fun l : List TreeNode => (l.length : Int)) [] _ _ b rfl
      (by intro v; simp), h.total]
    simp

/-- Bucketing a whole tree files each of its nodes once, in visiting order. -/
theorem BucketInv.FillBucketsWithTree (log : K → K) (root : TreeNode) :
    ∀ (b : IntMap (List TreeNode)) (ns : List TreeNode), BucketInv log b ns →
      BucketInv log (root.FillBucketsWithTree log b) (ns ++ root.nodes) := by
  induction root with
  | leaf a i o =>
    intro b ns h
    exact h.push (.leaf a i o)
  | compound a i o l r ihl ihr =>
    intro b ns h
    have h1 := h.push (.compound a i o l r)
    have h2 := ihr _ _ (ihl _ _ h1)
    simpa [TreeNode.FillBucketsWithTree, TreeNode.nodes, TreeNode.Size_compound] using h2

end BucketFill

theorem lastKey_cons_cons (e1 e2 : Int × List TreeNode) (m : IntMap (List TreeNode)) :
    lastKey (e1 :: e2 :: m) = lastKey (e2 :: m) := by
  simp [lastKey, List.getLast?_cons_cons]

/-- In a sorted non-empty bucket map the last key is a key and no key is
above it. -/
theorem lastKey_spec (m : IntMap (List TreeNode)) (h : IntMap.Sorted m) (hne : m ≠ []) :
    (∃ l, (lastKey m, l) ∈ m) ∧ ∀ e ∈ m, e.1 ≤ lastKey m := by
  induction m with
  | nil => exact absurd rfl hne
  | cons e1 tl ih =>
    cases tl with
    | nil =>
      refine ⟨⟨e1.2, by simp [lastKey]⟩, ?_⟩
      intro e he
      simp only [List.mem_singleton] at he
      simp [lastKey, he]
    | cons e2 tl =>
      unfold IntMap.Sorted at h ih
      rw [List.pairwise_cons] at h
      obtain ⟨⟨l, hl⟩, hmax⟩ := ih h.2 (by simp)
      rw [lastKey_cons_cons]
      refine ⟨⟨l, List.mem_cons_of_mem _ hl⟩, ?_⟩
      intro e he
      rcases List.mem_cons.1 he with he | he
      · rw [he]
        exact le_trans (le_of_lt (h.1 _ (List.mem_cons_self _ _))) (hmax _ (List.mem_cons_self _ _))
      · exact hmax e he

theorem TreeNode.self_mem_nodes (root : TreeNode) : root ∈ root.nodes := by
  cases root <;> simp [TreeNode.nodes]

/-- What `FillBuckets` leaves in an empty cache, for any logarithm function:
the buckets of the nodes by index, and the root once more in the bucket above
the highest index `M` in use. -/
theorem FillBuckets_spec {K : Type} [LinearOrderedField K] [FloorRing K] (log : K → K)
    (s : ModuleType K) (key : Int) (root : TreeNode) (hs : s.forrest = [(key, root)])
    (hb : s.buckets = []) :
    ∃ (b : IntMap (List TreeNode)) (M : Int),
      s.FillBuckets log = .ok { s with buckets := b } ∧
      IntMap.Sorted b ∧
      (∃ n ∈ root.nodes, bucketIndex log n.Size = M) ∧
      (∀ n ∈ root.nodes, bucketIndex log n.Size ≤ M) ∧
      (∀ k, k ≠ M + 1 → (IntMap.find b k).getD []
        = root.nodes.filter (fun n => decide (bucketIndex log n.Size = k))) ∧
      IntMap.find b (M + 1) = some [root] ∧
      (b.map (fun e => (e.2.length : Int))).sum = (root.nodes.length : Int) + 1 := by
  have h : BucketInv log (root.FillBucketsWithTree log []) root.nodes := by
    simpa using BucketInv.FillBucketsWithTree log root [] [] (BucketInv.empty_cache log)
  have hkey : ∀ n ∈ root.nodes, ∃ l, (bucketIndex log n.Size, l) ∈ root.FillBucketsWithTree log [] := by
    intro n hn
    have hg := h.get (bucketIndex log n.Size)
    cases hf : IntMap.find (root.FillBucketsWithTree log []) (bucketIndex log n.Size) with
    | none =>
      rw [hf] at hg
      have : n ∈ root.nodes.filter (fun n' => decide (bucketIndex log n'.Size = bucketIndex log n.Size)) := by
        simp [hn]
      rw [← hg] at this
      simp at this
    | some l => exact ⟨l, (IntMap.mem_iff_find _ h.sorted _ _).2 hf⟩
  have hne : root.FillBucketsWithTree log [] ≠ [] := by
    obtain ⟨l, hl⟩ := hkey root root.self_mem_nodes
    intro e
    rw [e] at hl
    simp at hl
  obtain ⟨⟨l, hl⟩, hmax⟩ := lastKey_spec _ h.sorted hne
  have hle : ∀ n ∈ root.nodes, bucketIndex log n.Size ≤ lastKey (root.FillBucketsWithTree log []) := by
    intro n hn
    obtain ⟨l', hl'⟩ := hkey n hn
    exact hmax _ hl'
  have hfind := IntMap.find_modify ([] : List TreeNode) (fun l => l ++ [root])
    (lastKey (root.FillBucketsWithTree log []) + 1) _ h.sorted
  refine ⟨IntMap.modify [] (fun l => l ++ [root])
      (lastKey (root.FillBucketsWithTree log []) + 1) (root.FillBucketsWithTree log []),
    lastKey (root.FillBucketsWithTree log []), ?_, IntMap.modify_sorted _ _ _ _ h.sorted,
    ?_, hle, ?_, ?_, ?_⟩
  · simp [ModuleType.FillBuckets, hb, hs]
  · have hf := (IntMap.mem_iff_find _ h.sorted _ _).1 hl
    have hg := h.get (lastKey (root.FillBucketsWithTree log []))
    rw [hf, Option.getD_some] at hg
    have hl0 := h.nonempty _ _ hf
    obtain ⟨n, hn⟩ := List.exists_mem_of_ne_nil l hl0
    rw [hg, List.mem_filter] at hn
    exact ⟨n, hn.1, by simpa using hn.2⟩
  · intro k hk
    rw [hfind, if_neg hk]
    exact h.get k
  · rw [hfind, if_pos rfl]
    have hg := h.get (lastKey (root.FillBucketsWithTree log []) + 1)
    have : root.nodes.filter (fun n => decide (bucketIndex log n.Size
        = lastKey (root.FillBucketsWithTree log []) + 1)) = [] := by
      rw [List.filter_eq_nil_iff]
      intro n hn
      have := hle n hn
      simp only [decide_eq_true_eq]
      omega
    rw [this] at hg
    rw [hg]
    rfl
  · rw [IntMap.sum_modify (fun l : List TreeNode => (l.length : Int)) [] _ _ _ rfl
      (by intro v; simp), h.total]

/-- C6. Over the reals, on a forest of one tree whose node areas are all at
least 1 and with an empty cache, `FillBuckets` succeeds and leaves a bucket
map in which, `M` being the highest floor(log(area)/log(1.9)) of a node: the
bucket of every index other than `M + 1` lists exactly the nodes of the tree
with that floor value (each occurrence once, in visiting order, and a node is
in no bucket of another index), the bucket `M + 1` holds the root and nothing
else, and the bucket sizes add up to the number of nodes plus one. -/
theorem fill_buckets_spec (s : ModuleType ℝ) (key : Int) (root : TreeNode)
    (hs : s.forrest = [(key, root)]) (hb : s.buckets = [])
    (ha : ∀ n ∈ root.nodes, 1 ≤ n.Size) :
    ∃ (b : IntMap (List TreeNode)) (M : Int),
      s.FillBuckets Real.log = .ok { s with buckets := b } ∧
      IntMap.Sorted b ∧
      (∃ n ∈ root.nodes, ⌊Real.log (n.Size : ℝ) / Real.log 1.9⌋ = M) ∧
      (∀ n ∈ root.nodes, ⌊Real.log (n.Size : ℝ) / Real.log 1.9⌋ ≤ M) ∧
      (∀ k, k ≠ M + 1 → (IntMap.find b k).getD []
        = root.nodes.filter (fun n => decide (⌊Real.log (n.Size : ℝ) / Real.log 1.9⌋ = k))) ∧
      IntMap.find b (M + 1) = some [root] ∧
      (b.map (fun e => (e.2.length : Int))).sum = (root.nodes.length : Int) + 1 := by
  obtain ⟨b, M, h1, h2, ⟨n, hn, hnM⟩, h4, h5, h6, h7⟩ := FillBuckets_spec Real.log s key root hs hb
  refine ⟨b, M, h1, h2, ⟨n, hn, ?_⟩, ?_, ?_, h6, h7⟩
  · rw [← bucketIndex_real_floor _ (ha n hn)]
    exact hnM
  · intro n' hn'
    rw [← bucketIndex_real_floor _ (ha n' hn')]
    exact h4 n' hn'
  · intro k hk
    rw [h5 k hk]
    apply List.filter_congr
    intro n' hn'
    rw [bucketIndex_real_floor _ (ha n' hn')]

theorem sampleTree_buckets_real :
    sampleTree.FillBucketsWithTree Real.log []
      = [(0, [.leaf 1 1 1]),
         (1, [.leaf 2 1 1, .compound 3 2 1 (.leaf 2 1 1) (.leaf 1 1 1), .leaf 2 1 1]),
         (2, [sampleTree])] := by
  have e1 : bucketIndex Real.log 1 = 0 := by
    simpa using bucketIndex_real_eq 1 0 (by norm_num) (by norm_num) (by norm_num)
  have e2 : bucketIndex Real.log 2 = 1 := by
    simpa using bucketIndex_real_eq 2 1 (by norm_num) (by norm_num) (by norm_num)
  have e3 : bucketIndex Real.log 3 = 1 := by
    simpa using bucketIndex_real_eq 3 1 (by norm_num) (by norm_num) (by norm_num)
  have e5 : bucketIndex Real.log 5 = 2 := by
    simpa using bucketIndex_real_eq 5 2 (by norm_num) (by norm_num) (by norm_num)
  simp [sampleTree, TreeNode.FillBucketsWithTree, e1, e2, e3, e5, IntMap.modify]

/-- Witness for C6: the five-node sample tree, whose areas 5, 2, 3, 2, 1 have
the indices 2, 1, 1, 1, 0; the root is filed again in bucket 3. -/
theorem fill_buckets_spec_witness :
    (∀ n ∈ sampleTree.nodes, 1 ≤ n.Size) ∧
    ModuleType.FillBuckets Real.log
      (treeType ℝ)
      = .ok { treeType ℝ with buckets :=
          [(0, [.leaf 1 1 1]),
           (1, [.leaf 2 1 1, .compound 3 2 1 (.leaf 2 1 1) (.leaf 1 1 1), .leaf 2 1 1]),
           (2, [sampleTree]), (3, [sampleTree])] } ∧
    ∃ (b : IntMap (List TreeNode)) (M : Int),
      ModuleType.FillBuckets Real.log
        (treeType ℝ)
        = .ok { treeType ℝ with buckets := b } ∧
      IntMap.Sorted b ∧
      (∃ n ∈ sampleTree.nodes, ⌊Real.log (n.Size : ℝ) / Real.log 1.9⌋ = M) ∧
      (∀ n ∈ sampleTree.nodes, ⌊Real.log (n.Size : ℝ) / Real.log 1.9⌋ ≤ M) ∧
      (∀ k, k ≠ M + 1 → (IntMap.find b k).getD []
        = sampleTree.nodes.filter
            (fun n => decide (⌊Real.log (n.Size : ℝ) / Real.log 1.9⌋ = k))) ∧
      IntMap.find b (M + 1) = some [sampleTree] ∧
      (b.map (fun e => (e.2.length : Int))).sum = (sampleTree.nodes.length : Int) + 1 :=
  ⟨by decide,
   by simp [ModuleType.FillBuckets, treeType, sampleTree_buckets_real, lastKey, IntMap.modify],
   fill_buckets_spec (treeType ℝ) 0 sampleTree rfl rfl
     (by decide)⟩

/-! ## The region cursor of the summary artifact -/

section RegionLoop

variable {K : Type} [LinearOrderedField K]


theorem below_tolerance_of_below (B : K) (t : Int) (hB : 0 ≤ B) (h : (t : K) < B * 0.999) :
    (t : K) < B * 1.0001 := by
  have : B * 0.999 ≤ B * 1.0001 := mul_le_mul_of_nonneg_left (by norm_num) hB
  exact lt_of_lt_of_le h this


/-- A region within the tolerance of the bucket is adopted: no line is
written and the cursor moves past it. -/
theorem regionLoop_adopt (gm : Target K) (B : K) (t : Int) (r : Region K)
    (rest : IntMap (Region K)) (hlo : B * 0.999 ≤ (t : K)) (hhi : (t : K) < B * 1.0001) :
    regionLoop gm B ((t, r) :: rest) = some ([], r.target, rest) := by
  simp only [regionLoop]
  rw [if_pos hhi, if_neg (not_lt.2 hlo)]


/-- When the region loop ends, the lines it wrote are the target-only lines
of the leading regions below the bucket, with the values stored in them, and
the cursor is left inside the other regions. -/
theorem regionLoop_some (gm : Target K) (B : K) (rs : IntMap (Region K)) :
    ∀ res, regionLoop gm B rs = some res →
      res.1 = (rs.takeWhile (fun e => decide ((e.1 : K) < B * 0.999))).map
          (fun e => targetOnlyLine e.1 e.2.target) ∧
      res.2.2 <:+ rs.dropWhile (fun e => decide ((e.1 : K) < B * 0.999)) := by
  induction rs with
  | nil =>
    intro res h
    simp only [regionLoop, Option.some.injEq] at h
    subst h
    simp
  | cons hd tl ih =>
    obtain ⟨t, r⟩ := hd
    intro res h
    simp only [regionLoop] at h
    by_cases h1 : (t : K) < B * 1.0001
    · by_cases h2 : (t : K) < B * 0.999
      · rw [if_pos h1, if_pos h2] at h
        cases hr : regionLoop gm B tl with
        | none => rw [hr] at h; cases h
        | some res' =>
          rw [hr, Option.map_some'] at h
          cases h
          obtain ⟨i1, i2⟩ := ih res' hr
          simp [List.takeWhile_cons, List.dropWhile_cons, h2, i1, i2]
      · rw [if_pos h1, if_neg h2] at h
        cases h
        simp [List.takeWhile_cons, List.dropWhile_cons, h2]
    · by_cases h2 : (t : K) < B * 0.999
      · rw [if_neg h1, if_pos h2] at h
        cases h
      · rw [if_neg h1, if_neg h2] at h
        cases h
        simp [List.takeWhile_cons, List.dropWhile_cons, h2]


/-- For a bucket of non-negative mean area the region loop ends. -/
theorem regionLoop_isSome (gm : Target K) (B : K) (hB : 0 ≤ B) (rs : IntMap (Region K)) :
    ∃ res, regionLoop gm B rs = some res := by
  induction rs with
  | nil => exact ⟨_, rfl⟩
  | cons hd tl ih =>
    obtain ⟨t, r⟩ := hd
    simp only [regionLoop]
    by_cases h2 : (t : K) < B * 0.999
    · obtain ⟨res, hres⟩ := ih
      rw [if_pos (below_tolerance_of_below B t hB h2), if_pos h2, hres]
      exact ⟨_, rfl⟩
    · by_cases h1 : (t : K) < B * 1.0001
      · rw [if_pos h1, if_neg h2]
        exact ⟨_, rfl⟩
      · rw [if_neg h1, if_neg h2]
        exact ⟨_, rfl⟩


/-- In a sorted region table the regions below a bound are the leading ones. -/
theorem takeWhile_below_eq_filter (c : K) (rs : IntMap (Region K)) (h : IntMap.Sorted rs) :
    rs.takeWhile (fun e => decide ((e.1 : K) < c)) = rs.filter (fun e => decide ((e.1 : K) < c)) := by
  induction rs with
  | nil => rfl
  | cons hd tl ih =>
    unfold IntMap.Sorted at h ih
    rw [List.pairwise_cons] at h
    by_cases hp : ((hd.1 : Int) : K) < c
    · simp only [List.takeWhile_cons, List.filter_cons, hp, decide_True, if_true, ih h.2]
    · have hf : tl.filter (fun e => decide ((e.1 : K) < c)) = [] := by
        rw [List.filter_eq_nil_iff]
        intro e he
        have h1 : hd.1 < e.1 := h.1 e he
        have h2 : ((hd.1 : Int) : K) < ((e.1 : Int) : K) := by exact_mod_cast h1
        simp only [decide_eq_true_eq, not_lt]
        exact le_of_lt (lt_of_le_of_lt (not_lt.1 hp) h2)
      simp [List.takeWhile_cons, List.filter_cons, hp, hf]

/-- The mean area of a bucket: `exp` of the mean of the `log` of the areas. -/
theorem bucketActual_B (x : Extern K) (members : List TreeNode) :
    (bucketActual x members).B = x.exp
      (members.foldl (fun acc mi => acc + x.log (mi.Size : K)) 0
        / ((members.length : Int) : K)) := by
  unfold bucketActual
  dsimp only
  split <;> rfl


/-- One round of the bucket loop, unfolded. -/
theorem datLines_cons (x : Extern K) (s : ModuleType K) (bi : Int × List TreeNode)
    (more : IntMap (List TreeNode)) (ri : IntMap (Region K))
    (res : List (Line K) × Target K × IntMap (Region K))
    (h : regionLoop (Extern.GetMeanIO x s (bucketActual x bi.2).B) (bucketActual x bi.2).B ri
      = some res) :
    datLines x s (bi :: more) ri = (datLines x s more res.2.2).map
      (fun ls => res.1 ++ bucketLine (bucketActual x bi.2) res.2.1 :: ls) := by
  obtain ⟨lines, tg, ri'⟩ := res
  simp only [datLines, h]

/-- When the bucket loop ends, its output follows a plan whose runs of
regions, taken together, are a sublist of the regions from the cursor on. -/
theorem datLines_plan (x : Extern K) (s : ModuleType K) (buckets : IntMap (List TreeNode)) :
    ∀ (ri : IntMap (Region K)) (L : List (Line K)), datLines x s buckets ri = some L →
      ∃ plan : List (IntMap (Region K) × Target K),
        plan.length = buckets.length ∧
        List.Sublist (plan.map Prod.fst).flatten ri ∧
        L = datRows x (plan.zip buckets) := by
  induction buckets with
  | nil =>
    intro ri L h
    simp only [datLines, Option.some.injEq] at h
    subst h
    exact ⟨[], rfl, by simp, rfl⟩
  | cons bi more ih =>
    intro ri L h
    cases hr : regionLoop (Extern.GetMeanIO x s (bucketActual x bi.2).B) (bucketActual x bi.2).B ri with
    | none => simp [datLines, hr] at h
    | some res =>
      rw [datLines_cons x s bi more ri res hr] at h
      cases hm : datLines x s more res.2.2 with
      | none => rw [hm] at h; cases h
      | some L' =>
        rw [hm, Option.map_some', Option.some.injEq] at h
        obtain ⟨plan, hlen, hsub, hL⟩ := ih res.2.2 L' hm
        obtain ⟨h1, h2⟩ := regionLoop_some _ _ ri res hr
        refine ⟨(ri.takeWhile (fun e => decide ((e.1 : K) < (bucketActual x bi.2).B * 0.999)),
          res.2.1) :: plan, by simp [hlen], ?_, ?_⟩
        · simp only [List.map_cons, List.flatten_cons]
          have hd := List.Sublist.append (List.Sublist.refl (ri.takeWhile
            (fun e => decide ((e.1 : K) < (bucketActual x bi.2).B * 0.999))))
            (hsub.trans h2.sublist)
          rwa [List.takeWhile_append_dropWhile] at hd
        · rw [← h, hL, h1]
          rfl

/-- With a positive `exp` every bucket has a positive mean area, and the
bucket loop ends. -/
theorem datLines_isSome (x : Extern K) (s : ModuleType K) (hexp : ∀ v, 0 < x.exp v)
    (buckets : IntMap (List TreeNode)) :
    ∀ ri : IntMap (Region K), ∃ L, datLines x s buckets ri = some L := by
  induction buckets with
  | nil => intro ri; exact ⟨[], rfl⟩
  | cons bi more ih =>
    intro ri
    have hB : 0 ≤ (bucketActual x bi.2).B := by
      rw [bucketActual_B]
      exact le_of_lt (hexp _)
    obtain ⟨res, hr⟩ := regionLoop_isSome (Extern.GetMeanIO x s (bucketActual x bi.2).B) _ hB ri
    obtain ⟨L', hm⟩ := ih res.2.2
    rw [datLines_cons x s bi more ri res hr, hm]
    exact ⟨_, rfl⟩

end RegionLoop

/-! ## The summary artifact -/

section Summary

variable {K : Type} [LinearOrderedField K]

theorem foldl_add_eq_sum {α : Type} (f : α → K) (l : List α) :
    ∀ c : K, l.foldl (fun acc mi => acc + f mi) c = c + (l.map f).sum := by
  induction l with
  | nil => intro c; simp
  | cons a tl ih =>
    intro c
    simp only [List.foldl_cons, List.map_cons, List.sum_cons, ih]
    ring

/-- The actual means of a bucket are the sums over its members divided by the
number of members. -/
theorem bucketActual_means (x : Extern K) (members : List TreeNode) :
    (bucketActual x members).T
      = (members.map (fun mi => (mi.NumTerminals : K))).sum / (members.length : K) ∧
    (bucketActual x members).I
      = (members.map (fun mi => (mi.NumInputs : K))).sum / (members.length : K) ∧
    (bucketActual x members).O
      = (members.map (fun mi => (mi.NumOutputs : K))).sum / (members.length : K) ∧
    (bucketActual x members).g
      = (members.map (fun mi => (mi.GFraction : K))).sum / (members.length : K) := by
  unfold bucketActual
  dsimp only
  split <;> simp [foldl_add_eq_sum]

/-- A bucket of one member has both standard deviations set to `-1`. -/
theorem bucketActual_sdev_single (x : Extern K) (members : List TreeNode)
    (h : members.length = 1) :
    (bucketActual x members).sdevT = -1 ∧ (bucketActual x members).sdevG = -1 := by
  unfold bucketActual
  dsimp only
  rw [h]
  simp

variable [FloorRing K]

/-- A run of `WriteDat` that fills the cache, opens the destination and ends. -/
theorem WriteDat_run (x : Extern K) (g : Globals) (s s1 : ModuleType K) (fs : FileSys K)
    (name : String) (L : List (Line K)) (hd : s.datWritten = false)
    (hF : s.FillBuckets x.log = .ok s1) (ho : fs.canOpen (name ++ ".dat") = true)
    (hL : datLines x s1 s1.buckets s1.regions = some L) :
    s.WriteDat x g fs name = .done { s1 with datWritten := true }
      (fs.write (name ++ ".dat") (statHeader g "data" name ++ datColumns ++ L)) := by
  simp [ModuleType.WriteDat, hd, hF, ho, hL]

end Summary

/-- C8. When the bucket loop of `WriteDat` reaches a bucket of mean area `B`
with the region cursor on a region of threshold `t`, `0.999 * B <= t` and
`t < 1.0001 * B`: the bucket contributes its row and nothing else (no
target-only line for the region), the loop goes on with the cursor past the
region, and the row is made of the area `B`, the six target words `meanT`,
`meanT * (1 - meanG)`, `meanT * meanG`, `meanG`, `sigmaT`, `sigmaG` of the
region, and the six actual words of the bucket, whose four means are the
averages over the members; with one member both deviation words are the
placeholder. -/
theorem bucket_row_adopts_region {K : Type} [LinearOrderedField K] (x : Extern K)
    (s : ModuleType K) (k : Int) (members : List TreeNode) (more : IntMap (List TreeNode))
    (t : Int) (r : Region K) (rest : IntMap (Region K))
    (hlo : (bucketActual x members).B * 0.999 ≤ (t : K))
    (hhi : (t : K) < (bucketActual x members).B * 1.0001) :
    datLines x s ((k, members) :: more) ((t, r) :: rest)
      = (datLines x s more rest).map
          (fun ls => bucketLine (bucketActual x members) r.target :: ls) ∧
    bucketLine (bucketActual x members) r.target
      = [.num (bucketActual x members).B,
         WriteDatWord r.meanT false, WriteDatWord (r.meanT * (1 - r.meanG)) false,
         WriteDatWord (r.meanT * r.meanG) false, WriteDatWord r.meanG true,
         WriteDatWord r.sigmaT false, WriteDatWord r.sigmaG true,
         .str "  ",
         WriteDatWord (bucketActual x members).T false,
         WriteDatWord (bucketActual x members).I false,
         WriteDatWord (bucketActual x members).O false,
         WriteDatWord (bucketActual x members).g true,
         WriteDatWord (bucketActual x members).sdevT false,
         WriteDatWord (bucketActual x members).sdevG true] ∧
    ((bucketActual x members).T
        = (members.map (fun mi => (mi.NumTerminals : K))).sum / (members.length : K) ∧
      (bucketActual x members).I
        = (members.map (fun mi => (mi.NumInputs : K))).sum / (members.length : K) ∧
      (bucketActual x members).O
        = (members.map (fun mi => (mi.NumOutputs : K))).sum / (members.length : K) ∧
      (bucketActual x members).g
        = (members.map (fun mi => (mi.GFraction : K))).sum / (members.length : K)) ∧
    (members.length = 1 →
      WriteDatWord (bucketActual x members).sdevT false = .str "-   " ∧
      WriteDatWord (bucketActual x members).sdevG true = .str "-    ") := by
  refine ⟨?_, rfl, bucketActual_means x members, ?_⟩
  · have h := regionLoop_adopt (Extern.GetMeanIO x s (bucketActual x members).B)
      (bucketActual x members).B t r rest hlo hhi
    rw [datLines_cons x s (k, members) more ((t, r) :: rest) _ h]
    simp
  · intro h1
    obtain ⟨e1, e2⟩ := bucketActual_sdev_single x members h1
    rw [e1, e2]
    simp [WriteDatWord]

/-! ## Sample runs over the reals -/

theorem bucketActual_B_single (a : Int) (i o : Int) (ha : 0 < (a : ℝ)) :
    (bucketActual (sampleExtern Real.log Real.exp Real.sqrt) [.leaf a i o]).B = (a : ℝ) := by
  rw [bucketActual_B]
  simp [sampleExtern, TreeNode.Size, Real.exp_log ha]

theorem leafType_one_buckets :
    (leafType ℝ 1).FillBuckets Real.log
      = .ok { leafType ℝ 1 with buckets := [(0, [.leaf 1 2 2]), (1, [.leaf 1 2 2])] } := by
  have e1 : bucketIndex Real.log 1 = 0 := by
    simpa using bucketIndex_real_eq 1 0 (by norm_num) (by norm_num) (by norm_num)
  simp [ModuleType.FillBuckets, leafType, TreeNode.FillBucketsWithTree, e1, IntMap.modify,
    lastKey]

/-- The row of a bucket holding the single sample leaf of area 1, with the
target values of the sample region. -/
theorem leaf_one_row :
    bucketLine (bucketActual (sampleExtern Real.log Real.exp Real.sqrt) [.leaf 1 2 2])
        (sampleRegion ℝ).target
      = [.num 1, .num 4, .num 2, .num 2, .num (1 / 2), .num 1, .num (1 / 10), .str "  ",
         .num 4, .num 2, .num 2, .num (1 / 2), .str "-   ", .str "-    "] := by
  simp [bucketLine, WriteDatLine, WriteDatWord, bucketActual, sampleExtern, sampleRegion,
    Region.target, TreeNode.Size, TreeNode.NumTerminals, TreeNode.NumInputs,
    TreeNode.NumOutputs, TreeNode.GFraction]
  norm_num

/-- The summary rows of the single leaf of area 1: the row of bucket 0 with
the values of the region, and the row of the bucket of the root with the
values of the target model at area 1. -/
theorem leaf_one_datLines :
    datLines (sampleExtern Real.log Real.exp Real.sqrt)
        { leafType ℝ 1 with buckets := [(0, [.leaf 1 2 2]), (1, [.leaf 1 2 2])] }
        [(0, [.leaf 1 2 2]), (1, [.leaf 1 2 2])] [(1, sampleRegion ℝ)]
      = some
        [[.num 1, .num 4, .num 2, .num 2, .num (1 / 2), .num 1, .num (1 / 10), .str "  ",
          .num 4, .num 2, .num 2, .num (1 / 2), .str "-   ", .str "-    "],
         [.num 1, .num 1, .num 1, .num 1, .num 1, .num 1, .num 1, .str "  ",
          .num 4, .num 2, .num 2, .num (1 / 2), .str "-   ", .str "-    "]] := by
  have hB := bucketActual_B_single 1 2 2 (by norm_num)
  have h1 := regionLoop_adopt
    (Extern.GetMeanIO (sampleExtern Real.log Real.exp Real.sqrt)
      { leafType ℝ 1 with buckets := [(0, [.leaf 1 2 2]), (1, [.leaf 1 2 2])] }
      (bucketActual (sampleExtern Real.log Real.exp Real.sqrt) [.leaf 1 2 2]).B)
    (bucketActual (sampleExtern Real.log Real.exp Real.sqrt) [.leaf 1 2 2]).B 1 (sampleRegion ℝ) []
    (by rw [hB]; norm_num) (by rw [hB]; norm_num)
  rw [datLines_cons _ _ _ _ _ _ h1]
  simp only [datLines, regionLoop, Option.map_some', List.nil_append, leaf_one_row]
  simp [bucketLine, WriteDatLine, WriteDatWord, bucketActual, sampleExtern,
    TreeNode.Size, TreeNode.NumTerminals, TreeNode.NumInputs,
    TreeNode.NumOutputs, TreeNode.GFraction]
  norm_num

/-- The whole `WriteDat` run on the single leaf of area 1. -/
theorem leaf_one_WriteDat (g : Globals) (fs : FileSys ℝ) (name : String)
    (ho : fs.canOpen (name ++ ".dat") = true) :
    (leafType ℝ 1).WriteDat (sampleExtern Real.log Real.exp Real.sqrt) g fs name
      = .done { leafType ℝ 1 with
            buckets := [(0, [.leaf 1 2 2]), (1, [.leaf 1 2 2])], datWritten := true }
          (fs.write (name ++ ".dat") (statHeader g "data" name ++ datColumns ++
            [[.num 1, .num 4, .num 2, .num 2, .num (1 / 2), .num 1, .num (1 / 10), .str "  ",
              .num 4, .num 2, .num 2, .num (1 / 2), .str "-   ", .str "-    "],
             [.num 1, .num 1, .num 1, .num 1, .num 1, .num 1, .num 1, .str "  ",
              .num 4, .num 2, .num 2, .num (1 / 2), .str "-   ", .str "-    "]])) :=
  WriteDat_run (sampleExtern Real.log Real.exp Real.sqrt) g (leafType ℝ 1) _ fs name _ rfl
    leafType_one_buckets ho leaf_one_datLines

/-- Witness for C8: the region table with the one sample region at threshold
1 and the single leaf of area 1 with 4 terminals. The mean area of bucket 0 is
1, the row of bucket 0 has the target words 4, 2, 2, 0.5, 1, 0.1 of the region
and the actual mean 4 of the terminal count, with placeholders for both
deviations; it is the first data row of the file. -/
theorem bucket_row_adopts_region_witness :
    (bucketActual (sampleExtern Real.log Real.exp Real.sqrt) [.leaf 1 2 2]).B * 0.999
      ≤ ((1 : Int) : ℝ) ∧
    ((1 : Int) : ℝ)
      < (bucketActual (sampleExtern Real.log Real.exp Real.sqrt) [.leaf 1 2 2]).B * 1.0001 ∧
    datLines (sampleExtern Real.log Real.exp Real.sqrt) (leafType ℝ 1)
        [(0, [.leaf 1 2 2]), (1, [.leaf 1 2 2])] [(1, sampleRegion ℝ)]
      = (datLines (sampleExtern Real.log Real.exp Real.sqrt) (leafType ℝ 1)
          [(1, [.leaf 1 2 2])] []).map
        (fun ls =>
          [.num 1, .num 4, .num 2, .num 2, .num (1 / 2), .num 1, .num (1 / 10), .str "  ",
           .num 4, .num 2, .num 2, .num (1 / 2), .str "-   ", .str "-    "] :: ls) ∧
    (leafType ℝ 1).WriteDat (sampleExtern Real.log Real.exp Real.sqrt) sampleGlobals
        (sampleFiles ℝ) "c"
      = .done { leafType ℝ 1 with
            buckets := [(0, [.leaf 1 2 2]), (1, [.leaf 1 2 2])], datWritten := true }
          ((sampleFiles ℝ).write ("c" ++ ".dat") (statHeader sampleGlobals "data" "c"
            ++ datColumns ++
            [[.num 1, .num 4, .num 2, .num 2, .num (1 / 2), .num 1, .num (1 / 10), .str "  ",
              .num 4, .num 2, .num 2, .num (1 / 2), .str "-   ", .str "-    "],
             [.num 1, .num 1, .num 1, .num 1, .num 1, .num 1, .num 1, .str "  ",
              .num 4, .num 2, .num 2, .num (1 / 2), .str "-   ", .str "-    "]])) := by
  have hB := bucketActual_B_single 1 2 2 (by norm_num)
  have hlo : (bucketActual (sampleExtern Real.log Real.exp Real.sqrt) [.leaf 1 2 2]).B * 0.999
      ≤ ((1 : Int) : ℝ) := by rw [hB]; norm_num
  have hhi : ((1 : Int) : ℝ)
      < (bucketActual (sampleExtern Real.log Real.exp Real.sqrt) [.leaf 1 2 2]).B * 1.0001 := by
    rw [hB]; norm_num
  have h := bucket_row_adopts_region (sampleExtern Real.log Real.exp Real.sqrt) (leafType ℝ 1)
    0 [.leaf 1 2 2] [(1, [.leaf 1 2 2])] 1 (sampleRegion ℝ) [] hlo hhi
  refine ⟨hlo, hhi, ?_, leaf_one_WriteDat sampleGlobals (sampleFiles ℝ) "c" rfl⟩
  rw [← leaf_one_row]
  exact h.1

/-- Witness for C2: a first `WriteDat` on the single leaf of area 1 writes
`c.dat`; a second one, under another name, returns without touching the
object or the files. -/
theorem stats_written_once_witness :
    (leafType ℝ 1).WriteDat (sampleExtern Real.log Real.exp Real.sqrt) sampleGlobals
        (sampleFiles ℝ) "c"
      = .done { leafType ℝ 1 with
            buckets := [(0, [.leaf 1 2 2]), (1, [.leaf 1 2 2])], datWritten := true }
          ((sampleFiles ℝ).write ("c" ++ ".dat") (statHeader sampleGlobals "data" "c"
            ++ datColumns ++
            [[.num 1, .num 4, .num 2, .num 2, .num (1 / 2), .num 1, .num (1 / 10), .str "  ",
              .num 4, .num 2, .num 2, .num (1 / 2), .str "-   ", .str "-    "],
             [.num 1, .num 1, .num 1, .num 1, .num 1, .num 1, .num 1, .str "  ",
              .num 4, .num 2, .num 2, .num (1 / 2), .str "-   ", .str "-    "]])) ∧
    ModuleType.WriteDat (sampleExtern Real.log Real.exp Real.sqrt) sampleGlobals
        { leafType ℝ 1 with
            buckets := [(0, [.leaf 1 2 2]), (1, [.leaf 1 2 2])], datWritten := true }
        (sampleFiles ℝ) "d"
      = .done { leafType ℝ 1 with
            buckets := [(0, [.leaf 1 2 2]), (1, [.leaf 1 2 2])], datWritten := true }
          (sampleFiles ℝ) :=
  have h := leaf_one_WriteDat sampleGlobals (sampleFiles ℝ) "c" rfl
  ⟨h, (stats_written_once (sampleExtern Real.log Real.exp Real.sqrt) sampleGlobals sampleGlobals
    (leafType ℝ 1) _ (sampleFiles ℝ) _ (sampleFiles ℝ) "c" "d").1 h⟩

/-- C9. With a positive `exp` (every bucket then has a positive mean area):
(1) at a bucket of mean area `B`, with the cursor at the head of the sorted
regions `ri`, the loop writes, before the row of the bucket, exactly one
target-only line for every region of `ri` with threshold `t < 0.999 * B`, in
the order of `ri`, and goes on with the next bucket from a later cursor;
(2) a target-only line has the threshold as its area and the placeholder in
all six actual columns; (3) a `WriteDat` run that opens its destination ends
and writes, bucket by bucket, a run of target-only lines followed by the row
of the bucket, the runs taken together being a sublist of the region table:
the regions are used in table order and none more than once. -/
theorem target_only_rows {K : Type} [LinearOrderedField K] [FloorRing K] (x : Extern K)
    (hexp : ∀ v, 0 < x.exp v) :
    (∀ (s : ModuleType K) (bi : Int × List TreeNode) (more : IntMap (List TreeNode))
        (ri : IntMap (Region K)), IntMap.Sorted ri →
      ∃ (tg : Target K) (ri' : IntMap (Region K)), ri' <:+ ri ∧
        datLines x s (bi :: more) ri = (datLines x s more ri').map (fun ls =>
          (ri.filter (fun e => decide ((e.1 : K) < (bucketActual x bi.2).B * 0.999))).map
              (fun e => targetOnlyLine e.1 e.2.target)
            ++ bucketLine (bucketActual x bi.2) tg :: ls)) ∧
    (∀ (t : Int) (tg : Target K), targetOnlyLine t tg
      = [.num (t : K),
         WriteDatWord tg.tgT false, WriteDatWord tg.tgI false, WriteDatWord tg.tgO false,
         WriteDatWord tg.tgG true, WriteDatWord tg.tgSdevT false, WriteDatWord tg.tgSdevG true,
         .str "  ",
         .str "-   ", .str "-   ", .str "-   ", .str "-    ", .str "-   ", .str "-    "]) ∧
    (∀ (g : Globals) (s s1 : ModuleType K) (fs : FileSys K) (name : String),
      s.datWritten = false → s.FillBuckets x.log = .ok s1 →
      fs.canOpen (name ++ ".dat") = true →
      ∃ plan : List (IntMap (Region K) × Target K),
        plan.length = s1.buckets.length ∧
        List.Sublist (plan.map Prod.fst).flatten s1.regions ∧
        s.WriteDat x g fs name = .done { s1 with datWritten := true }
          (fs.write (name ++ ".dat")
            (statHeader g "data" name ++ datColumns ++ datRows x (plan.zip s1.buckets)))) := by
  refine ⟨?_, ?_, ?_⟩
  · intro s bi more ri hsorted
    have hB : 0 ≤ (bucketActual x bi.2).B := by
      rw [bucketActual_B]
      exact le_of_lt (hexp _)
    obtain ⟨res, hr⟩ := regionLoop_isSome (Extern.GetMeanIO x s (bucketActual x bi.2).B) _ hB ri
    obtain ⟨h1, h2⟩ := regionLoop_some _ _ ri res hr
    refine ⟨res.2.1, res.2.2, h2.trans (List.dropWhile_suffix _), ?_⟩
    rw [datLines_cons x s bi more ri res hr, h1, takeWhile_below_eq_filter _ ri hsorted]
  · intro t tg
    simp [targetOnlyLine, WriteDatLine, WriteDatWord]
  · intro g s s1 fs name hd hF ho
    obtain ⟨L, hL⟩ := datLines_isSome x s1 hexp s1.buckets s1.regions
    obtain ⟨plan, hlen, hsub, hrows⟩ := datLines_plan x s1 s1.buckets s1.regions L hL
    refine ⟨plan, hlen, hsub, ?_⟩
    rw [WriteDat_run x g s s1 fs name L hd hF ho hL, hrows]

theorem leafType_three_buckets :
    (leafType ℝ 3).FillBuckets Real.log
      = .ok { leafType ℝ 3 with buckets := [(1, [.leaf 3 2 2]), (2, [.leaf 3 2 2])] } := by
  have e3 : bucketIndex Real.log 3 = 1 := by
    simpa using bucketIndex_real_eq 3 1 (by norm_num) (by norm_num) (by norm_num)
  simp [ModuleType.FillBuckets, leafType, TreeNode.FillBucketsWithTree, e3, IntMap.modify,
    lastKey]

/-- The summary rows of the single leaf of area 3: bucket 1 has mean area 3,
the region at threshold 1 lies below it and gets a target-only line with its
own values; both bucket rows carry the values of the target model at area 3. -/
theorem leaf_three_datLines (s : ModuleType ℝ) :
    datLines (sampleExtern Real.log Real.exp Real.sqrt) s
        [(1, [.leaf 3 2 2]), (2, [.leaf 3 2 2])] [(1, sampleRegion ℝ)]
      = some
        [[.num 1, .num 4, .num 2, .num 2, .num (1 / 2), .num 1, .num (1 / 10), .str "  ",
          .str "-   ", .str "-   ", .str "-   ", .str "-    ", .str "-   ", .str "-    "],
         [.num 3, .num 3, .num 3, .num 3, .num 3, .num 3, .num 3, .str "  ",
          .num 4, .num 2, .num 2, .num (1 / 2), .str "-   ", .str "-    "],
         [.num 3, .num 3, .num 3, .num 3, .num 3, .num 3, .num 3, .str "  ",
          .num 4, .num 2, .num 2, .num (1 / 2), .str "-   ", .str "-    "]] := by
  have hB := bucketActual_B_single 3 2 2 (by norm_num)
  have h1 : regionLoop
      (Extern.GetMeanIO (sampleExtern Real.log Real.exp Real.sqrt) s
        (bucketActual (sampleExtern Real.log Real.exp Real.sqrt) [.leaf 3 2 2]).B)
      (bucketActual (sampleExtern Real.log Real.exp Real.sqrt) [.leaf 3 2 2]).B
      [(1, sampleRegion ℝ)]
      = some ([targetOnlyLine 1 (sampleRegion ℝ).target], ⟨3, 3, 3, 3, 3, 3⟩, []) := by
    rw [hB]
    simp only [regionLoop, sampleExtern]
    norm_num
  have h3 : Real.exp (Real.log 3) = 3 := Real.exp_log (by norm_num)
  rw [datLines_cons _ _ _ _ _ _ h1]
  simp only [datLines, regionLoop, Option.map_some', hB]
  simp [bucketLine, WriteDatLine, WriteDatWord, bucketActual, sampleExtern, targetOnlyLine,
    sampleRegion, Region.target, TreeNode.Size, TreeNode.NumTerminals, TreeNode.NumInputs,
    TreeNode.NumOutputs, TreeNode.GFraction, h3]
  norm_num

/-- The whole `WriteDat` run on the single leaf of area 3. -/
theorem leaf_three_WriteDat (g : Globals) (fs : FileSys ℝ) (name : String)
    (ho : fs.canOpen (name ++ ".dat") = true) :
    (leafType ℝ 3).WriteDat (sampleExtern Real.log Real.exp Real.sqrt) g fs name
      = .done { leafType ℝ 3 with
            buckets := [(1, [.leaf 3 2 2]), (2, [.leaf 3 2 2])], datWritten := true }
          (fs.write (name ++ ".dat") (statHeader g "data" name ++ datColumns ++
            [[.num 1, .num 4, .num 2, .num 2, .num (1 / 2), .num 1, .num (1 / 10), .str "  ",
              .str "-   ", .str "-   ", .str "-   ", .str "-    ", .str "-   ", .str "-    "],
             [.num 3, .num 3, .num 3, .num 3, .num 3, .num 3, .num 3, .str "  ",
              .num 4, .num 2, .num 2, .num (1 / 2), .str "-   ", .str "-    "],
             [.num 3, .num 3, .num 3, .num 3, .num 3, .num 3, .num 3, .str "  ",
              .num 4, .num 2, .num 2, .num (1 / 2), .str "-   ", .str "-    "]])) :=
  WriteDat_run (sampleExtern Real.log Real.exp Real.sqrt) g (leafType ℝ 3) _ fs name _ rfl
    leafType_three_buckets ho (leaf_three_datLines _)

/-- Witness for C9: over the reals `exp` is positive; on the single leaf of
area 3 the region at threshold 1 lies below bucket 1 (mean area 3) and gets
the one target-only line of the file, written before the row of bucket 1. -/
theorem target_only_rows_witness :
    (∀ v : ℝ, 0 < (sampleExtern Real.log Real.exp Real.sqrt).exp v) ∧
    IntMap.Sorted [((1 : Int), sampleRegion ℝ)] ∧
    (∃ (tg : Target ℝ) (ri' : IntMap (Region ℝ)), ri' <:+ [((1 : Int), sampleRegion ℝ)] ∧
      datLines (sampleExtern Real.log Real.exp Real.sqrt) (leafType ℝ 3)
          [(1, [.leaf 3 2 2]), (2, [.leaf 3 2 2])] [(1, sampleRegion ℝ)]
        = (datLines (sampleExtern Real.log Real.exp Real.sqrt) (leafType ℝ 3)
            [(2, [.leaf 3 2 2])] ri').map (fun ls =>
          (List.filter (fun e => decide ((e.1 : ℝ)
              < (bucketActual (sampleExtern Real.log Real.exp Real.sqrt) [.leaf 3 2 2]).B * 0.999))
            [((1 : Int), sampleRegion ℝ)]).map (fun e => targetOnlyLine e.1 e.2.target)
          ++ bucketLine (bucketActual (sampleExtern Real.log Real.exp Real.sqrt) [.leaf 3 2 2]) tg
            :: ls)) ∧
    (leafType ℝ 3).WriteDat (sampleExtern Real.log Real.exp Real.sqrt) sampleGlobals
        (sampleFiles ℝ) "c"
      = .done { leafType ℝ 3 with
            buckets := [(1, [.leaf 3 2 2]), (2, [.leaf 3 2 2])], datWritten := true }
          ((sampleFiles ℝ).write ("c" ++ ".dat") (statHeader sampleGlobals "data" "c"
            ++ datColumns ++
            [[.num 1, .num 4, .num 2, .num 2, .num (1 / 2), .num 1, .num (1 / 10), .str "  ",
              .str "-   ", .str "-   ", .str "-   ", .str "-    ", .str "-   ", .str "-    "],
             [.num 3, .num 3, .num 3, .num 3, .num 3, .num 3, .num 3, .str "  ",
              .num 4, .num 2, .num 2, .num (1 / 2), .str "-   ", .str "-    "],
             [.num 3, .num 3, .num 3, .num 3, .num 3, .num 3, .num 3, .str "  ",
              .num 4, .num 2, .num 2, .num (1 / 2), .str "-   ", .str "-    "]])) :=
  have hexp : ∀ v : ℝ, 0 < (sampleExtern Real.log Real.exp Real.sqrt).exp v :=
    fun v => Real.exp_pos v
  have hs : IntMap.Sorted [((1 : Int), sampleRegion ℝ)] := List.pairwise_singleton _ _
  ⟨hexp, hs,
   (target_only_rows (sampleExtern Real.log Real.exp Real.sqrt) hexp).1 (leafType ℝ 3)
     (1, [.leaf 3 2 2]) [(2, [.leaf 3 2 2])] [(1, sampleRegion ℝ)] hs,
   leaf_three_WriteDat sampleGlobals (sampleFiles ℝ) "c" rfl⟩

section TargetValues

variable {K : Type} [LinearOrderedField K]

end TargetValues

theorem cannot_open_ne_structural (filename : String) :
    "Cannot open " ++ filename ++ " for writing" ≠ "Internal error: forrest is not a tree" := by
  intro h
  have h2 := congrArg (fun t : String => t.data.head?) h
  simp [String.data_append] at h2

/-- C4, as amended. `Module::WriteTree` makes no check of the partition
forest: for every module and module type, whatever the number of roots of
the forest, it writes the `.tree` file (header, info header, `[top]`,
`[blocks]` and `[tree]` sections) when the destination can be opened, and
throws "Cannot open <name>.tree for writing" with no file written when it
cannot; it never throws the structural-invariant error. -/
theorem write_tree_ignores_forest {K : Type} [LinearOrderedField K] (x : Extern K)
    (g : Globals) (m : Module) (modType : ModuleType K) (fs : FileSys K) (name : String) :
    (fs.canOpen (name ++ ".tree") = true →
      m.WriteTree x g modType fs name = .done () (fs.write (name ++ ".tree") (
        [[.str "# Tree data ", .str name, .str " generated by gnl ", .str g.version,
          .str " on ", .str g.time]] ++
        m.WriteInfoHeader x g modType "# " ++
        [[], [.str "[top]"], [.int m.number]] ++
        [[], [.str "[blocks]"]] ++ m.treeBlocks ++
        [[], [.str "[tree]"]] ++ treeTriples g))) ∧
    (fs.canOpen (name ++ ".tree") = false →
      m.WriteTree x g modType fs name
        = .thrown ("Cannot open " ++ (name ++ ".tree") ++ " for writing") () fs) ∧
    (∀ (u : Unit) (fs' : FileSys K),
      m.WriteTree x g modType fs name
        ≠ .thrown "Internal error: forrest is not a tree" u fs') := by
  refine ⟨?_, ?_, ?_⟩
  · intro h
    simp [Module.WriteTree, h]
  · intro h
    simp [Module.WriteTree, h]
  · intro u fs' h
    unfold Module.WriteTree at h
    by_cases hc : fs.canOpen (name ++ ".tree") = true
    · simp [hc] at h
    · simp only [hc, Bool.not_false, Bool.not_eq_true] at h
      simp only [Bool.not_eq_true] at hc
      simp [hc] at h
      exact cannot_open_ne_structural _ h.1

/-- The claim C4 fails on the empty forest: `WriteTree` returns normally and
the `.tree` file is written, with the sections `[top]`, `[blocks]` and
`[tree]` after the headers. -/
theorem write_tree_on_empty_forest :
    (emptyForestType ℝ).forrest.length ≠ 1 ∧
    sampleModule.WriteTree (sampleExtern Real.log Real.exp Real.sqrt) sampleGlobals
        (emptyForestType ℝ) (sampleFiles ℝ) "c"
      = .done () ((sampleFiles ℝ).write ("c" ++ ".tree") (
          [[.str "# Tree data ", .str "c", .str " generated by gnl ", .str "1.0",
            .str " on ", .str "now"]] ++
          sampleModule.WriteInfoHeader (sampleExtern Real.log Real.exp Real.sqrt) sampleGlobals
            (emptyForestType ℝ) "# " ++
          [[], [.str "[top]"], [.int 3], [], [.str "[blocks]"], [.int 7],
           [], [.str "[tree]"]])) := by
  refine ⟨by decide, ?_⟩
  simp [Module.WriteTree, sampleFiles, Module.treeBlocks, treeTriples, sampleModule,
    sampleGlobals]

/-- Witness for C4 as amended: the sample module with the empty forest. -/
theorem write_tree_ignores_forest_witness :
    (sampleFiles ℝ).canOpen ("c" ++ ".tree") = true ∧
    ∃ lines : List (Line ℝ),
      sampleModule.WriteTree (sampleExtern Real.log Real.exp Real.sqrt) sampleGlobals
          (emptyForestType ℝ) (sampleFiles ℝ) "c"
        = .done () ((sampleFiles ℝ).write ("c" ++ ".tree") lines) :=
  ⟨rfl, _, (write_tree_ignores_forest (sampleExtern Real.log Real.exp Real.sqrt) sampleGlobals
    sampleModule (emptyForestType ℝ) (sampleFiles ℝ) "c").1 rfl⟩

/-! ## Weighted-hierarchy export -/

/-- C19. `WritePtree` writes, after the header and the info header, one node
line per entry of `Globals::treeData`; line `i` (from 0) describes the entry
`n - 1 - i`, whereas triple `i` of the `[tree]` section of `WriteTree`
describes the entry `i`; and a node line is its ten leading items followed by
`child1 child2` when `child1 >= 0`, and by nothing otherwise. -/
theorem ptree_lines_spec {K : Type} [LinearOrderedField K] (x : Extern K) (g : Globals)
    (m : Module) (modType : ModuleType K) (fs : FileSys K) (name : String)
    (ho : fs.canOpen (name ++ ".ptree") = true) :
    m.WritePtree x g modType fs name = .done () (fs.write (name ++ ".ptree") (
      [[.str "# ptree ", .str name, .str " generated by gnl ", .str g.version,
        .str " on ", .str g.time]] ++
      m.WriteInfoHeader x g modType "# " ++ ptreeLines g)) ∧
    (ptreeLines (K := K) g).length = g.treeData.length ∧
    (∀ i : Nat, i < g.treeData.length →
      (ptreeLines (K := K) g)[i]?
        = (g.treeData[g.treeData.length - 1 - i]?).map ptreeLine ∧
      (treeTriples (K := K) g)[i]? = (g.treeData[i]?).map
        (fun ti => [.int ti.parent, .str " ", .int ti.child1, .str " ", .int ti.child2])) ∧
    (∀ ti : PtreeNode,
      (0 ≤ ti.child1 →
        ptreeLine (K := K) ti = ptreeBase ti ++ [.int ti.child1, .str " ", .int ti.child2]) ∧
      (ti.child1 < 0 → ptreeLine (K := K) ti = ptreeBase ti)) := by
  refine ⟨?_, ?_, ?_, ?_⟩
  · simp [Module.WritePtree, ho]
  · simp [ptreeLines]
  · intro i hi
    constructor
    · unfold ptreeLines
      rw [List.getElem?_map, List.getElem?_reverse hi]
    · unfold treeTriples
      rw [List.getElem?_map]
  · intro ti
    constructor
    · intro h
      simp [ptreeLine, ptreeBase, h]
    · intro h
      have h2 : ¬ti.child1 ≥ 0 := not_le.2 h
      simp [ptreeLine, ptreeBase, h2]

/-- Witness for C19: three recorded nodes, a root and two leaves; the first
line written is the one of the last leaf, without children, the last line is
the one of the root, with its children 1 and 2. -/
theorem ptree_lines_spec_witness :
    (sampleFiles ℝ).canOpen ("c" ++ ".ptree") = true ∧
    ptreeLines (K := ℝ) treeGlobals
      = [[.int 0, .str " ", .int 3, .str " ", .int 1, .str " ", .int 2, .str " ", .int 1,
          .str " 0 "],
         [.int 0, .str " ", .int 2, .str " ", .int 1, .str " ", .int 1, .str " ", .int 1,
          .str " 0 "],
         [.int (-1), .str " ", .int 5, .str " ", .int 2, .str " ", .int 2, .str " ", .int 1,
          .str " 0 ", .int 1, .str " ", .int 2]] ∧
    sampleModule.WritePtree (sampleExtern Real.log Real.exp Real.sqrt) treeGlobals
        (emptyForestType ℝ) (sampleFiles ℝ) "c"
      = .done () ((sampleFiles ℝ).write ("c" ++ ".ptree") (
          [[.str "# ptree ", .str "c", .str " generated by gnl ", .str treeGlobals.version,
            .str " on ", .str treeGlobals.time]] ++
          sampleModule.WriteInfoHeader (sampleExtern Real.log Real.exp Real.sqrt) treeGlobals
            (emptyForestType ℝ) "# " ++ ptreeLines treeGlobals)) :=
  ⟨rfl, by simp [ptreeLines, treeGlobals, ptreeLine],
   (ptree_lines_spec (sampleExtern Real.log Real.exp Real.sqrt) treeGlobals sampleModule
     (emptyForestType ℝ) (sampleFiles ℝ) "c" rfl).1⟩

/-! ## Headers of the legacy placement formats -/

/-- C13, as amended. In the header written by `WriteNetD` and in the one
written by `WriteNetD2` the fifth integer is `numBlocks - 1`; the fourth is
`numBlocks` plus the number of pads (`numInputs + numOutputs`, and for
`WriteNetD2` `numOutputs + numIn`), so the fifth integer is the fourth minus 1
minus the number of pads, and equals the fourth minus 1 only for a module
without pads. -/
theorem netD_header_fifth {K : Type} (m : Module) :
    (m.netDHeader (K := K))[3]? = some [.int (m.numBlocks + m.numInputs + m.numOutputs)] ∧
    (m.netDHeader (K := K))[4]? = some [.int (m.numBlocks - 1)] ∧
    m.numBlocks - 1 = (m.numBlocks + m.numInputs + m.numOutputs) - 1
      - (m.numInputs + m.numOutputs) ∧
    (m.netD2Header (K := K))[3]? = some [.int (m.numBlocks + m.numOutputs + m.numIn)] ∧
    (m.netD2Header (K := K))[4]? = some [.int (m.numBlocks - 1)] ∧
    m.numBlocks - 1 = (m.numBlocks + m.numOutputs + m.numIn) - 1 - (m.numOutputs + m.numIn) ∧
    (m.numBlocks - 1 = (m.numBlocks + m.numInputs + m.numOutputs) - 1
      ↔ m.numInputs + m.numOutputs = 0) ∧
    (m.numBlocks - 1 = (m.numBlocks + m.numOutputs + m.numIn) - 1
      ↔ m.numOutputs + m.numIn = 0) := by
  refine ⟨rfl, rfl, by omega, rfl, rfl, by omega, ?_, ?_⟩
  · constructor <;> intro h <;> omega
  · constructor <;> intro h <;> omega

/-- The claim C13 fails on the sample module (one inverter, one input pad, one
output pad): both headers have the fourth integer 3 and the fifth integer 0. -/
theorem netD_header_fifth_sample :
    sampleModule.netDHeader (K := ℝ) = [[.str "0"], [.int 4], [.int 2], [.int 3], [.int 0]] ∧
    sampleModule.netD2Header (K := ℝ) = [[.str "0"], [.int 4], [.int 2], [.int 3], [.int 0]] ∧
    (0 : Int) ≠ 3 - 1 := by
  refine ⟨?_, ?_, by decide⟩
  · simp [Module.netDHeader, Module.TotalPinCount, sampleModule]
  · simp [Module.netD2Header, Module.numIn, Module.numOut, sampleModule]

/-- Witness for C13 as amended: the sample module. -/
theorem netD_header_fifth_witness :
    (sampleModule.netDHeader (K := ℝ))[4]? = some [.int (sampleModule.numBlocks - 1)] ∧
    (sampleModule.netD2Header (K := ℝ))[4]? = some [.int (sampleModule.numBlocks - 1)] :=
  ⟨(netD_header_fifth sampleModule).2.1, (netD_header_fifth sampleModule).2.2.2.2.1⟩

/-! ## Actual values of a bucket over the reals -/

theorem bucketActual_sdev_many {K : Type} [LinearOrderedField K] (x : Extern K)
    (members : List TreeNode) (h : 1 < members.length) :
    (bucketActual x members).sdevT = x.sqrt
      ((members.map (fun mi =>
          ((mi.NumTerminals : K) - (bucketActual x members).T) ^ 2)).sum
        / ((members.length : K) - 1)) ∧
    (bucketActual x members).sdevG = x.sqrt
      ((members.map (fun mi =>
          ((mi.GFraction : K) - (bucketActual x members).g) ^ 2)).sum
        / ((members.length : K) - 1)) := by
  have hn : ((members.length : Int)) > 1 := by exact_mod_cast h
  unfold bucketActual
  simp only [hn, if_true, foldl_add_eq_sum, zero_add, sq, Int.cast_sub, Int.cast_natCast,
    Int.cast_one, and_self]

/-- C11. Over the reals, for a bucket with members `members` (n of them):
the area of its row is `exp` of the mean of `log(area)`; the four actual
means are the arithmetic means of the terminal, input and output counts and
of the G-fraction; for `n > 1` the two deviations are the square root of the
sum of squared deviations from the mean divided by `n - 1`, and are printed
as numbers; for `n = 1` both deviation words are the placeholder `-`. -/
theorem bucket_actual_real (gm : ModuleType ℝ → ℝ → Target ℝ)
    (gio : ModuleType ℝ → Int → Int × Int) (members : List TreeNode) (tg : Target ℝ) :
    (bucketActual (Extern.mk Real.log Real.exp Real.sqrt gm gio) members).B
      = Real.exp ((members.map (fun mi => Real.log (mi.Size : ℝ))).sum
          / (members.length : ℝ)) ∧
    ((bucketActual (Extern.mk Real.log Real.exp Real.sqrt gm gio) members).T
        = (members.map (fun mi => (mi.NumTerminals : ℝ))).sum / (members.length : ℝ) ∧
      (bucketActual (Extern.mk Real.log Real.exp Real.sqrt gm gio) members).I
        = (members.map (fun mi => (mi.NumInputs : ℝ))).sum / (members.length : ℝ) ∧
      (bucketActual (Extern.mk Real.log Real.exp Real.sqrt gm gio) members).O
        = (members.map (fun mi => (mi.NumOutputs : ℝ))).sum / (members.length : ℝ) ∧
      (bucketActual (Extern.mk Real.log Real.exp Real.sqrt gm gio) members).g
        = (members.map (fun mi => (mi.GFraction : ℝ))).sum / (members.length : ℝ)) ∧
    (1 < members.length →
      (bucketActual (Extern.mk Real.log Real.exp Real.sqrt gm gio) members).sdevT
        = Real.sqrt ((members.map (fun mi => ((mi.NumTerminals : ℝ)
            - (bucketActual (Extern.mk Real.log Real.exp Real.sqrt gm gio) members).T) ^ 2)).sum
          / ((members.length : ℝ) - 1)) ∧
      (bucketActual (Extern.mk Real.log Real.exp Real.sqrt gm gio) members).sdevG
        = Real.sqrt ((members.map (fun mi => ((mi.GFraction : ℝ)
            - (bucketActual (Extern.mk Real.log Real.exp Real.sqrt gm gio) members).g) ^ 2)).sum
          / ((members.length : ℝ) - 1)) ∧
      WriteDatWord (bucketActual (Extern.mk Real.log Real.exp Real.sqrt gm gio) members).sdevT
          false
        = .num (bucketActual (Extern.mk Real.log Real.exp Real.sqrt gm gio) members).sdevT ∧
      WriteDatWord (bucketActual (Extern.mk Real.log Real.exp Real.sqrt gm gio) members).sdevG
          true
        = .num (bucketActual (Extern.mk Real.log Real.exp Real.sqrt gm gio) members).sdevG) ∧
    (members.length = 1 →
      WriteDatWord (bucketActual (Extern.mk Real.log Real.exp Real.sqrt gm gio) members).sdevT
          false = .str "-   " ∧
      WriteDatWord (bucketActual (Extern.mk Real.log Real.exp Real.sqrt gm gio) members).sdevG
          true = .str "-    ") ∧
    bucketLine (bucketActual (Extern.mk Real.log Real.exp Real.sqrt gm gio) members) tg
      = [.num (bucketActual (Extern.mk Real.log Real.exp Real.sqrt gm gio) members).B,
         WriteDatWord tg.tgT false, WriteDatWord tg.tgI false, WriteDatWord tg.tgO false,
         WriteDatWord tg.tgG true, WriteDatWord tg.tgSdevT false, WriteDatWord tg.tgSdevG true,
         .str "  ",
         WriteDatWord (bucketActual (Extern.mk Real.log Real.exp Real.sqrt gm gio) members).T
           false,
         WriteDatWord (bucketActual (Extern.mk Real.log Real.exp Real.sqrt gm gio) members).I
           false,
         WriteDatWord (bucketActual (Extern.mk Real.log Real.exp Real.sqrt gm gio) members).O
           false,
         WriteDatWord (bucketActual (Extern.mk Real.log Real.exp Real.sqrt gm gio) members).g
           true,
         WriteDatWord (bucketActual (Extern.mk Real.log Real.exp Real.sqrt gm gio) members).sdevT
           false,
         WriteDatWord (bucketActual (Extern.mk Real.log Real.exp Real.sqrt gm gio) members).sdevG
           true] := by
  refine ⟨?_, bucketActual_means _ members, ?_, ?_, rfl⟩
  · rw [bucketActual_B, foldl_add_eq_sum, zero_add]
    simp
  · intro h
    obtain ⟨e1, e2⟩ := bucketActual_sdev_many (Extern.mk Real.log Real.exp Real.sqrt gm gio)
      members h
    refine ⟨e1, e2, ?_, ?_⟩
    · rw [e1]
      simp [WriteDatWord, not_lt.2 (Real.sqrt_nonneg _)]
    · rw [e2]
      simp [WriteDatWord, not_lt.2 (Real.sqrt_nonneg _)]
  · intro h1
    obtain ⟨e1, e2⟩ := bucketActual_sdev_single (Extern.mk Real.log Real.exp Real.sqrt gm gio)
      members h1
    rw [e1, e2]
    simp [WriteDatWord]

/-- Witness for C11: a bucket of two leaves with 2 and 4 terminals has mean 3
and deviation `sqrt 2`. -/
theorem bucket_actual_real_witness :
    (bucketActual (Extern.mk Real.log Real.exp Real.sqrt (fun _ B => ⟨B, B, B, B, B, B⟩)
        (fun _ _ => (0, 0))) [.leaf 2 1 1, .leaf 2 3 1]).T = 3 ∧
    (bucketActual (Extern.mk Real.log Real.exp Real.sqrt (fun _ B => ⟨B, B, B, B, B, B⟩)
        (fun _ _ => (0, 0))) [.leaf 2 1 1, .leaf 2 3 1]).sdevT = Real.sqrt 2 := by
  have h := bucket_actual_real (fun _ B => ⟨B, B, B, B, B, B⟩) (fun _ _ => (0, 0))
    [.leaf 2 1 1, .leaf 2 3 1] ⟨0, 0, 0, 0, 0, 0⟩
  have hT : (bucketActual (Extern.mk Real.log Real.exp Real.sqrt (fun _ B => ⟨B, B, B, B, B, B⟩)
        (fun _ _ => (0, 0))) [.leaf 2 1 1, .leaf 2 3 1]).T = 3 := by
    rw [h.2.1.1]
    simp [TreeNode.NumTerminals, TreeNode.NumInputs, TreeNode.NumOutputs]
    norm_num
  refine ⟨hT, ?_⟩
  rw [(h.2.2.1 (by decide)).1, hT]
  simp [TreeNode.NumTerminals, TreeNode.NumInputs, TreeNode.NumOutputs]
  norm_num

/-! ## Destinations that cannot be opened -/

section OpenFailure

variable {K : Type}

theorem find_filter_ne {V : Type} (l : List (String × V)) (f f' : String) (h : f ≠ f') :
    List.find? (fun e => e.1 == f') (l.filter (fun e => e.1 != f))
      = List.find? (fun e => e.1 == f') l := by
  induction l with
  | nil => rfl
  | cons e tl ih =>
    by_cases he : e.1 = f
    · have h1 : (e.1 != f) = false := by simp [he]
      have h2 : (e.1 == f') = false := by simpa [he] using h
      rw [List.filter_cons, h1, List.find?_cons, h2]
      exact ih
    · have h1 : (e.1 != f) = true := by simp [he]
      rw [List.filter_cons, h1, if_pos rfl, List.find?_cons, List.find?_cons, ih]

theorem FileSys.read_write_ne (fs : FileSys K) (f f' : String) (lines : List (Line K))
    (h : f ≠ f') : (fs.write f lines).read f' = fs.read f' := by
  unfold FileSys.read FileSys.write
  have h1 : ((f, lines).1 == f') = false := by simpa using h
  simp only [List.find?_cons, h1]
  rw [find_filter_ne _ f f' h]

theorem append_ext_ne (name a b : String) (h : a ≠ b) : name ++ a ≠ name ++ b := by
  intro e
  apply h
  have e2 := congrArg String.data e
  rw [String.data_append, String.data_append] at e2
  exact String.ext (List.append_cancel_left e2)

variable [LinearOrderedField K]

omit [LinearOrderedField K] in
/-- A `WriteRtd` that ends leaves every file other than `<name>.rtd` as it
was, and that one too when it cannot be opened. -/
theorem WriteRtd_files (g : Globals) (s : ModuleType K) (fs : FileSys K) (name : String) :
    ∃ fs', (s.WriteRtd g fs name).files = some fs' ∧ fs'.canOpen = fs.canOpen ∧
      (∀ p, p ≠ name ++ ".rtd" → fs'.read p = fs.read p) ∧
      (fs.canOpen (name ++ ".rtd") = false → fs' = fs) := by
  unfold ModuleType.WriteRtd
  by_cases hr : s.rtdWritten = true
  · simp [hr, Outcome.files]
  · match hs : s.forrest with
    | [] => simp [hr, Outcome.files]
    | _ :: _ :: _ => simp [hr, Outcome.files]
    | [root] =>
      by_cases hc : fs.canOpen (name ++ ".rtd") = true
      · simp only [hr, hc, Bool.not_true, if_false, Outcome.files, Option.some.injEq,
          exists_eq_left', Bool.false_eq_true]
        refine ⟨rfl, ?_, ?_⟩
        · intro p hp
          exact FileSys.read_write_ne fs _ p _ (Ne.symm hp)
        · intro h; cases h
      · simp [hr, hc, Outcome.files]

/-- A `WriteDat` that ends leaves every file other than `<name>.dat` as it
was; when `<name>.dat` cannot be opened it ends and leaves all files as they
were. -/
theorem WriteDat_files [FloorRing K] (x : Extern K) (g : Globals) (s : ModuleType K)
    (fs : FileSys K) (name : String) :
    (∀ fs', (s.WriteDat x g fs name).files = some fs' → fs'.canOpen = fs.canOpen ∧
      ∀ p, p ≠ name ++ ".dat" → fs'.read p = fs.read p) ∧
    (fs.canOpen (name ++ ".dat") = false → (s.WriteDat x g fs name).files = some fs) := by
  unfold ModuleType.WriteDat
  by_cases hd : s.datWritten = true
  · simp [hd, Outcome.files]
  · cases hF : s.FillBuckets x.log with
    | error e => simp [hd, Outcome.files]
    | ok s1 =>
      by_cases hc : fs.canOpen (name ++ ".dat") = true
      · cases hl : datLines x s1 s1.buckets s1.regions with
        | none => simp [hd, hc, hl, Outcome.files]
        | some L =>
          simp only [hd, hc, hl, Bool.not_true, Bool.false_eq_true, if_false, Outcome.files,
            Option.some.injEq]
          refine ⟨?_, fun h => by cases h⟩
          intro fs' h
          rw [← h]
          exact ⟨rfl, fun p hp => FileSys.read_write_ne fs _ p _ (Ne.symm hp)⟩
      · simp [hd, hc, Outcome.files]

end OpenFailure

section OpenFailureClaims

variable {K : Type} [LinearOrderedField K] [FloorRing K]

/-- What `WritePlots` does once both statistics writers have returned. -/
theorem WritePlots_after_stats (x : Extern K) (g : Globals) (s s1 s2 : ModuleType K)
    (fs fs1 fs2 : FileSys K) (name : String) (h1 : s.WriteRtd g fs name = .done s1 fs1)
    (h2 : s1.WriteDat x g fs1 name = .done s2 fs2) :
    Module.WritePlots x g s fs name
      = if !fs2.canOpen (name ++ ".plot") then
          .thrown ("Cannot open " ++ (name ++ ".plot") ++ " for writing") s2 fs2
        else .done s2 (fs2.write (name ++ ".plot") (plotLines name)) := by
  simp only [Module.WritePlots, h1, h2]

/-- `WritePlots` leaves `<name>.plot` as it was when it cannot be opened. -/
theorem WritePlots_files (x : Extern K) (g : Globals) (s : ModuleType K) (fs : FileSys K)
    (name : String) (hc : fs.canOpen (name ++ ".plot") = false) :
    ∀ fs', (Module.WritePlots x g s fs name).files = some fs' →
      fs'.read (name ++ ".plot") = fs.read (name ++ ".plot") := by
  intro fs' h
  obtain ⟨fa, ha, hca, hra, -⟩ := WriteRtd_files g s fs name
  have hne1 : name ++ ".plot" ≠ name ++ ".rtd" := append_ext_ne name _ _ (by decide)
  have hne2 : name ++ ".plot" ≠ name ++ ".dat" := append_ext_ne name _ _ (by decide)
  cases h1 : s.WriteRtd g fs name with
  | hang => simp [Module.WritePlots, h1, Outcome.files] at h
  | thrown msg s1 fs1 =>
    rw [h1] at ha
    simp only [Module.WritePlots, h1, Outcome.files, Option.some.injEq] at h ha
    rw [← h, ha]
    exact hra _ hne1
  | done s1 fs1 =>
    rw [h1] at ha
    simp only [Outcome.files, Option.some.injEq] at ha
    subst ha
    obtain ⟨hb, -⟩ := WriteDat_files x g s1 fs1 name
    cases h2 : s1.WriteDat x g fs1 name with
    | hang => simp [Module.WritePlots, h1, h2, Outcome.files] at h
    | thrown msg s2 fs2 =>
      obtain ⟨-, hrb⟩ := hb fs2 (by rw [h2]; rfl)
      simp only [Module.WritePlots, h1, h2, Outcome.files, Option.some.injEq] at h
      rw [← h, hrb _ hne2]
      exact hra _ hne1
    | done s2 fs2 =>
      obtain ⟨hcb, hrb⟩ := hb fs2 (by rw [h2]; rfl)
      have hc2 : fs2.canOpen (name ++ ".plot") = false := by rw [hcb, hca, hc]
      rw [WritePlots_after_stats x g s s1 s2 fs fs1 fs2 name h1 h2] at h
      simp only [hc2, Bool.not_false, if_true, Outcome.files, Option.some.injEq] at h
      rw [← h, hrb _ hne2]
      exact hra _ hne1

end OpenFailureClaims
/-! ## Ids handed out along a writer -/

theorem CounterMap.le_rfl (a : CounterMap) : a.le a := fun _ _ h => h

theorem CounterMap.le_trans {a b c : CounterMap} (h1 : a.le b) (h2 : b.le c) : a.le c :=
  fun p v h => h2 p v (h1 p v h)

theorem CounterMap.get_find_self (m : CounterMap) (p : Ptr) :
    (m.get p).2.find p = some (m.get p).1 := by
  unfold CounterMap.get
  cases hf : m.find p with
  | some v => exact hf
  | none => simp [CounterMap.find_push]

theorem CounterMap.get_le (m : CounterMap) (p : Ptr) : m.le (m.get p).2 := by
  intro q v hq
  unfold CounterMap.get
  cases hf : m.find p with
  | some w => exact hq
  | none =>
    simp only [CounterMap.find_push]
    by_cases e : p = q
    · subst e
      rw [hf] at hq
      cases hq
    · rw [if_neg e]
      exact hq

theorem CounterMap.idOf_of_find {c : CounterMap} {p : Ptr} {v : Int} (h : c.find p = some v) :
    c.idOf p = v := by
  unfold CounterMap.idOf
  rw [h]
  rfl

/-- The id returned by a query is the id of the identity in every later map. -/
theorem CounterMap.idOf_get (m final : CounterMap) (p : Ptr) (h : (m.get p).2.le final) :
    final.idOf p = (m.get p).1 :=
  CounterMap.idOf_of_find (h p _ (m.get_find_self p))

theorem CounterMap.queries_le (qs : List Ptr) : ∀ m : CounterMap, m.le (m.queries qs).2 := by
  induction qs with
  | nil => intro m; exact m.le_rfl
  | cons p ps ih =>
    intro m
    exact CounterMap.le_trans (m.get_le p) (ih (m.get p).2)

/-- The ids returned by a run of queries are the ids in every later map. -/
theorem CounterMap.queries_eq_map (qs : List Ptr) :
    ∀ (m final : CounterMap), (m.queries qs).2.le final →
      (m.queries qs).1 = qs.map final.idOf := by
  induction qs with
  | nil => intro m final _; rfl
  | cons p ps ih =>
    intro m final h
    simp only [CounterMap.queries, List.map_cons]
    rw [ih (m.get p).2 final h,
      CounterMap.idOf_get m final p (CounterMap.le_trans (CounterMap.queries_le ps _) h)]

theorem CounterMap.queries_append (qs rs : List Ptr) :
    ∀ m : CounterMap, m.queries (qs ++ rs)
      = ((m.queries qs).1 ++ ((m.queries qs).2.queries rs).1, ((m.queries qs).2.queries rs).2) := by
  induction qs with
  | nil => intro m; rfl
  | cons p ps ih =>
    intro m
    show m.queries (p :: (ps ++ rs)) = _
    simp only [CounterMap.queries, ih, List.cons_append]

/-- Pairwise distinct identities queried on a fresh map get 0, 1, 2, ... -/
theorem CounterMap.queries_fresh_nodup (qs : List Ptr) (h : qs.Nodup) :
    (CounterMap.fresh.queries qs).1 = (List.range qs.length).map Int.ofNat := by
  obtain ⟨-, h2, -, -, h5⟩ := CounterMap.Inv.queries qs CounterMap.fresh [] CounterMap.Inv.fresh
  apply List.ext_getElem?
  intro i
  by_cases hi : i < qs.length
  · have e : qs = qs.take i ++ qs[i] :: qs.drop (i + 1) := by
      rw [← List.drop_eq_getElem_cons hi, List.take_append_drop]
    have hnm : qs[i] ∉ [] ++ qs.take i := by
      intro hm
      rw [List.nil_append] at hm
      rw [e] at h
      have := (List.nodup_append.1 h).2.2
      exact this hm (List.mem_cons_self _ _)
    have := h5 (qs.take i) qs[i] (qs.drop (i + 1)) e hnm
    rw [List.length_take, Nat.min_eq_left (le_of_lt hi)] at this
    rw [this, List.nil_append, (h.sublist (List.take_sublist i qs)).dedup, List.length_take,
      Nat.min_eq_left (le_of_lt hi), List.getElem?_map, List.getElem?_range hi]
    rfl
  · have h3 : (CounterMap.fresh.queries qs).1.length ≤ i := by rw [h2]; exact not_lt.1 hi
    have h4 : ((List.range qs.length).map Int.ofNat).length ≤ i := by
      rw [List.length_map, List.length_range]; exact not_lt.1 hi
    rw [List.getElem?_eq_none h3, List.getElem?_eq_none h4]

/-! ## Block identifiers in `.tree` and `.nodes` -/

/-- The block lines of the `.nodes` file carry the ids returned by querying
the blocks in list order. -/
theorem nodesBlockLines_eq {K : Type} (bs : List Block) :
    ∀ cm : CounterMap,
      (nodesBlockLines (K := K) cm bs).1
        = List.zipWith (fun b id => [.str b.cell.Name, .str "_", .int id]) bs
            (cm.queries (bs.map (fun b => b.addr))).1 ∧
      (nodesBlockLines (K := K) cm bs).2 = (cm.queries (bs.map (fun b => b.addr))).2 := by
  induction bs with
  | nil => intro cm; exact ⟨rfl, rfl⟩
  | cons b tl ih =>
    intro cm
    obtain ⟨i1, i2⟩ := ih (cm.get b.addr).2
    simp only [nodesBlockLines, List.map_cons, CounterMap.queries, List.zipWith_cons_cons, i1, i2,
      and_self]

/-- C16, as amended. The `[blocks]` section of the `.tree` file lists the
`moduleNumber` field of every block in list order, not an id of a
`CounterMap`; the block lines of the `.nodes` file carry the ids returned by
a fresh `CounterMap` queried with the blocks in list order, which for `n`
pairwise distinct blocks are 0, 1, ..., n-1. For pairwise distinct blocks
the two sets of identifiers are therefore equal exactly when the module
numbers of the blocks are the numbers 0 to n-1. -/
theorem tree_and_nodes_block_ids {K : Type} (m : Module) :
    m.treeBlocks (K := K) = m.blocks.map (fun b => [.int b.moduleNumber]) ∧
    (nodesBlockLines (K := K) CounterMap.fresh m.blocks).1
      = List.zipWith (fun b id => [.str b.cell.Name, .str "_", .int id]) m.blocks
          (CounterMap.fresh.queries (m.blocks.map (fun b => b.addr))).1 ∧
    ((m.blocks.map (fun b => b.addr)).Nodup →
      (CounterMap.fresh.queries (m.blocks.map (fun b => b.addr))).1
        = (List.range m.blocks.length).map Int.ofNat ∧
      ((∀ i : Int, i ∈ m.blocks.map (fun b => b.moduleNumber) ↔
          i ∈ (CounterMap.fresh.queries (m.blocks.map (fun b => b.addr))).1) ↔
        (∀ i : Int, (∃ b ∈ m.blocks, b.moduleNumber = i) ↔
          (0 ≤ i ∧ i < (m.blocks.length : Int))))) := by
  refine ⟨rfl, (nodesBlockLines_eq m.blocks CounterMap.fresh).1, ?_⟩
  intro hnd
  have hq := CounterMap.queries_fresh_nodup _ hnd
  rw [List.length_map] at hq
  refine ⟨hq, ?_⟩
  have hmem : ∀ i : Int, i ∈ (List.range m.blocks.length).map Int.ofNat ↔
      (0 ≤ i ∧ i < (m.blocks.length : Int)) := by
    intro i
    simp only [List.mem_map, List.mem_range]
    constructor
    · rintro ⟨j, hj, rfl⟩
      exact ⟨Int.ofNat_nonneg j, Int.ofNat_lt.2 hj⟩
    · rintro ⟨h0, h1⟩
      refine ⟨i.toNat, ?_, ?_⟩
      · omega
      · simp [Int.toNat_of_nonneg h0]
  rw [hq]
  constructor
  · intro h i
    rw [← hmem i, ← h i]
    simp [List.mem_map]
  · intro h i
    rw [hmem i, ← h i]
    simp [List.mem_map]

/-- The claim C16 fails on the sample module, whose one block has the module
number 7: the `[blocks]` section holds 7, the `.nodes` file names the block
`INV_0`. -/
theorem tree_and_nodes_ids_differ :
    sampleModule.treeBlocks (K := ℝ) = [[.int 7]] ∧
    (nodesBlockLines (K := ℝ) CounterMap.fresh sampleModule.blocks).1
      = [[.str "INV", .str "_", .int 0]] ∧
    ¬(∀ i : Int, i ∈ [(7 : Int)] ↔ i ∈ [(0 : Int)]) := by
  refine ⟨rfl, ?_, ?_⟩
  · simp [nodesBlockLines, sampleModule, CounterMap.get, CounterMap.find, CounterMap.fresh]
  · intro h
    have := (h 7).1 (by simp)
    simp at this

/-- Witness for C16 as amended: the sample module, with one block. -/
theorem tree_and_nodes_block_ids_witness :
    (sampleModule.blocks.map (fun b => b.addr)).Nodup ∧
    (CounterMap.fresh.queries (sampleModule.blocks.map (fun b => b.addr))).1
      = (List.range sampleModule.blocks.length).map Int.ofNat :=
  ⟨by decide, ((tree_and_nodes_block_ids (K := ℝ) sampleModule).2.2 (by decide)).1⟩

/-! ## Circuit body of the technology-mapped netlist -/

section HnlBody

variable {K : Type}

theorem netTokens_eq (ps : List Ptr) :
    ∀ cm : CounterMap,
      (netTokens (K := K) cm ps).1
        = (cm.queries ps).1.flatMap (fun v => [.str " n", .int v]) ∧
      (netTokens (K := K) cm ps).2 = (cm.queries ps).2 := by
  induction ps with
  | nil => intro cm; exact ⟨rfl, rfl⟩
  | cons p tl ih =>
    intro cm
    obtain ⟨i1, i2⟩ := ih (cm.get p).2
    simp only [netTokens, CounterMap.queries, List.flatMap_cons, i1, i2, List.cons_append,
      List.nil_append, and_self]

theorem netTokens_le (ps : List Ptr) (cm : CounterMap) :
    cm.le (netTokens (K := K) cm ps).2 := by
  rw [(netTokens_eq ps cm).2]
  exact CounterMap.queries_le ps cm

theorem tokens_map (ids : Ptr → Int) (ps : List Ptr) :
    (ps.map ids).flatMap (fun v => [Item.str " n", Item.int v]) = tokensOf (K := K) ids ps := by
  unfold tokensOf
  induction ps with
  | nil => rfl
  | cons p tl ih => simp only [List.map_cons, List.flatMap_cons, ih]

/-- The tokens of a sequence of nets carry the ids of the nets in every later
map. -/
theorem netTokens_spec (ps : List Ptr) (cm final : CounterMap)
    (h : (netTokens (K := K) cm ps).2.le final) :
    (netTokens (K := K) cm ps).1 = tokensOf final.idOf ps := by
  obtain ⟨h1, h2⟩ := netTokens_eq (K := K) ps cm
  rw [h2] at h
  rw [h1, CounterMap.queries_eq_map ps cm final h, tokens_map]

theorem hnlBlockLines_state (bs : List Block) :
    ∀ cm : CounterMap, (hnlBlockLines (K := K) cm bs).2
      = (cm.queries (bs.flatMap (fun bi => bi.inputs ++ bi.outputs))).2 := by
  induction bs with
  | nil => intro cm; rfl
  | cons b tl ih =>
    intro cm
    simp only [hnlBlockLines, List.flatMap_cons, ih, (netTokens_eq _ _).2,
      CounterMap.queries_append]

/-- The block lines carry the ids of the nets in every later map. -/
theorem hnlBlockLines_spec (bs : List Block) :
    ∀ (cm final : CounterMap), (hnlBlockLines (K := K) cm bs).2.le final →
      (hnlBlockLines (K := K) cm bs).1 = bs.map (fun bi =>
        .str bi.cell.Name :: (tokensOf final.idOf bi.inputs ++ tokensOf final.idOf bi.outputs)) := by
  induction bs with
  | nil => intro cm final _; rfl
  | cons b tl ih =>
    intro cm final h
    simp only [hnlBlockLines] at h ⊢
    have h3 : (netTokens (K := K) (netTokens (K := K) cm b.inputs).2 b.outputs).2.le final := by
      refine CounterMap.le_trans ?_ h
      rw [hnlBlockLines_state]
      exact CounterMap.queries_le _ _
    have h2 : (netTokens (K := K) cm b.inputs).2.le final :=
      CounterMap.le_trans (netTokens_le _ _) h3
    rw [List.map_cons, ih _ final h, netTokens_spec _ _ final h2, netTokens_spec _ _ final h3]

theorem hnlBody_state (m : Module) :
    (hnlBody (K := K) m).2 = (CounterMap.fresh.queries m.hnlNets).2 := by
  simp only [hnlBody, hnlBlockLines_state, (netTokens_eq _ _).2, Module.hnlNets,
    CounterMap.queries_append]

end HnlBody

/-- C17. With `ids` the numbering left in the `CounterMap` of `WriteHnl`:
the circuit body is the input line (when there are inputs) and the output
line (when there are outputs) with one token `n<id>` per net, then one line
per block made of the cell name, one token per input pin in pin order and
one token per output pin in pin order; two nets looked up by the writer have
the same id exactly when they are the same net, so two tokens of the body
are equal exactly when they refer to the same net; and with pairwise distinct
primary inputs the input number `i` (from 0) has the id `i`. -/
theorem hnl_body_tokens {K : Type} (m : Module) :
    (hnlBody (K := K) m).1
      = (if m.inputs ≠ [] then
          [.str "input" :: tokensOf (hnlBody (K := K) m).2.idOf (m.inputs.map (fun ni => ni.addr))]
        else []) ++
        (if m.outputs ≠ [] then
          [.str "output"
            :: tokensOf (hnlBody (K := K) m).2.idOf (m.outputs.map (fun ni => ni.addr))]
        else []) ++
        m.blocks.map (fun bi => .str bi.cell.Name
          :: (tokensOf (hnlBody (K := K) m).2.idOf bi.inputs
            ++ tokensOf (hnlBody (K := K) m).2.idOf bi.outputs)) ∧
    (∀ p q : Ptr, p ∈ m.hnlNets → q ∈ m.hnlNets →
      ((hnlBody (K := K) m).2.idOf p = (hnlBody (K := K) m).2.idOf q ↔ p = q)) ∧
    ((m.inputs.map (fun ni => ni.addr)).Nodup →
      ∀ (i : Nat) (ni : InputNet), m.inputs[i]? = some ni →
        (hnlBody (K := K) m).2.idOf ni.addr = (i : Int)) := by
  have hst := hnlBody_state (K := K) m
  have h3 : (hnlBlockLines (K := K) (netTokens (K := K) (netTokens (K := K) CounterMap.fresh
      (m.inputs.map (fun ni => ni.addr))).2 (m.outputs.map (fun ni => ni.addr))).2 m.blocks).2.le
      (hnlBody (K := K) m).2 := CounterMap.le_rfl _
  have h2 : (netTokens (K := K) (netTokens (K := K) CounterMap.fresh
      (m.inputs.map (fun ni => ni.addr))).2 (m.outputs.map (fun ni => ni.addr))).2.le
      (hnlBody (K := K) m).2 := by
    refine CounterMap.le_trans ?_ h3
    rw [hnlBlockLines_state]
    exact CounterMap.queries_le _ _
  have h1 : (netTokens (K := K) CounterMap.fresh (m.inputs.map (fun ni => ni.addr))).2.le
      (hnlBody (K := K) m).2 := by
    exact CounterMap.le_trans (netTokens_le _ _) h2
  obtain ⟨hinv, -, -, -, -⟩ :=
    CounterMap.Inv.queries m.hnlNets CounterMap.fresh [] CounterMap.Inv.fresh
  rw [List.nil_append, ← hst] at hinv
  refine ⟨?_, ?_, ?_⟩
  · conv_lhs => unfold hnlBody
    simp only []
    rw [netTokens_spec _ _ _ h1, netTokens_spec _ _ _ h2, hnlBlockLines_spec _ _ _ h3]
  · intro p q hp hq
    constructor
    · intro e
      cases hfp : (hnlBody (K := K) m).2.find p with
      | none => exact absurd hp ((hinv.find_none p).1 hfp)
      | some v =>
        cases hfq : (hnlBody (K := K) m).2.find q with
        | none => exact absurd hq ((hinv.find_none q).1 hfq)
        | some w =>
          rw [CounterMap.idOf_of_find hfp, CounterMap.idOf_of_find hfq] at e
          subst e
          exact hinv.find_inj p q v hfp hfq
    · rintro rfl
      rfl
  · intro hnd i ni hi
    have hq := CounterMap.queries_fresh_nodup _ hnd
    rw [(netTokens_eq (K := K) _ _).2] at h1
    rw [CounterMap.queries_eq_map _ _ _ h1, List.length_map] at hq
    have hlt : i < m.inputs.length := by
      by_contra hc
      rw [List.getElem?_eq_none (not_lt.1 hc)] at hi
      cases hi
    have e := congrArg (fun l => l[i]?) hq
    simp only [List.getElem?_map, hi, Option.map_some', List.getElem?_range hlt] at e
    exact Option.some.inj e

/-! ## Library section of the technology-mapped netlist -/

section StrMapLemmas

variable {V : Type}

/-- Entries of a sorted map after `m[k] = v`: the new entry, and the old
entries under other keys. -/
theorem StrMap.mem_assign_iff (k : String) (v : V) (m : StrMap V)
    (h : List.Pairwise (fun a b : String × V => a.1 < b.1) m) (k' : String) (v' : V) :
    (k', v') ∈ StrMap.assign k v m ↔ (k' = k ∧ v' = v) ∨ (k' ≠ k ∧ (k', v') ∈ m) := by
  induction m with
  | nil => simp [StrMap.assign]
  | cons hd tl ih =>
    obtain ⟨k0, v0⟩ := hd
    rw [List.pairwise_cons] at h
    have htl : ∀ e ∈ tl, k0 < e.1 := h.1
    simp only [StrMap.assign]
    split
    · next hlt =>
      simp only [List.mem_cons, Prod.mk.injEq]
      constructor
      · rintro (h1 | h1 | h1)
        · exact Or.inl h1
        · exact Or.inr ⟨by rw [h1.1]; exact (ne_of_lt hlt).symm, Or.inl h1⟩
        · exact Or.inr ⟨(ne_of_lt (lt_trans hlt (htl _ h1))).symm, Or.inr h1⟩
      · rintro (h1 | ⟨-, h1 | h1⟩)
        · exact Or.inl h1
        · exact Or.inr (Or.inl h1)
        · exact Or.inr (Or.inr h1)
    · split
      · next hnlt hk =>
        subst hk
        simp only [List.mem_cons, Prod.mk.injEq]
        constructor
        · rintro (h1 | h1)
          · exact Or.inl h1
          · exact Or.inr ⟨(ne_of_lt (htl _ h1)).symm, Or.inr h1⟩
        · rintro (h1 | ⟨hne, h1 | h1⟩)
          · exact Or.inl h1
          · exact absurd h1.1 hne
          · exact Or.inr h1
      · next hnlt hne =>
        simp only [List.mem_cons, Prod.mk.injEq, ih h.2]
        constructor
        · rintro (h1 | h1 | ⟨hk, h1⟩)
          · exact Or.inr ⟨by rw [h1.1]; exact fun e => hne e.symm, Or.inl h1⟩
          · exact Or.inl h1
          · exact Or.inr ⟨hk, Or.inr h1⟩
        · rintro (h1 | ⟨hk, h1 | h1⟩)
          · exact Or.inr (Or.inl h1)
          · exact Or.inl h1
          · exact Or.inr (Or.inr ⟨hk, h1⟩)

theorem StrMap.assign_sorted (k : String) (v : V) (m : StrMap V)
    (h : List.Pairwise (fun a b : String × V => a.1 < b.1) m) :
    List.Pairwise (fun a b : String × V => a.1 < b.1) (StrMap.assign k v m) := by
  induction m with
  | nil => simp [StrMap.assign]
  | cons hd tl ih =>
    obtain ⟨k0, v0⟩ := hd
    have h0 := h
    rw [List.pairwise_cons] at h
    simp only [StrMap.assign]
    split
    · next hlt =>
      rw [List.pairwise_cons]
      refine ⟨?_, h0⟩
      intro b hb
      rcases List.mem_cons.1 hb with hb | hb
      · rw [hb]; exact hlt
      · exact lt_trans hlt (h.1 b hb)
    · split
      · exact List.pairwise_cons.2 h
      · next hnlt hne =>
        rw [List.pairwise_cons]
        refine ⟨?_, ih h.2⟩
        rintro ⟨kb, vb⟩ hb
        rcases (StrMap.mem_assign_iff k v tl h.2 kb vb).1 hb with hb | hb
        · rw [hb.1]
          exact lt_of_le_of_ne (not_lt.1 hnlt) (fun e => hne e.symm)
        · exact h.1 _ hb.2

end StrMapLemmas

theorem lastCell_snoc (bs : List Block) (b : Block) (k : String) :
    lastCell (bs ++ [b]) k = if b.cell.Name = k then some b.cell else lastCell bs k := by
  unfold lastCell
  rw [List.reverse_append, List.reverse_singleton, List.singleton_append, List.find?_cons]
  by_cases h : b.cell.Name = k
  · simp [h]
  · have h2 : (b.cell.Name == k) = false := by simpa using h
    rw [h2, if_neg h]

/-- The map `cells` over a list of blocks: sorted by name, holding for every
name the library cell of the last block with that name. -/
theorem cells_spec (bs : List Block) :
    List.Pairwise (fun a b : String × Librarycell => a.1 < b.1)
      (bs.foldl (fun cells bi => StrMap.assign bi.cell.Name bi.cell cells) []) ∧
    ∀ k v, (k, v) ∈ bs.foldl (fun cells bi => StrMap.assign bi.cell.Name bi.cell cells) []
      ↔ lastCell bs k = some v := by
  induction bs using List.reverseRecOn with
  | nil => simp [lastCell]
  | append_singleton bs b ih =>
    obtain ⟨i1, i2⟩ := ih
    rw [List.foldl_append, List.foldl_cons, List.foldl_nil]
    refine ⟨StrMap.assign_sorted _ _ _ i1, ?_⟩
    intro k v
    rw [StrMap.mem_assign_iff _ _ _ i1, lastCell_snoc, i2]
    by_cases h : b.cell.Name = k
    · rw [if_pos h]
      constructor
      · rintro (h1 | h1)
        · rw [h1.2]
        · exact absurd h.symm h1.1
      · intro h1
        exact Or.inl ⟨h.symm, (Option.some.inj h1).symm⟩
    · rw [if_neg h]
      constructor
      · rintro (h1 | h1)
        · exact absurd h1.1.symm h
        · exact h1.2
      · intro h1
        exact Or.inr ⟨fun e => h e.symm, h1⟩

theorem lastCell_isSome_iff (bs : List Block) (k : String) :
    (∃ v, lastCell bs k = some v) ↔ ∃ b ∈ bs, b.cell.Name = k := by
  unfold lastCell
  constructor
  · rintro ⟨v, hv⟩
    cases hf : bs.reverse.find? (fun b => b.cell.Name == k) with
    | none => rw [hf] at hv; cases hv
    | some b =>
      have h1 := List.find?_some hf
      have h2 := List.mem_of_find?_eq_some hf
      exact ⟨b, List.mem_reverse.1 h2, by simpa using h1⟩
  · rintro ⟨b, hb, hk⟩
    cases hf : bs.reverse.find? (fun b => b.cell.Name == k) with
    | none =>
      rw [List.find?_eq_none] at hf
      have := hf b (List.mem_reverse.2 hb)
      simp [hk] at this
    | some b' => exact ⟨b'.cell, rfl⟩

/-- C18. `WriteHnl` writes, between the info header and the `circuit` line,
the lines of the entries of the map `cells` in map order; that map has
strictly ascending names, an entry exactly for the cell names of the blocks,
and under a name the library cell of the (last) block with that name. The
lines of an entry are the kind and the name, the `input` line with the pins
`i1..iN` exactly when `N` is not 0 (for a pin count `N >= 0`: when `N > 0`),
likewise the `output` line with `o1..oM`, the `area` line with the weighted
size when `areaAsWeight` is set and the raw size otherwise, `end`, and an
empty line. -/
theorem hnl_library_section {K : Type} [LinearOrderedField K] (x : Extern K) (g : Globals)
    (m : Module) (modType : ModuleType K) (fs : FileSys K) (name : String)
    (ho : fs.canOpen (name ++ ".hnl") = true) :
    m.WriteHnl x g modType fs name = .done () (fs.write (name ++ ".hnl") (
      [[.str "# Netlist ", .str name, .str " generated by gnl ", .str g.version,
        .str " on ", .str g.time]] ++
      m.WriteInfoHeader x g modType "# " ++
      m.cells.flatMap (cellLines g) ++
      [[.str "circuit ", .str name]] ++ (hnlBody m).1 ++ [[.str "end"]])) ∧
    List.Pairwise (fun a b : String × Librarycell => a.1 < b.1) m.cells ∧
    (∀ k : String, (∃ v, (k, v) ∈ m.cells) ↔ ∃ b ∈ m.blocks, b.cell.Name = k) ∧
    (∀ (k : String) (v : Librarycell), (k, v) ∈ m.cells ↔ lastCell m.blocks k = some v) ∧
    (∀ li : String × Librarycell,
      cellLines (K := K) g li
        = [[.str (if li.2.Sequential then "sequential " else "combinational "), .str li.1]] ++
          (if li.2.I ≠ 0 then [.str "input" :: pinNames " i" li.2.I] else []) ++
          (if li.2.O ≠ 0 then [.str "output" :: pinNames " o" li.2.O] else []) ++
          [[.str "area ", .int (if g.areaAsWeight then li.2.Weight else li.2.Size)],
           [.str "end"], []] ∧
      (0 ≤ li.2.I → (li.2.I ≠ 0 ↔ 0 < li.2.I)) ∧
      (0 ≤ li.2.O → (li.2.O ≠ 0 ↔ 0 < li.2.O))) ∧
    (∀ (pre : String) (n : Int), pinNames (K := K) pre n
      = (List.range n.toNat).flatMap (fun i => [.str pre, .int ((i : Int) + 1)])) := by
  obtain ⟨h1, h2⟩ := cells_spec m.blocks
  refine ⟨?_, h1, ?_, h2, ?_, fun _ _ => rfl⟩
  · simp [Module.WriteHnl, ho]
  · intro k
    rw [← lastCell_isSome_iff]
    constructor
    · rintro ⟨v, hv⟩
      exact ⟨v, (h2 k v).1 hv⟩
    · rintro ⟨v, hv⟩
      exact ⟨v, (h2 k v).2 hv⟩
  · intro li
    refine ⟨rfl, ?_, ?_⟩
    · intro h; constructor <;> intro h' <;> omega
    · intro h; constructor <;> intro h' <;> omega

/-- Witness for C18: three blocks over the cells `NAND`, `INV`, `NAND` give
the two entries `INV` and `NAND`, in that order, with their pins and raw
sizes. -/
theorem hnl_library_section_witness :
    (sampleFiles ℝ).canOpen ("c" ++ ".hnl") = true ∧
    twoCellModule.cells = [("INV", ⟨"INV", false, 1, 1, 1, 2⟩), ("NAND", ⟨"NAND", false, 2, 1, 2, 3⟩)] ∧
    twoCellModule.cells.flatMap (cellLines (K := ℝ) sampleGlobals)
      = [[.str "combinational ", .str "INV"], [.str "input", .str " i", .int 1],
         [.str "output", .str " o", .int 1], [.str "area ", .int 1], [.str "end"], [],
         [.str "combinational ", .str "NAND"],
         [.str "input", .str " i", .int 1, .str " i", .int 2],
         [.str "output", .str " o", .int 1], [.str "area ", .int 2], [.str "end"], []] ∧
    List.Pairwise (fun a b : String × Librarycell => a.1 < b.1) twoCellModule.cells := by
  have hc : twoCellModule.cells
      = [("INV", ⟨"INV", false, 1, 1, 1, 2⟩), ("NAND", ⟨"NAND", false, 2, 1, 2, 3⟩)] := by
    have h1 : "INV" < "NAND" := by rw [String.lt_iff_toList_lt]; decide
    have h2 : ¬"NAND" < "INV" := by rw [String.lt_iff_toList_lt]; decide
    simp [Module.cells, twoCellModule, StrMap.assign, h1, h2]
  refine ⟨rfl, hc, ?_, (hnl_library_section (sampleExtern Real.log Real.exp Real.sqrt)
    sampleGlobals twoCellModule (emptyForestType ℝ) (sampleFiles ℝ) "c" rfl).2.1⟩
  rw [hc]
  simp [cellLines, pinNames, sampleGlobals, List.range_succ]

/-! ## Counting the records of a net list -/

section WriteAllCounts

variable {K : Type} {α : Type}

theorem writeAll_length (f : α → NetState → List (Line K) × NetState) (len : α → Nat)
    (h : ∀ a st, (f a st).1.length = len a) (l : List α) :
    ∀ st, (writeAll f l st).1.length = (l.map len).sum := by
  induction l with
  | nil => intro st; rfl
  | cons a tl ih =>
    intro st
    simp only [writeAll, List.length_append, h, ih, List.map_cons, List.sum_cons]

theorem writeAll_sourceCount (f : α → NetState → List (Line K) × NetState) (c : α → Nat)
    (h : ∀ a st, sourceCount (f a st).1 = c a) (l : List α) :
    ∀ st, sourceCount (writeAll f l st).1 = (l.map c).sum := by
  induction l with
  | nil => intro st; rfl
  | cons a tl ih =>
    intro st
    have := h a st
    unfold sourceCount at this ih ⊢
    simp only [writeAll, List.countP_append, this, ih, List.map_cons, List.sum_cons]

theorem writeAll_padCounter (f : α → NetState → List (Line K) × NetState) (k : α → Int)
    (h : ∀ a st, (f a st).2.padCounter = st.padCounter + k a) (l : List α) :
    ∀ st, (writeAll f l st).2.padCounter = st.padCounter + (l.map k).sum := by
  induction l with
  | nil => intro st; simp [writeAll]
  | cons a tl ih =>
    intro st
    simp only [writeAll, ih, h, List.map_cons, List.sum_cons]
    omega

omit α in
theorem Line.role_record (a b : Item K) (r : String) :
    Line.role [a, b, Item.str r] = some r := rfl

theorem Net_WriteNetD_counts (sinks : List Terminal) :
    ∀ cm : CounterMap, (Net.WriteNetD (K := K) cm sinks).1.length = sinks.length ∧
      sourceCount (Net.WriteNetD (K := K) cm sinks).1 = 0 := by
  induction sinks with
  | nil => intro cm; exact ⟨rfl, rfl⟩
  | cons t tl ih =>
    intro cm
    obtain ⟨i1, i2⟩ := ih (cm.get t.1.addr).2
    unfold sourceCount at i2 ⊢
    simp [Net.WriteNetD, i1, i2, List.countP_cons, Line.role_record, -List.countP_eq_zero]

theorem InputNet_WriteNetD_counts (n : InputNet) (st : NetState) :
    (InputNet.WriteNetD (K := K) n st).1.length = n.sinks.length + 1 ∧
    sourceCount (InputNet.WriteNetD (K := K) n st).1 = 1 ∧
    (InputNet.WriteNetD (K := K) n st).2.padCounter = st.padCounter + 1 := by
  obtain ⟨i1, i2⟩ := Net_WriteNetD_counts (K := K) n.sinks st.cellMap
  unfold sourceCount at i2 ⊢
  simp [InputNet.WriteNetD, i1, i2, List.countP_cons, Line.role_record, -List.countP_eq_zero]

theorem OutputNet_WriteNetD_counts (external : Bool) (n : OutputNet) (st : NetState) :
    (OutputNet.WriteNetD (K := K) external n st).1.length
      = n.sinks.length + 1 + (if external then 1 else 0) ∧
    sourceCount (OutputNet.WriteNetD (K := K) external n st).1 = 1 ∧
    (OutputNet.WriteNetD (K := K) external n st).2.padCounter
      = st.padCounter + (if external then 1 else 0) := by
  obtain ⟨i1, i2⟩ := Net_WriteNetD_counts (K := K) n.sinks (st.cellMap.get n.source.1.addr).2
  unfold sourceCount at i2 ⊢
  cases external
  · simp [OutputNet.WriteNetD, i1, i2, List.countP_cons, Line.role_record, -List.countP_eq_zero]
  · simp [OutputNet.WriteNetD, i1, i2, List.countP_cons, Line.role_record, -List.countP_eq_zero]

end WriteAllCounts

theorem sum_map_add_const {α : Type} (l : List α) (f : α → Nat) (c : Nat) :
    (l.map (fun a => f a + c)).sum = (l.map f).sum + l.length * c := by
  induction l with
  | nil => simp
  | cons a tl ih =>
    simp only [List.map_cons, List.sum_cons, ih, List.length_cons]
    ring

theorem length_flatMap_sinks {α : Type} (l : List α) (f : α → List Terminal) :
    (l.flatMap f).length = (l.map (fun a => (f a).length)).sum := by
  induction l with
  | nil => rfl
  | cons a tl ih => simp only [List.flatMap_cons, List.length_append, ih, List.map_cons, List.sum_cons]

/-- The counts of the body of the `.netD` file: lines, source records and
pads. -/
theorem netDBody_counts {K : Type} (m : Module) :
    ((m.netDBody (K := K)).1.length : Int)
      = (m.allSinks.length : Int) + m.inputs.length + 2 * m.outputs.length
        + m.internalNets.length ∧
    ((sourceCount (m.netDBody (K := K)).1 : Nat) : Int)
      = (m.internalNets.length : Int) + m.inputs.length + m.outputs.length ∧
    (m.netDBody (K := K)).2.padCounter = (m.inputs.length : Int) + m.outputs.length := by
  refine ⟨?_, ?_, ?_⟩
  · simp only [Module.netDBody, List.length_append]
    rw [writeAll_length InputNet.WriteNetD (fun n => n.sinks.length + 1)
        (fun a st => (InputNet_WriteNetD_counts a st).1),
      writeAll_length (OutputNet.WriteNetD true) (fun n => n.sinks.length + 1 + 1)
        (fun a st => by simpa using (OutputNet_WriteNetD_counts (K := K) true a st).1),
      writeAll_length (OutputNet.WriteNetD false) (fun n => n.sinks.length + 1)
        (fun a st => by simpa using (OutputNet_WriteNetD_counts (K := K) false a st).1)]
    have e1 := sum_map_add_const m.inputs (fun n => n.sinks.length) 1
    have e2 := sum_map_add_const m.outputs (fun n => n.sinks.length) 2
    have e3 := sum_map_add_const m.internalNets (fun n => n.sinks.length) 1
    simp only [Nat.add_assoc] at e1 e2 e3 ⊢
    rw [e1, e2, e3]
    simp only [Module.allSinks, List.length_append, length_flatMap_sinks]
    push_cast
    ring
  · simp only [Module.netDBody]
    unfold sourceCount
    rw [List.countP_append, List.countP_append]
    have c1 := writeAll_sourceCount (K := K) InputNet.WriteNetD (fun _ => 1)
      (fun a st => (InputNet_WriteNetD_counts a st).2.1) m.inputs
    have c2 := writeAll_sourceCount (K := K) (OutputNet.WriteNetD true) (fun _ => 1)
      (fun a st => (OutputNet_WriteNetD_counts true a st).2.1) m.outputs
    have c3 := writeAll_sourceCount (K := K) (OutputNet.WriteNetD false) (fun _ => 1)
      (fun a st => (OutputNet_WriteNetD_counts false a st).2.1) m.internalNets
    unfold sourceCount at c1 c2 c3
    rw [c1, c2, c3]
    simp only [List.map_const', List.sum_replicate, smul_eq_mul, mul_one]
    push_cast
    ring
  · simp only [Module.netDBody]
    rw [writeAll_padCounter (OutputNet.WriteNetD false) (fun _ => 0)
        (fun a st => by simpa using (OutputNet_WriteNetD_counts (K := K) false a st).2.2),
      writeAll_padCounter (OutputNet.WriteNetD true) (fun _ => 1)
        (fun a st => by simpa using (OutputNet_WriteNetD_counts (K := K) true a st).2.2),
      writeAll_padCounter InputNet.WriteNetD (fun _ => 1)
        (fun a st => (InputNet_WriteNetD_counts a st).2.2)]
    simp only [List.map_const', List.sum_replicate, smul_eq_mul, mul_one, mul_zero, add_zero,
      zero_add, nsmul_eq_mul]

theorem foldl_pins (bs : List Block) :
    ∀ c : Int, bs.foldl
        (fun pins bi => pins + ((bi.inputs.length : Int) + (bi.outputs.length : Int))) c
      = c + ((bs.map (fun b => b.inputs.length)).sum : Nat)
          + ((bs.map (fun b => b.outputs.length)).sum : Nat) := by
  induction bs with
  | nil => intro c; simp
  | cons b tl ih =>
    intro c
    simp only [List.foldl_cons, ih, List.map_cons, List.sum_cons]
    push_cast
    ring

/-- `TotalPinCount` is the number of input pins and output pins of the listed
blocks. -/
theorem TotalPinCount_eq (m : Module) :
    m.TotalPinCount = (m.inputPins.length : Int) + (m.outputPins.length : Int) := by
  unfold Module.TotalPinCount Module.inputPins Module.outputPins
  rw [foldl_pins, length_flatMap_sinks, length_flatMap_sinks]
  simp

/-- C12, as amended. For a module whose counts `numBlocks`, `numInputs`,
`numOutputs` are the lengths of its lists, whose listed nets have as sinks
exactly the input pins of the listed blocks, each once, and whose nets in
`outputs` and `internalNets` have as sources exactly the output pins of the
listed blocks, each once: the header of the `.netD` file is 0, the number of
pin records of the body, the number of source records of the body, the number
of blocks plus the number of pads used, and `numBlocks - 1`. -/
theorem netD_header_counts {K : Type} (m : Module) (fs : FileSys K) (name : String)
    (hB : m.numBlocks = (m.blocks.length : Int)) (hI : m.numInputs = (m.inputs.length : Int))
    (hO : m.numOutputs = (m.outputs.length : Int))
    (hsinks : List.Perm m.allSinks m.inputPins)
    (hsrc : List.Perm m.allSources m.outputPins) :
    m.netDHeader (K := K)
      = [[.str "0"],
         [.int ((m.netDBody (K := K)).1.length : Int)],
         [.int ((sourceCount (m.netDBody (K := K)).1 : Nat) : Int)],
         [.int ((m.blocks.length : Int) + (m.netDBody (K := K)).2.padCounter)],
         [.int ((m.blocks.length : Int) - 1)]] ∧
    (m.netDBody (K := K)).2.padCounter = m.numInputs + m.numOutputs ∧
    (fs.canOpen (name ++ ".netD") = true →
      m.WriteNetD fs name
        = .done () (fs.write (name ++ ".netD") (m.netDHeader ++ (m.netDBody (K := K)).1))) := by
  obtain ⟨c1, c2, c3⟩ := netDBody_counts (K := K) m
  have e1 : (m.allSinks.length : Int) = m.inputPins.length := by rw [hsinks.length_eq]
  have e2 : (m.outputPins.length : Int) = (m.outputs.length : Int) + m.internalNets.length := by
    rw [← hsrc.length_eq]
    simp [Module.allSources]
  refine ⟨?_, by rw [c3, hI, hO], ?_⟩
  · unfold Module.netDHeader
    rw [c1, c2, c3, TotalPinCount_eq, hB, hI, hO, e1, e2]
    have a1 : (m.inputPins.length : Int) + ((m.outputs.length : Int) + m.internalNets.length)
        + m.inputs.length + m.outputs.length
        = (m.inputPins.length : Int) + m.inputs.length + 2 * m.outputs.length
          + m.internalNets.length := by ring
    have a2 : (m.blocks.length : Int) + m.inputs.length + m.outputs.length
        = (m.blocks.length : Int) + ((m.inputs.length : Int) + m.outputs.length) := by ring
    rw [a1, a2]
  · intro ho
    simp [Module.WriteNetD, ho]

/-- The body of the `.netD` file of the sample module. -/
theorem sampleModule_netDBody :
    (sampleModule.netDBody (K := ℝ)).1
      = [[.str "p", .int 1, .str " s O"], [.str "a", .int 0, .str " l I"],
         [.str "a", .int 0, .str " s O"], [.str "p", .int 2, .str " l I"]] := by
  simp [Module.netDBody, writeAll, InputNet.WriteNetD, OutputNet.WriteNetD, Net.WriteNetD,
    sampleModule, CounterMap.get, CounterMap.find, CounterMap.fresh]

/-- Witness for C12 as amended: one input net feeding one `INV` block whose
output is an external output net: pin count 4, net count 2, node count 3,
fifth integer 0. -/
theorem netD_header_counts_witness :
    List.Perm sampleModule.allSinks sampleModule.inputPins ∧
    List.Perm sampleModule.allSources sampleModule.outputPins ∧
    sampleModule.netDHeader (K := ℝ)
      = [[.str "0"], [.int 4], [.int 2], [.int 3], [.int 0]] ∧
    (sampleModule.netDBody (K := ℝ)).1
      = [[.str "p", .int 1, .str " s O"], [.str "a", .int 0, .str " l I"],
         [.str "a", .int 0, .str " s O"], [.str "p", .int 2, .str " l I"]] ∧
    sampleModule.netDHeader (K := ℝ)
      = [[.str "0"],
         [.int ((sampleModule.netDBody (K := ℝ)).1.length : Int)],
         [.int ((sourceCount (sampleModule.netDBody (K := ℝ)).1 : Nat) : Int)],
         [.int ((sampleModule.blocks.length : Int)
            + (sampleModule.netDBody (K := ℝ)).2.padCounter)],
         [.int ((sampleModule.blocks.length : Int) - 1)]] := by
  have h1 : List.Perm sampleModule.allSinks sampleModule.inputPins := by
    have : sampleModule.allSinks = sampleModule.inputPins := by decide
    rw [this]
  have h2 : List.Perm sampleModule.allSources sampleModule.outputPins := by
    have : sampleModule.allSources = sampleModule.outputPins := by decide
    rw [this]
  refine ⟨h1, h2, ?_, sampleModule_netDBody, ?_⟩
  · simp [Module.netDHeader, Module.TotalPinCount, sampleModule]
  · exact (netD_header_counts sampleModule (sampleFiles ℝ) "c" rfl rfl rfl h1 h2).1

/-- The claim C12 fails on a module with a dangling sink. All counts are the
list lengths, the input pin of the one listed block is a sink of exactly one
listed net and its output pin is the source of exactly one net; but the input
net has a second sink on a block outside the list, so the body has 5 pin
records while the header announces 4. -/
theorem netD_pin_count_dangling :
    dangleModule.numBlocks = (dangleModule.blocks.length : Int) ∧
    dangleModule.numInputs = (dangleModule.inputs.length : Int) ∧
    dangleModule.numOutputs = (dangleModule.outputs.length : Int) ∧
    (∀ p ∈ dangleModule.inputPins, dangleModule.allSinks.count p = 1) ∧
    (∀ p ∈ dangleModule.outputPins, dangleModule.allSources.count p = 1) ∧
    dangleModule.netDHeader (K := ℝ)
      = [[.str "0"], [.int 4], [.int 2], [.int 3], [.int 0]] ∧
    (dangleModule.netDBody (K := ℝ)).1
      = [[.str "p", .int 1, .str " s O"], [.str "a", .int 0, .str " l I"],
         [.str "a", .int 1, .str " l I"],
         [.str "a", .int 0, .str " s O"], [.str "p", .int 2, .str " l I"]] ∧
    ((dangleModule.netDBody (K := ℝ)).1.length : Int) ≠ 4 := by
  have hb : (dangleModule.netDBody (K := ℝ)).1
      = [[.str "p", .int 1, .str " s O"], [.str "a", .int 0, .str " l I"],
         [.str "a", .int 1, .str " l I"],
         [.str "a", .int 0, .str " s O"], [.str "p", .int 2, .str " l I"]] := by
    simp [Module.netDBody, writeAll, InputNet.WriteNetD, OutputNet.WriteNetD, Net.WriteNetD,
      dangleModule, CounterMap.get, CounterMap.find, CounterMap.fresh]
  refine ⟨rfl, rfl, rfl, by decide, by decide, ?_, hb, ?_⟩
  · simp [Module.netDHeader, Module.TotalPinCount, dangleModule]
  · rw [hb]
    decide

/-! ## Net records of the `.nets` file -/

section NetsRecords

variable {K : Type}

theorem writeAll_records {α : Type} (f : α → NetState → List (Line K) × NetState)
    (P : List (Line K) → Prop) (h : ∀ a st, P (f a st).1) (l : List α) :
    ∀ st, ∃ recs : List (List (Line K)),
      (writeAll f l st).1 = recs.flatten ∧ recs.length = l.length ∧ ∀ r ∈ recs, P r := by
  induction l with
  | nil => intro st; exact ⟨[], rfl, rfl, by simp⟩
  | cons a tl ih =>
    intro st
    obtain ⟨recs, h1, h2, h3⟩ := ih (f a st).2
    refine ⟨(f a st).1 :: recs, ?_, by simp [h2], ?_⟩
    · simp only [writeAll, h1, List.flatten_cons]
    · intro r hr
      rcases List.mem_cons.1 hr with hr | hr
      · rw [hr]; exact h a st
      · exact h3 r hr

theorem Net_WriteNets_marks (sinks : List Terminal) :
    ∀ cm : CounterMap, (Net.WriteNets (K := K) cm sinks).1.length = sinks.length ∧
      ∀ l ∈ (Net.WriteNets (K := K) cm sinks).1, Line.mark l = some " I" := by
  induction sinks with
  | nil => intro cm; exact ⟨rfl, by simp [Net.WriteNets]⟩
  | cons t tl ih =>
    intro cm
    obtain ⟨i1, i2⟩ := ih (cm.get t.1.addr).2
    refine ⟨by simp [Net.WriteNets, i1], ?_⟩
    intro l hl
    simp only [Net.WriteNets, List.mem_cons] at hl
    rcases hl with hl | hl
    · rw [hl]; rfl
    · exact i2 l hl

theorem InputNet_WriteNets_record (n : InputNet) (st : NetState) :
    IsNetRecord (InputNet.WriteNets (K := K) n st).1 := by
  obtain ⟨i1, i2⟩ := Net_WriteNets_marks (K := K) n.sinks st.cellMap
  refine ⟨_, _, _, rfl, ?_, rfl, i2⟩
  simp [i1]

theorem OutputNet_WriteNets_record (external : Bool) (n : OutputNet) (st : NetState) :
    IsNetRecord (OutputNet.WriteNets (K := K) external n st).1 := by
  obtain ⟨i1, i2⟩ := Net_WriteNets_marks (K := K) n.sinks (st.cellMap.get n.source.1.addr).2
  cases external
  · refine ⟨_, _, _, rfl, ?_, rfl, i2⟩
    simp [i1]
  · refine ⟨_, _, _, rfl, ?_, rfl, ?_⟩
    · simp [i1]
    · intro l hl
      rcases List.mem_cons.1 hl with hl | hl
      · rw [hl]; rfl
      · exact i2 l hl

end NetsRecords

/-- C15. Every net written to the `.nets` file is a record made of a line
`NetDegree : k` and `k` pin lines, of which the first is marked `O` and all
others are marked `I`; the first pin line is the pad of an input net and the
source block of an output net, the pad of an external output net comes
second; and the body of the file is the sequence of these records, one per
net of `inputs`, `outputs` and `internalNets`. -/
theorem nets_records {K : Type} :
    (∀ (n : InputNet) (st : NetState),
      IsNetRecord (InputNet.WriteNets (K := K) n st).1 ∧
      (InputNet.WriteNets (K := K) n st).1[0]?
        = some [.str "NetDegree : ", .int ((n.sinks.length : Int) + 1)] ∧
      (InputNet.WriteNets (K := K) n st).1[1]?
        = some [.str "pad_", .int (st.padCounter + 1), .str " O"] ∧
      (InputNet.WriteNets (K := K) n st).1.length = n.sinks.length + 2) ∧
    (∀ (external : Bool) (n : OutputNet) (st : NetState),
      IsNetRecord (OutputNet.WriteNets (K := K) external n st).1 ∧
      (OutputNet.WriteNets (K := K) external n st).1[0]?
        = some [.str "NetDegree : ",
            .int ((n.sinks.length : Int) + (if external then 1 else 0) + 1)] ∧
      (OutputNet.WriteNets (K := K) external n st).1[1]?
        = some [.str n.source.1.cell.Name, .str "_",
            .int (st.cellMap.get n.source.1.addr).1, .str " O"] ∧
      (external = true → (OutputNet.WriteNets (K := K) external n st).1[2]?
        = some [.str "pad_", .int (st.padCounter + 1), .str " I"]) ∧
      (OutputNet.WriteNets (K := K) external n st).1.length
        = n.sinks.length + (if external then 1 else 0) + 2) ∧
    (∀ (m : Module) (cellMap : CounterMap), ∃ recs : List (List (Line K)),
      (m.netsBody (K := K) cellMap).1 = recs.flatten ∧
      recs.length = m.inputs.length + m.outputs.length + m.internalNets.length ∧
      ∀ r ∈ recs, IsNetRecord r) := by
  refine ⟨?_, ?_, ?_⟩
  · intro n st
    refine ⟨InputNet_WriteNets_record n st, ?_, ?_, ?_⟩
    · simp [InputNet.WriteNets]
    · simp [InputNet.WriteNets]
    · simp [InputNet.WriteNets, (Net_WriteNets_marks (K := K) n.sinks st.cellMap).1]
  · intro external n st
    have hl := (Net_WriteNets_marks (K := K) n.sinks (st.cellMap.get n.source.1.addr).2).1
    refine ⟨OutputNet_WriteNets_record external n st, ?_, ?_, ?_, ?_⟩
    · cases external <;> simp [OutputNet.WriteNets]
    · cases external <;> simp [OutputNet.WriteNets]
    · intro he; subst he; simp [OutputNet.WriteNets]
    · cases external <;> simp [OutputNet.WriteNets, hl]
  · intro m cellMap
    obtain ⟨r1, a1, a2, a3⟩ := writeAll_records (K := K) InputNet.WriteNets IsNetRecord
      InputNet_WriteNets_record m.inputs ⟨cellMap, 0⟩
    obtain ⟨r2, b1, b2, b3⟩ := writeAll_records (K := K) (OutputNet.WriteNets true) IsNetRecord
      (OutputNet_WriteNets_record true) m.outputs
      (writeAll (K := K) InputNet.WriteNets m.inputs ⟨cellMap, 0⟩).2
    obtain ⟨r3, c1, c2, c3⟩ := writeAll_records (K := K) (OutputNet.WriteNets false) IsNetRecord
      (OutputNet_WriteNets_record false) m.internalNets
      (writeAll (K := K) (OutputNet.WriteNets true) m.outputs
        (writeAll (K := K) InputNet.WriteNets m.inputs ⟨cellMap, 0⟩).2).2
    refine ⟨r1 ++ r2 ++ r3, ?_, by simp [a2, b2, c2, Nat.add_assoc], ?_⟩
    · simp only [Module.netsBody, a1, b1, c1, List.flatten_append]
    · intro r hr
      rcases List.mem_append.1 hr with hr | hr
      · rcases List.mem_append.1 hr with hr | hr
        · exact a3 r hr
        · exact b3 r hr
      · exact c3 r hr

/-! ## The body of the `.netD2` file -/

section NetD2

variable {K : Type}

theorem specNetD2Lines_append (ids : Ptr → Int) (a b : List PairRecord) :
    ∀ pc : Int, specNetD2Lines (K := K) ids pc (a ++ b)
      = specNetD2Lines ids pc a ++ specNetD2Lines ids (pc + specPads a) b := by
  induction a with
  | nil => intro pc; simp [specNetD2Lines, specPads]
  | cons r tl ih =>
    intro pc
    show specNetD2Lines (K := K) ids pc (r :: (tl ++ b)) = _
    have hp : specPads (r :: tl) = (if PairRecord.hasPad r then 1 else 0) + specPads tl := by
      simp only [specPads, List.countP_cons]
      by_cases h : PairRecord.hasPad r = true
      · simp only [h, if_true, Nat.cast_add, Nat.cast_one]; ring
      · simp only [h, if_false, Nat.add_zero, Bool.false_eq_true, zero_add]
    simp only [specNetD2Lines, ih, hp, List.cons_append]
    by_cases h : PairRecord.hasPad r = true
    · simp only [h, if_true, add_assoc]
    · simp only [h, if_false, Bool.false_eq_true, zero_add]

theorem specPads_append (a b : List PairRecord) : specPads (a ++ b) = specPads a + specPads b := by
  simp [specPads, List.countP_append]

theorem specNetD2Lines_length (ids : Ptr → Int) (recs : List PairRecord) :
    ∀ pc : Int, (specNetD2Lines (K := K) ids pc recs).length = 2 * recs.length := by
  induction recs with
  | nil => intro pc; rfl
  | cons r tl ih =>
    intro pc
    simp only [specNetD2Lines, List.length_cons, ih]
    ring

theorem specNetD2Lines_pairs (ids : Ptr → Int) (recs : List PairRecord) :
    ∀ pc : Int, ∃ pairs : List (Line K × Line K),
      specNetD2Lines (K := K) ids pc recs = pairs.flatMap (fun p => [p.1, p.2]) ∧
      pairs.length = recs.length ∧
      ∀ p ∈ pairs, Line.role p.1 = some " s O" ∧ Line.role p.2 = some " l I" := by
  induction recs with
  | nil => intro pc; exact ⟨[], rfl, rfl, by simp⟩
  | cons r tl ih =>
    intro pc
    obtain ⟨pairs, h1, h2, h3⟩ := ih (if PairRecord.hasPad r then pc + 1 else pc)
    refine ⟨(specEndLine ids pc " s O" r.1, specEndLine ids pc " l I" r.2) :: pairs, ?_, ?_, ?_⟩
    · simp only [specNetD2Lines, h1, List.flatMap_cons, List.cons_append, List.nil_append]
    · simp [h2]
    · intro p hp
      rcases List.mem_cons.1 hp with hp | hp
      · subst hp
        obtain ⟨a, b⟩ := r
        cases a <;> cases b <;> exact ⟨rfl, rfl⟩
      · exact h3 p hp

/-- A loop over nets renders the records of the nets, when each call does. -/
theorem writeAll_renders {α : Type} (f : α → NetState → List (Line K) × NetState)
    (recs : α → List PairRecord)
    (h : ∀ a st, st.cellMap.le (f a st).2.cellMap ∧
      (f a st).2.padCounter = st.padCounter + specPads (recs a) ∧
      ∀ final : CounterMap, (f a st).2.cellMap.le final →
        (f a st).1 = specNetD2Lines final.idOf st.padCounter (recs a))
    (l : List α) :
    ∀ st, st.cellMap.le (writeAll f l st).2.cellMap ∧
      (writeAll f l st).2.padCounter = st.padCounter + specPads (l.flatMap recs) ∧
      ∀ final : CounterMap, (writeAll f l st).2.cellMap.le final →
        (writeAll f l st).1 = specNetD2Lines final.idOf st.padCounter (l.flatMap recs) := by
  induction l with
  | nil =>
    intro st
    exact ⟨CounterMap.le_rfl _, by simp [writeAll, specPads], fun _ _ => rfl⟩
  | cons a tl ih =>
    intro st
    obtain ⟨a1, a2, a3⟩ := h a st
    obtain ⟨b1, b2, b3⟩ := ih (f a st).2
    refine ⟨CounterMap.le_trans a1 b1, ?_, ?_⟩
    · simp only [writeAll, b2, a2, List.flatMap_cons, specPads_append]
      ring
    · intro final hf
      simp only [writeAll, List.flatMap_cons, specNetD2Lines_append]
      rw [a3 final (CounterMap.le_trans b1 hf), b3 final hf, a2]

theorem InputNet_sinksNetD2_renders (sinks : List Terminal) :
    ∀ st : NetState, st.cellMap.le (InputNet.sinksNetD2 (K := K) st sinks).2.cellMap ∧
      (InputNet.sinksNetD2 (K := K) st sinks).2.padCounter
        = st.padCounter + specPads (sinks.map (fun t => (Endpoint.pad, Endpoint.cell t.1.addr))) ∧
      ∀ final : CounterMap, (InputNet.sinksNetD2 (K := K) st sinks).2.cellMap.le final →
        (InputNet.sinksNetD2 (K := K) st sinks).1 = specNetD2Lines final.idOf st.padCounter
          (sinks.map (fun t => (Endpoint.pad, Endpoint.cell t.1.addr))) := by
  induction sinks with
  | nil =>
    intro st
    exact ⟨CounterMap.le_rfl _, by simp [InputNet.sinksNetD2, specPads], fun _ _ => rfl⟩
  | cons t tl ih =>
    intro st
    obtain ⟨b1, b2, b3⟩ := ih ⟨(st.cellMap.get t.1.addr).2, st.padCounter + 1⟩
    refine ⟨CounterMap.le_trans (st.cellMap.get_le t.1.addr) b1, ?_, ?_⟩
    · simp only [InputNet.sinksNetD2, b2, List.map_cons, specPads, List.countP_cons]
      simp [PairRecord.hasPad]
      ring
    · intro final hf
      simp only [InputNet.sinksNetD2] at hf ⊢
      rw [b3 final hf]
      have e := CounterMap.idOf_get st.cellMap final t.1.addr (CounterMap.le_trans b1 hf)
      simp [specNetD2Lines, specEndLine, PairRecord.hasPad, e]

theorem OutputNet_sinksNetD2_renders (source : Ptr) (sinks : List Terminal) :
    ∀ (cm : CounterMap) (pc : Int),
      cm.le (OutputNet.sinksNetD2 (K := K) source cm sinks).2 ∧
      ∀ final : CounterMap, (OutputNet.sinksNetD2 (K := K) source cm sinks).2.le final →
        (OutputNet.sinksNetD2 (K := K) source cm sinks).1 = specNetD2Lines final.idOf pc
          (sinks.map (fun t => (Endpoint.cell source, Endpoint.cell t.1.addr))) := by
  induction sinks with
  | nil =>
    intro cm pc
    exact ⟨CounterMap.le_rfl _, fun _ _ => rfl⟩
  | cons t tl ih =>
    intro cm pc
    obtain ⟨b1, b3⟩ := ih ((cm.get source).2.get t.1.addr).2 pc
    have l1 := cm.get_le source
    have l2 := (cm.get source).2.get_le t.1.addr
    refine ⟨CounterMap.le_trans l1 (CounterMap.le_trans l2 b1), ?_⟩
    intro final hf
    simp only [OutputNet.sinksNetD2] at hf ⊢
    rw [b3 final hf]
    have e1 := CounterMap.idOf_get cm final source
      (CounterMap.le_trans l2 (CounterMap.le_trans b1 hf))
    have e2 := CounterMap.idOf_get (cm.get source).2 final t.1.addr (CounterMap.le_trans b1 hf)
    simp [specNetD2Lines, specEndLine, PairRecord.hasPad, e1, e2]

theorem specPads_cells (source : Ptr) (sinks : List Terminal) :
    specPads (sinks.map (fun t => (Endpoint.cell source, Endpoint.cell t.1.addr))) = 0 := by
  induction sinks with
  | nil => rfl
  | cons t tl ih =>
    simp only [specPads, List.map_cons, List.countP_cons] at ih ⊢
    simp [PairRecord.hasPad, ih]

theorem InputNet_WriteNetD2_renders (n : InputNet) (st : NetState) :
    st.cellMap.le (InputNet.WriteNetD2 (K := K) n st).2.cellMap ∧
      (InputNet.WriteNetD2 (K := K) n st).2.padCounter = st.padCounter
        + specPads (n.sinks.map (fun t => (Endpoint.pad, Endpoint.cell t.1.addr))) ∧
      ∀ final : CounterMap, (InputNet.WriteNetD2 (K := K) n st).2.cellMap.le final →
        (InputNet.WriteNetD2 (K := K) n st).1 = specNetD2Lines final.idOf st.padCounter
          (n.sinks.map (fun t => (Endpoint.pad, Endpoint.cell t.1.addr))) :=
  InputNet_sinksNetD2_renders n.sinks st

theorem OutputNet_WriteNetD2_external (n : OutputNet) (st : NetState) :
    st.cellMap.le (OutputNet.WriteNetD2 (K := K) true n st).2.cellMap ∧
      (OutputNet.WriteNetD2 (K := K) true n st).2.padCounter = st.padCounter
        + specPads ((Endpoint.cell n.source.1.addr, Endpoint.pad)
          :: n.sinks.map (fun t => (Endpoint.cell n.source.1.addr, Endpoint.cell t.1.addr))) ∧
      ∀ final : CounterMap, (OutputNet.WriteNetD2 (K := K) true n st).2.cellMap.le final →
        (OutputNet.WriteNetD2 (K := K) true n st).1 = specNetD2Lines final.idOf st.padCounter
          ((Endpoint.cell n.source.1.addr, Endpoint.pad)
            :: n.sinks.map (fun t => (Endpoint.cell n.source.1.addr, Endpoint.cell t.1.addr))) := by
  obtain ⟨b1, b3⟩ := OutputNet_sinksNetD2_renders (K := K) n.source.1.addr n.sinks
    (st.cellMap.get n.source.1.addr).2 (st.padCounter + 1)
  have l1 := st.cellMap.get_le n.source.1.addr
  refine ⟨CounterMap.le_trans l1 b1, ?_, ?_⟩
  · have := specPads_cells n.source.1.addr n.sinks
    simp only [specPads, List.countP_cons] at this ⊢
    simp [OutputNet.WriteNetD2, PairRecord.hasPad, this]
  · intro final hf
    simp only [OutputNet.WriteNetD2, if_true] at hf ⊢
    rw [b3 final hf]
    have e := CounterMap.idOf_get st.cellMap final n.source.1.addr (CounterMap.le_trans b1 hf)
    simp [specNetD2Lines, specEndLine, PairRecord.hasPad, e]

theorem OutputNet_WriteNetD2_internal (n : OutputNet) (st : NetState) :
    st.cellMap.le (OutputNet.WriteNetD2 (K := K) false n st).2.cellMap ∧
      (OutputNet.WriteNetD2 (K := K) false n st).2.padCounter = st.padCounter
        + specPads (n.sinks.map
            (fun t => (Endpoint.cell n.source.1.addr, Endpoint.cell t.1.addr))) ∧
      ∀ final : CounterMap, (OutputNet.WriteNetD2 (K := K) false n st).2.cellMap.le final →
        (OutputNet.WriteNetD2 (K := K) false n st).1 = specNetD2Lines final.idOf st.padCounter
          (n.sinks.map (fun t => (Endpoint.cell n.source.1.addr, Endpoint.cell t.1.addr))) := by
  obtain ⟨b1, b3⟩ := OutputNet_sinksNetD2_renders (K := K) n.source.1.addr n.sinks
    st.cellMap st.padCounter
  refine ⟨b1, ?_, ?_⟩
  · simp [OutputNet.WriteNetD2, specPads_cells]
  · intro final hf
    simp only [OutputNet.WriteNetD2] at hf ⊢
    exact b3 final hf

theorem foldl_add_int {α : Type} (f : α → Int) (l : List α) :
    ∀ c : Int, l.foldl (fun acc a => acc + f a) c = c + (l.map f).sum := by
  induction l with
  | nil => intro c; simp
  | cons a tl ih =>
    intro c
    simp only [List.foldl_cons, List.map_cons, List.sum_cons, ih]
    ring

theorem length_flatMap_int {α β : Type} (l : List α) (f : α → List β) :
    ((l.flatMap f).length : Int) = (l.map (fun a => ((f a).length : Int))).sum := by
  induction l with
  | nil => rfl
  | cons a tl ih =>
    simp only [List.flatMap_cons, List.length_append, List.map_cons, List.sum_cons, Nat.cast_add, ih]

theorem specNetD2Records_length (m : Module) :
    (m.specNetD2Records.length : Int) = m.numIn + m.numOut := by
  unfold Module.specNetD2Records Module.numIn Module.numOut
  simp only [List.length_append, Nat.cast_add, length_flatMap_int, foldl_add_int,
    List.length_map, List.length_cons, Nat.cast_one, zero_add, add_assoc]

end NetD2

/-- C14. The body written by `Module::WriteNetD2` is the sequence of two-line
records of the module, each a source line (`s O`) followed by a sink line
(`l I`): a record (pad, sink cell) per sink of every input net, a record
(driver cell, pad) per external output net and a record (driver cell, sink
cell) per sink of every external or internal output net; the net count of
the header is the number of records and its pin count the number of body
lines, twice the net count. -/
theorem netD2_records {K : Type} (m : Module) (fs : FileSys K) (name : String) :
    (m.netD2Body (K := K)).1
      = specNetD2Lines (m.netD2Body (K := K)).2.cellMap.idOf 0 m.specNetD2Records ∧
    (∃ pairs : List (Line K × Line K),
      (m.netD2Body (K := K)).1 = pairs.flatMap (fun p => [p.1, p.2]) ∧
      pairs.length = m.specNetD2Records.length ∧
      ∀ p ∈ pairs, Line.role p.1 = some " s O" ∧ Line.role p.2 = some " l I") ∧
    m.netD2Header (K := K)
      = [[.str "0"], [.int ((m.netD2Body (K := K)).1.length : Int)],
         [.int (m.specNetD2Records.length : Int)],
         [.int (m.numBlocks + m.numOutputs + m.numIn)], [.int (m.numBlocks - 1)]] ∧
    (m.netD2Body (K := K)).1.length = 2 * m.specNetD2Records.length ∧
    (fs.canOpen (name ++ ".netD2") = true →
      m.WriteNetD2 fs name
        = .done () (fs.write (name ++ ".netD2") (m.netD2Header ++ (m.netD2Body (K := K)).1))) := by
  have h1 := writeAll_renders (K := K) InputNet.WriteNetD2 _ InputNet_WriteNetD2_renders
    m.inputs ⟨CounterMap.fresh, 0⟩
  have h2 := writeAll_renders (K := K) (OutputNet.WriteNetD2 true) _
    OutputNet_WriteNetD2_external m.outputs
    (writeAll (K := K) InputNet.WriteNetD2 m.inputs ⟨CounterMap.fresh, 0⟩).2
  have h3 := writeAll_renders (K := K) (OutputNet.WriteNetD2 false) _
    OutputNet_WriteNetD2_internal m.internalNets
    (writeAll (K := K) (OutputNet.WriteNetD2 true) m.outputs
      (writeAll (K := K) InputNet.WriteNetD2 m.inputs ⟨CounterMap.fresh, 0⟩).2).2
  have hbody : (m.netD2Body (K := K)).1
      = specNetD2Lines (m.netD2Body (K := K)).2.cellMap.idOf 0 m.specNetD2Records := by
    have f3 := h3.2.2 (m.netD2Body (K := K)).2.cellMap (CounterMap.le_rfl _)
    have f2 := h2.2.2 (m.netD2Body (K := K)).2.cellMap h3.1
    have f1 := h1.2.2 (m.netD2Body (K := K)).2.cellMap (CounterMap.le_trans h2.1 h3.1)
    conv_lhs => unfold Module.netD2Body
    simp only []
    rw [f1, f2, f3, h2.2.1, h1.2.1]
    unfold Module.specNetD2Records
    simp only [specNetD2Lines_append, specPads_append, zero_add]
  have hlen : (m.netD2Body (K := K)).1.length = 2 * m.specNetD2Records.length := by
    rw [hbody, specNetD2Lines_length]
  refine ⟨hbody, ?_, ?_, hlen, ?_⟩
  · rw [hbody]
    exact specNetD2Lines_pairs _ _ _
  · simp only [Module.netD2Header, hlen, specNetD2Records_length, Nat.cast_mul, Nat.cast_ofNat]
  · intro ho
    simp [Module.WriteNetD2, ho]

/-- Witness for C14: the `.netD2` file of the fan-out sample has the four
records (pad, INV), (pad, NAND), (NAND, pad), (INV, NAND), eight body lines,
and the header 0, 8, 4, 5, 1. -/
theorem netD2_records_witness :
    fanoutModule.specNetD2Records
      = [(Endpoint.pad, Endpoint.cell 100), (Endpoint.pad, Endpoint.cell 101),
         (Endpoint.cell 101, Endpoint.pad), (Endpoint.cell 100, Endpoint.cell 101)] ∧
    (fanoutModule.netD2Body (K := ℝ)).1
      = [[.str "p", .int 1, .str " s O"], [.str "a", .int 0, .str " l I"],
         [.str "p", .int 2, .str " s O"], [.str "a", .int 1, .str " l I"],
         [.str "a", .int 1, .str " s O"], [.str "p", .int 3, .str " l I"],
         [.str "a", .int 0, .str " s O"], [.str "a", .int 1, .str " l I"]] ∧
    fanoutModule.netD2Header (K := ℝ) = [[.str "0"], [.int 8], [.int 4], [.int 5], [.int 1]] ∧
    (fanoutModule.netD2Body (K := ℝ)).1.length = 2 * fanoutModule.specNetD2Records.length ∧
    fanoutModule.WriteNetD2 (sampleFiles ℝ) "c"
      = .done () ((sampleFiles ℝ).write ("c" ++ ".netD2")
          (fanoutModule.netD2Header ++ (fanoutModule.netD2Body (K := ℝ)).1)) :=
  ⟨by rfl, by rfl, by rfl,
    (netD2_records fanoutModule (sampleFiles ℝ) "c").2.2.2.1,
    (netD2_records fanoutModule (sampleFiles ℝ) "c").2.2.2.2 rfl⟩

/-- Witness for C15: the net records of the `.nets` file of the fan-out
sample; the input net has degree 3 with the pad as driver, the output net
degree 2 with the `NAND` as driver and its pad marked `I`, the internal net
degree 2. -/
theorem nets_records_witness :
    (fanoutModule.netsBody (K := ℝ)
        (nodesBlockLines (K := ℝ) CounterMap.fresh fanoutModule.blocks).2).1
      = [[.str "NetDegree : ", .int 3], [.str "pad_", .int 1, .str " O"],
         [.str "INV", .str "_", .int 0, .str " I"], [.str "NAND", .str "_", .int 1, .str " I"],
         [.str "NetDegree : ", .int 2], [.str "NAND", .str "_", .int 1, .str " O"],
         [.str "pad_", .int 2, .str " I"],
         [.str "NetDegree : ", .int 2], [.str "INV", .str "_", .int 0, .str " O"],
         [.str "NAND", .str "_", .int 1, .str " I"]] ∧
    (∃ recs : List (List (Line ℝ)),
      (fanoutModule.netsBody (K := ℝ)
        (nodesBlockLines (K := ℝ) CounterMap.fresh fanoutModule.blocks).2).1 = recs.flatten ∧
      recs.length = fanoutModule.inputs.length + fanoutModule.outputs.length
        + fanoutModule.internalNets.length ∧
      ∀ r ∈ recs, IsNetRecord r) :=
  ⟨by rfl, (nets_records (K := ℝ)).2.2 fanoutModule
    (nodesBlockLines (K := ℝ) CounterMap.fresh fanoutModule.blocks).2⟩

/-- Witness for C17: the circuit body of the `.hnl` file of the fan-out
sample; the primary input is `n0`, the primary output `n1`, the internal net
`n2`, and every block line lists its input pins and then its output pins. -/
theorem hnl_body_tokens_witness :
    (hnlBody (K := ℝ) fanoutModule).1
      = [[.str "input", .str " n", .int 0], [.str "output", .str " n", .int 1],
         [.str "INV", .str " n", .int 0, .str " n", .int 2],
         [.str "NAND", .str " n", .int 0, .str " n", .int 2, .str " n", .int 1]] ∧
    (hnlBody (K := ℝ) fanoutModule).2.idOf 200 = ((0 : Nat) : Int) :=
  ⟨by rfl, (hnl_body_tokens (K := ℝ) fanoutModule).2.2 (by decide) 0 ⟨200, _⟩ rfl⟩

/-! ## Failures of the statistics writers and what they leave unchanged -/

section StatsFrame

variable {K : Type} [LinearOrderedField K] [FloorRing K]

omit [LinearOrderedField K] [FloorRing K] in
theorem IntMap.modify_ne_nil {V : Type} (d : V) (f : V → V) (k : Int) (m : IntMap V) :
    IntMap.modify d f k m ≠ [] := by
  cases m with
  | nil => simp [IntMap.modify]
  | cons hd tl =>
    obtain ⟨k', v⟩ := hd
    simp only [IntMap.modify]
    split_ifs <;> simp

/-- A successful `FillBuckets` changes the bucket cache only and leaves it
non-empty, so that a second `FillBuckets` has nothing to do. -/
theorem FillBuckets_ok_frame (log : K → K) (s s1 : ModuleType K)
    (h : s.FillBuckets log = .ok s1) :
    s1.rtdWritten = s.rtdWritten ∧ s1.datWritten = s.datWritten ∧ s1.forrest = s.forrest ∧
    s1.regions = s.regions ∧ s1.addr = s.addr ∧ s1.FillBuckets log = .ok s1 := by
  unfold ModuleType.FillBuckets at h
  by_cases hb : s.buckets.length = 0
  · match hs : s.forrest with
    | [] => simp [hb, hs] at h
    | _ :: _ :: _ => simp [hb, hs] at h
    | [root] =>
      simp only [hb, hs, bne_self_eq_false, Bool.false_eq_true, if_false,
        Except.ok.injEq] at h
      subst h
      refine ⟨rfl, rfl, rfl, rfl, rfl, ?_⟩
      unfold ModuleType.FillBuckets
      have hne := IntMap.modify_ne_nil [] (fun l => l ++ [root.2])
        (lastKey (root.2.FillBucketsWithTree log s.buckets) + 1)
        (root.2.FillBucketsWithTree log s.buckets)
      have hl : (IntMap.modify [] (fun l => l ++ [root.2])
        (lastKey (root.2.FillBucketsWithTree log s.buckets) + 1)
        (root.2.FillBucketsWithTree log s.buckets)).length ≠ 0 := by
        intro e
        exact hne (List.length_eq_zero.1 e)
      simp [hl]
  · have hb' : (s.buckets.length != 0) = true := by simpa using hb
    simp only [hb', if_true, Except.ok.injEq] at h
    subst h
    refine ⟨rfl, rfl, rfl, rfl, rfl, ?_⟩
    unfold ModuleType.FillBuckets
    simp [hb']

omit [LinearOrderedField K] [FloorRing K] in
/-- The ways `WriteRtd` ends: at once, by one of the two throws, or with the
file written and the flag set. -/
theorem WriteRtd_cases (g : Globals) (s : ModuleType K) (fs : FileSys K) (name : String) :
    (s.rtdWritten = true ∧ s.WriteRtd g fs name = .done s fs) ∨
    (s.rtdWritten = false ∧
      s.WriteRtd g fs name = .thrown "Internal error: forrest is not a tree" s fs) ∨
    (s.rtdWritten = false ∧ s.WriteRtd g fs name
      = .thrown ("Cannot open " ++ (name ++ ".rtd") ++ " for writing") s fs) ∨
    (s.rtdWritten = false ∧ ∃ lines : List (Line K), s.WriteRtd g fs name
      = .done { s with rtdWritten := true } (fs.write (name ++ ".rtd") lines)) := by
  unfold ModuleType.WriteRtd
  by_cases hd : s.rtdWritten = true
  · left; simp [hd]
  · have hd' : s.rtdWritten = false := by simpa using hd
    right
    match hs : s.forrest with
    | [] => left; simp [hd']
    | _ :: _ :: _ => left; simp [hd']
    | [root] =>
      right
      by_cases hc : fs.canOpen (name ++ ".rtd") = true
      · right
        exact ⟨hd', statHeader g "rtd" name ++ (rtdLines (root.2.AddRtdData [])).map rtdLine,
          by simp [hd', hc]⟩
      · left; simp [hd', hc]

/-- The ways `WriteDat` ends. -/
theorem WriteDat_cases (x : Extern K) (g : Globals) (s : ModuleType K) (fs : FileSys K)
    (name : String) :
    (s.datWritten = true ∧ s.WriteDat x g fs name = .done s fs) ∨
    (s.datWritten = false ∧
      s.FillBuckets x.log = .error "Internal error: forrest is not a tree" ∧
      s.WriteDat x g fs name = .thrown "Internal error: forrest is not a tree" s fs) ∨
    (s.datWritten = false ∧ ∃ s1 : ModuleType K, s.FillBuckets x.log = .ok s1 ∧
      (s.WriteDat x g fs name
          = .thrown ("Cannot open " ++ (name ++ ".dat") ++ " for writing") s1 fs ∨
        s.WriteDat x g fs name = .hang ∨
        ∃ lines : List (Line K), s.WriteDat x g fs name
          = .done { s1 with datWritten := true } (fs.write (name ++ ".dat") lines))) := by
  unfold ModuleType.WriteDat
  by_cases hd : s.datWritten = true
  · left; simp [hd]
  · have hd' : s.datWritten = false := by simpa using hd
    right
    cases hF : s.FillBuckets x.log with
    | error e =>
      left
      have he : e = "Internal error: forrest is not a tree" := by
        unfold ModuleType.FillBuckets at hF
        by_cases hb : (s.buckets.length != 0) = true
        · simp [hb] at hF
        · match hs : s.forrest with
          | [] => simp [hb, hs] at hF; exact hF.symm
          | _ :: _ :: _ => simp [hb, hs] at hF; exact hF.symm
          | [root] => simp [hb, hs] at hF
      subst he
      simp [hd']
    | ok s1 =>
      right
      refine ⟨hd', s1, rfl, ?_⟩
      by_cases hc : fs.canOpen (name ++ ".dat") = true
      · cases hl : datLines x s1 s1.buckets s1.regions with
        | none => right; left; simp [hd', hc, hl]
        | some ls =>
          right; right
          exact ⟨statHeader g "data" name ++ datColumns ++ ls, by simp [hd', hc, hl]⟩
      · left; simp [hd', hc]

/-- A `WriteDat` on the object left by a successful `FillBuckets` runs as on
the object before it. -/
theorem WriteDat_after_fill (x : Extern K) (g : Globals) (s s1 : ModuleType K)
    (fs : FileSys K) (name : String) (hd : s.datWritten = false)
    (h : s.FillBuckets x.log = .ok s1) :
    s1.WriteDat x g fs name = s.WriteDat x g fs name := by
  obtain ⟨-, h2, -, -, -, h6⟩ := FillBuckets_ok_frame x.log s s1 h
  unfold ModuleType.WriteDat
  rw [h2, h, h6, hd]
  simp only [Bool.false_eq_true, if_false]

end StatsFrame

/-- C23. A `WriteRtd` that fails (with the structural error or because the
destination cannot be opened) leaves the object and the files as they were,
with `rtdWritten` unset; a `WriteDat` that fails leaves `datWritten` unset and
the files as they were. A later call on the object left behind runs as a
first call would and does not return at once. `WriteRtd` never changes
`datWritten` or the bucket cache, and `WriteDat` never changes `rtdWritten`. -/
theorem stats_failure_frame {K : Type} [LinearOrderedField K] [FloorRing K] (x : Extern K)
    (g : Globals) (s : ModuleType K) (fs : FileSys K) (name : String) :
    (∀ (msg : String) (s' : ModuleType K) (fs' : FileSys K),
      s.WriteRtd g fs name = .thrown msg s' fs' →
        (msg = "Internal error: forrest is not a tree" ∨
          msg = "Cannot open " ++ (name ++ ".rtd") ++ " for writing") ∧
        s'.rtdWritten = false ∧ s' = s ∧ fs' = fs ∧
        ∀ (g2 : Globals) (fs2 : FileSys K) (name2 : String),
          s'.WriteRtd g2 fs2 name2 ≠ .done s' fs2) ∧
    (∀ (msg : String) (s' : ModuleType K) (fs' : FileSys K),
      s.WriteDat x g fs name = .thrown msg s' fs' →
        (msg = "Internal error: forrest is not a tree" ∨
          msg = "Cannot open " ++ (name ++ ".dat") ++ " for writing") ∧
        s'.datWritten = false ∧ fs' = fs ∧
        ∀ (g2 : Globals) (fs2 : FileSys K) (name2 : String),
          s'.WriteDat x g2 fs2 name2 = s.WriteDat x g2 fs2 name2 ∧
          s'.WriteDat x g2 fs2 name2 ≠ .done s' fs2) ∧
    (∀ s' : ModuleType K, (s.WriteRtd g fs name).state = some s' →
      s'.datWritten = s.datWritten ∧ s'.buckets = s.buckets) ∧
    (∀ s' : ModuleType K, (s.WriteDat x g fs name).state = some s' →
      s'.rtdWritten = s.rtdWritten) := by
  refine ⟨?_, ?_, ?_, ?_⟩
  · intro msg s' fs' h
    have key : (msg = "Internal error: forrest is not a tree" ∨
          msg = "Cannot open " ++ (name ++ ".rtd") ++ " for writing") ∧
        s.rtdWritten = false ∧ s' = s ∧ fs' = fs := by
      rcases WriteRtd_cases g s fs name with ⟨-, e⟩ | ⟨hd, e⟩ | ⟨hd, e⟩ | ⟨-, l, e⟩
      · rw [e] at h; cases h
      · rw [e] at h; cases h; exact ⟨Or.inl rfl, hd, rfl, rfl⟩
      · rw [e] at h; cases h; exact ⟨Or.inr rfl, hd, rfl, rfl⟩
      · rw [e] at h; cases h
    obtain ⟨k1, k2, k3, k4⟩ := key
    subst k3
    refine ⟨k1, k2, rfl, k4, ?_⟩
    intro g2 fs2 name2 e
    have := WriteRtd_done_flag g2 s' s' fs2 fs2 name2 e
    rw [k2] at this
    cases this
  · intro msg s' fs' h
    rcases WriteDat_cases x g s fs name with ⟨-, e⟩ | ⟨hd, -, e⟩ | ⟨hd, s1, hF, e | e | ⟨l, e⟩⟩
    · rw [e] at h; cases h
    · rw [e] at h; cases h
      refine ⟨Or.inl rfl, hd, rfl, ?_⟩
      intro g2 fs2 name2
      refine ⟨rfl, ?_⟩
      intro e2
      have := WriteDat_done_flag x g2 s s fs2 fs2 name2 e2
      rw [hd] at this
      cases this
    · rw [e] at h; cases h
      obtain ⟨-, h2, -, -, -, -⟩ := FillBuckets_ok_frame x.log s s' hF
      refine ⟨Or.inr rfl, by rw [h2, hd], rfl, ?_⟩
      intro g2 fs2 name2
      refine ⟨WriteDat_after_fill x g2 s s' fs2 name2 hd hF, ?_⟩
      intro e2
      have := WriteDat_done_flag x g2 s' s' fs2 fs2 name2 e2
      rw [h2, hd] at this
      cases this
    · rw [e] at h; cases h
    · rw [e] at h; cases h
  · intro s' h
    rcases WriteRtd_cases g s fs name with ⟨-, e⟩ | ⟨-, e⟩ | ⟨-, e⟩ | ⟨-, l, e⟩ <;>
      · rw [e] at h
        simp only [Outcome.state, Option.some.injEq] at h
        subst h
        exact ⟨rfl, rfl⟩
  · intro s' h
    rcases WriteDat_cases x g s fs name with ⟨-, e⟩ | ⟨-, -, e⟩ | ⟨-, s1, hF, e | e | ⟨l, e⟩⟩
    · rw [e] at h
      simp only [Outcome.state, Option.some.injEq] at h
      subst h; rfl
    · rw [e] at h
      simp only [Outcome.state, Option.some.injEq] at h
      subst h; rfl
    · rw [e] at h
      simp only [Outcome.state, Option.some.injEq] at h
      subst h
      exact (FillBuckets_ok_frame x.log s s1 hF).1
    · rw [e] at h
      simp [Outcome.state] at h
    · rw [e] at h
      simp only [Outcome.state, Option.some.injEq] at h
      subst h
      exact (FillBuckets_ok_frame x.log s s1 hF).1

/-- The failing `WriteDat` run on the single leaf of area 1 when no
destination can be opened: the cache is filled, then the open fails. -/
theorem leaf_one_WriteDat_closed :
    (leafType ℝ 1).WriteDat (sampleExtern Real.log Real.exp Real.sqrt) sampleGlobals
        (closedFiles ℝ) "c"
      = .thrown ("Cannot open " ++ ("c" ++ ".dat") ++ " for writing")
          { leafType ℝ 1 with buckets := [(0, [.leaf 1 2 2]), (1, [.leaf 1 2 2])] }
          (closedFiles ℝ) := by
  have hF : (leafType ℝ 1).FillBuckets (sampleExtern Real.log Real.exp Real.sqrt).log
      = .ok { leafType ℝ 1 with buckets := [(0, [.leaf 1 2 2]), (1, [.leaf 1 2 2])] } :=
    leafType_one_buckets
  have hd : (leafType ℝ 1).datWritten = false := rfl
  unfold ModuleType.WriteDat
  rw [hF, hd]
  simp [closedFiles]

/-- Witness for C23: on the empty forest `WriteRtd` fails with the structural
error and leaves `rtdWritten` unset; on a single leaf with no destination that
can be opened `WriteDat` fails with the message naming `c.dat`, leaves
`datWritten` unset, and the later call on destinations that can be opened
runs as a first call. -/
theorem stats_failure_frame_witness :
    (emptyForestType ℝ).WriteRtd sampleGlobals (closedFiles ℝ) "c"
      = .thrown "Internal error: forrest is not a tree" (emptyForestType ℝ) (closedFiles ℝ) ∧
    (emptyForestType ℝ).rtdWritten = false ∧
    (leafType ℝ 1).WriteDat (sampleExtern Real.log Real.exp Real.sqrt) sampleGlobals
        (closedFiles ℝ) "c"
      = .thrown ("Cannot open " ++ ("c" ++ ".dat") ++ " for writing")
          { leafType ℝ 1 with buckets := [(0, [.leaf 1 2 2]), (1, [.leaf 1 2 2])] }
          (closedFiles ℝ) ∧
    ModuleType.datWritten
      { leafType ℝ 1 with buckets := [(0, [.leaf 1 2 2]), (1, [.leaf 1 2 2])] } = false ∧
    ModuleType.WriteDat (sampleExtern Real.log Real.exp Real.sqrt) sampleGlobals
        { leafType ℝ 1 with buckets := [(0, [.leaf 1 2 2]), (1, [.leaf 1 2 2])] }
        (sampleFiles ℝ) "c"
      = (leafType ℝ 1).WriteDat (sampleExtern Real.log Real.exp Real.sqrt) sampleGlobals
          (sampleFiles ℝ) "c" := by
  have h1 : (emptyForestType ℝ).WriteRtd sampleGlobals (closedFiles ℝ) "c"
      = .thrown "Internal error: forrest is not a tree" (emptyForestType ℝ) (closedFiles ℝ) :=
    WriteRtd_of_length_ne_one sampleGlobals (emptyForestType ℝ) (closedFiles ℝ) "c" rfl
      (by decide)
  have h2 := (stats_failure_frame (sampleExtern Real.log Real.exp Real.sqrt) sampleGlobals
      (leafType ℝ 1) (closedFiles ℝ) "c").2.1 _ _ _ leaf_one_WriteDat_closed
  exact ⟨h1,
    ((stats_failure_frame (sampleExtern Real.log Real.exp Real.sqrt) sampleGlobals
      (emptyForestType ℝ) (closedFiles ℝ) "c").1 _ _ _ h1).2.1,
    leaf_one_WriteDat_closed, h2.2.1, (h2.2.2.2 sampleGlobals (sampleFiles ℝ) "c").1⟩

/-! ## Names referenced in `.nets` and declared in `.nodes` -/

section NetsNames

variable {K : Type}

theorem CounterMap.get_of_find {cm : CounterMap} {p : Ptr} {v : Int}
    (h : cm.find p = some v) : cm.get p = (v, cm) := by
  unfold CounterMap.get
  rw [h]

/-- After a fresh map was queried with the pairwise distinct blocks of a
list, every block of the list is stored under its position. -/
theorem find_listed_block (bs : List Block) (hnd : (bs.map (fun b => b.addr)).Nodup)
    (b : Block) (hb : b ∈ bs) :
    (CounterMap.fresh.queries (bs.map (fun b => b.addr))).2.find b.addr
      = some (Int.ofNat (bs.indexOf b)) := by
  obtain ⟨hinv, -, -, -, -⟩ :=
    CounterMap.Inv.queries (bs.map (fun b => b.addr)) CounterMap.fresh [] CounterMap.Inv.fresh
  rw [List.nil_append] at hinv
  have hq := CounterMap.queries_fresh_nodup _ hnd
  rw [CounterMap.queries_eq_map _ _ _ (CounterMap.le_rfl _), List.length_map] at hq
  have hi : bs.indexOf b < bs.length := List.indexOf_lt_length.2 hb
  have hbi : bs[bs.indexOf b] = b := List.getElem_indexOf hi
  have e := congrArg (fun l => l[bs.indexOf b]?) hq
  simp only [List.getElem?_map, List.getElem?_eq_getElem hi, hbi, Option.map_some',
    List.getElem?_range hi] at e
  cases hf : (CounterMap.fresh.queries (bs.map (fun b => b.addr))).2.find b.addr with
  | none =>
    exact absurd (List.mem_map.2 ⟨b, hb, rfl⟩) ((hinv.find_none b.addr).1 hf)
  | some v =>
    rw [CounterMap.idOf_of_find hf] at e
    exact e

theorem Net_WriteNets_known (pos : Block → Int) (cm : CounterMap) (sinks : List Terminal)
    (h : ∀ t ∈ sinks, cm.find t.1.addr = some (pos t.1)) :
    Net.WriteNets (K := K) cm sinks = (specSinkLines pos sinks, cm) := by
  induction sinks with
  | nil => rfl
  | cons t tl ih =>
    have h1 := CounterMap.get_of_find (h t (List.mem_cons_self _ _))
    have h2 := ih (fun t' ht' => h t' (List.mem_cons_of_mem _ ht'))
    simp only [Net.WriteNets, h1, h2, specSinkLines, List.map_cons]

theorem InputNet_WriteNets_known (pos : Block → Int) (cm : CounterMap) (pc : Int)
    (n : InputNet) (h : ∀ t ∈ n.sinks, cm.find t.1.addr = some (pos t.1)) :
    InputNet.WriteNets (K := K) n ⟨cm, pc⟩ = (specInputRecord pos (pc + 1) n, ⟨cm, pc + 1⟩) := by
  simp only [InputNet.WriteNets, Net_WriteNets_known pos cm n.sinks h, specInputRecord]

theorem OutputNet_WriteNets_external_known (pos : Block → Int) (cm : CounterMap) (pc : Int)
    (n : OutputNet) (hs : cm.find n.source.1.addr = some (pos n.source.1))
    (h : ∀ t ∈ n.sinks, cm.find t.1.addr = some (pos t.1)) :
    OutputNet.WriteNets (K := K) true n ⟨cm, pc⟩
      = (specExternalRecord pos (pc + 1) n, ⟨cm, pc + 1⟩) := by
  simp only [OutputNet.WriteNets, CounterMap.get_of_find hs,
    Net_WriteNets_known pos cm n.sinks h, specExternalRecord, if_true]

theorem OutputNet_WriteNets_internal_known (pos : Block → Int) (cm : CounterMap) (pc : Int)
    (n : OutputNet) (hs : cm.find n.source.1.addr = some (pos n.source.1))
    (h : ∀ t ∈ n.sinks, cm.find t.1.addr = some (pos t.1)) :
    OutputNet.WriteNets (K := K) false n ⟨cm, pc⟩
      = (specInternalRecord pos n, ⟨cm, pc⟩) := by
  simp only [OutputNet.WriteNets, CounterMap.get_of_find hs,
    Net_WriteNets_known pos cm n.sinks h, specInternalRecord, Bool.false_eq_true, if_false]

/-- A loop over nets that each take the next pad and leave the map as it is. -/
theorem writeAll_padded {α : Type} (f : α → NetState → List (Line K) × NetState)
    (cm : CounterMap) (record : Int → α → List (Line K)) (good : α → Prop)
    (h : ∀ a pc, good a → f a ⟨cm, pc⟩ = (record (pc + 1) a, ⟨cm, pc + 1⟩)) (l : List α) :
    (∀ a ∈ l, good a) → ∀ s : Nat, writeAll f l ⟨cm, Int.ofNat s⟩
      = ((List.zipWith (fun a k => record (Int.ofNat k) a) l
            (List.range' (s + 1) l.length)).flatten,
          ⟨cm, Int.ofNat (s + l.length)⟩) := by
  induction l with
  | nil => intro _ s; rfl
  | cons a tl ih =>
    intro hg s
    have h1 := h a (Int.ofNat s) (hg a (List.mem_cons_self _ _))
    have h2 := ih (fun a' ha' => hg a' (List.mem_cons_of_mem _ ha')) (s + 1)
    have e : Int.ofNat s + 1 = Int.ofNat (s + 1) := rfl
    rw [e] at h1
    simp only [writeAll, h1, h2, List.length_cons, List.range'_succ, List.zipWith_cons_cons,
      List.flatten_cons]
    congr 3
    omega

/-- A loop over nets that take no pad and leave the map as it is. -/
theorem writeAll_unpadded {α : Type} (f : α → NetState → List (Line K) × NetState)
    (cm : CounterMap) (record : α → List (Line K)) (good : α → Prop)
    (h : ∀ a pc, good a → f a ⟨cm, pc⟩ = (record a, ⟨cm, pc⟩)) (l : List α) :
    (∀ a ∈ l, good a) → ∀ pc : Int, writeAll f l ⟨cm, pc⟩
      = ((l.map record).flatten, ⟨cm, pc⟩) := by
  induction l with
  | nil => intro _ pc; rfl
  | cons a tl ih =>
    intro hg pc
    have h1 := h a pc (hg a (List.mem_cons_self _ _))
    have h2 := ih (fun a' ha' => hg a' (List.mem_cons_of_mem _ ha')) pc
    simp only [writeAll, h1, h2, List.map_cons, List.flatten_cons]

theorem mem_zipWith_elim {α β γ : Type} (f : α → β → γ) (x : γ) :
    ∀ (l1 : List α) (l2 : List β), x ∈ List.zipWith f l1 l2 →
      ∃ a ∈ l1, ∃ b ∈ l2, x = f a b
  | [], _, h => by simp at h
  | _ :: _, [], h => by simp at h
  | a :: l1, b :: l2, h => by
    rw [List.zipWith_cons_cons, List.mem_cons] at h
    rcases h with h | h
    · exact ⟨a, List.mem_cons_self _ _, b, List.mem_cons_self _ _, h⟩
    · obtain ⟨a', ha', b', hb', e⟩ := mem_zipWith_elim f x l1 l2 h
      exact ⟨a', List.mem_cons_of_mem _ ha', b', List.mem_cons_of_mem _ hb', e⟩

/-- What the lines of the records of the specification are. -/
theorem mem_specNetsRecords (m : Module) (pos : Block → Int) (l : Line K)
    (h : l ∈ (m.specNetsRecords (K := K) pos).flatten) :
    (∃ d : Int, l = [.str "NetDegree : ", .int d]) ∨
    (∃ (k : Nat) (mk : String), 1 ≤ k ∧ k ≤ m.inputs.length + m.outputs.length ∧
      l = [.str "pad_", .int (Int.ofNat k), .str mk]) ∨
    (∃ (t : Terminal) (mk : String), (t ∈ m.allSinks ∨ t ∈ m.allSources) ∧
      l = [.str t.1.cell.Name, .str "_", .int (pos t.1), .str mk]) := by
  obtain ⟨r, hr, hl⟩ := List.mem_flatten.1 h
  unfold Module.specNetsRecords at hr
  have sink : ∀ sinks : List Terminal, (∀ t ∈ sinks, t ∈ m.allSinks) →
      l ∈ specSinkLines (K := K) pos sinks →
      ∃ (t : Terminal) (mk : String), (t ∈ m.allSinks ∨ t ∈ m.allSources) ∧
        l = [.str t.1.cell.Name, .str "_", .int (pos t.1), .str mk] := by
    intro sinks hs hm
    obtain ⟨t, ht, e⟩ := List.mem_map.1 hm
    exact ⟨t, " I", Or.inl (hs t ht), e.symm⟩
  rcases List.mem_append.1 hr with hr | hr
  · rcases List.mem_append.1 hr with hr | hr
    · obtain ⟨n, hn, k, hk, e⟩ := mem_zipWith_elim _ _ _ _ hr
      rw [List.mem_range'_1] at hk
      subst e
      simp only [specInputRecord, List.mem_cons] at hl
      rcases hl with hl | hl | hl
      · exact Or.inl ⟨_, hl⟩
      · exact Or.inr (Or.inl ⟨k, " O", hk.1, by omega, hl⟩)
      · refine Or.inr (Or.inr (sink n.sinks ?_ hl))
        intro t ht
        unfold Module.allSinks
        exact List.mem_append_left _ (List.mem_flatMap.2 ⟨n, hn, ht⟩)
    · obtain ⟨n, hn, k, hk, e⟩ := mem_zipWith_elim _ _ _ _ hr
      rw [List.mem_range'_1] at hk
      subst e
      simp only [specExternalRecord, List.mem_cons] at hl
      rcases hl with hl | hl | hl | hl
      · exact Or.inl ⟨_, hl⟩
      · refine Or.inr (Or.inr ⟨n.source, " O", Or.inr ?_, hl⟩)
        unfold Module.allSources
        exact List.mem_append_left _ (List.mem_map.2 ⟨n, hn, rfl⟩)
      · exact Or.inr (Or.inl ⟨k, " I", by omega, by omega, hl⟩)
      · refine Or.inr (Or.inr (sink n.sinks ?_ hl))
        intro t ht
        unfold Module.allSinks
        exact List.mem_append_right _
          (List.mem_append_left _ (List.mem_flatMap.2 ⟨n, hn, ht⟩))
  · obtain ⟨n, hn, e⟩ := List.mem_map.1 hr
    subst e
    simp only [specInternalRecord, List.mem_cons] at hl
    rcases hl with hl | hl | hl
    · exact Or.inl ⟨_, hl⟩
    · refine Or.inr (Or.inr ⟨n.source, " O", Or.inr ?_, hl⟩)
      unfold Module.allSources
      exact List.mem_append_right _ (List.mem_map.2 ⟨n, hn, rfl⟩)
    · refine Or.inr (Or.inr (sink n.sinks ?_ hl))
      intro t ht
      unfold Module.allSinks
      exact List.mem_append_right _
        (List.mem_append_right _ (List.mem_flatMap.2 ⟨n, hn, ht⟩))

/-- The block declarations of the `.nodes` file for pairwise distinct blocks:
every block under its cell name and its position. -/
theorem nodesBlockLines_positions (bs : List Block)
    (hnd : (bs.map (fun b => b.addr)).Nodup) :
    (nodesBlockLines (K := K) CounterMap.fresh bs).1
      = List.zipWith (fun b i => [.str b.cell.Name, .str "_", .int (Int.ofNat i)]) bs
          (List.range bs.length) := by
  rw [(nodesBlockLines_eq bs CounterMap.fresh).1, CounterMap.queries_fresh_nodup _ hnd,
    List.length_map, List.zipWith_map_right]

theorem mem_nodesBlockLines (bs : List Block) (hnd : (bs.map (fun b => b.addr)).Nodup)
    (b : Block) (hb : b ∈ bs) :
    [.str b.cell.Name, .str "_", .int (Int.ofNat (bs.indexOf b))]
      ∈ (nodesBlockLines (K := K) CounterMap.fresh bs).1 := by
  rw [nodesBlockLines_positions bs hnd]
  have hi : bs.indexOf b < bs.length := List.indexOf_lt_length.2 hb
  have hbi : bs[bs.indexOf b] = b := List.getElem_indexOf hi
  rw [List.mem_iff_getElem]
  refine ⟨bs.indexOf b, by simpa using hi, ?_⟩
  simp [hbi]

/-- The net records of a well-formed module, written with the map left by
the `.nodes` pass: the records of the specification, with the map unchanged
and every input and external output pad used. -/
theorem netsBody_known (m : Module) (hnd : (m.blocks.map (fun b => b.addr)).Nodup)
    (hsinks : ∀ t ∈ m.allSinks, t.1 ∈ m.blocks)
    (hsrc : ∀ t ∈ m.allSources, t.1 ∈ m.blocks) :
    m.netsBody (K := K) (nodesBlockLines (K := K) CounterMap.fresh m.blocks).2
      = ((m.specNetsRecords m.blockPos).flatten,
          ⟨(nodesBlockLines (K := K) CounterMap.fresh m.blocks).2,
            Int.ofNat (m.inputs.length + m.outputs.length)⟩) := by
  rw [(nodesBlockLines_eq m.blocks CounterMap.fresh).2]
  have hf : ∀ b ∈ m.blocks,
      (CounterMap.fresh.queries (m.blocks.map (fun b => b.addr))).2.find b.addr
        = some (m.blockPos b) := fun b hb => find_listed_block m.blocks hnd b hb
  have h1 := writeAll_padded (K := K) InputNet.WriteNets
    (CounterMap.fresh.queries (m.blocks.map (fun b => b.addr))).2
    (specInputRecord m.blockPos) (fun n => ∀ t ∈ n.sinks, t ∈ m.allSinks)
    (fun n pc hg => InputNet_WriteNets_known m.blockPos _ pc n
      (fun t ht => hf t.1 (hsinks t (hg t ht))))
    m.inputs
    (fun n hn t ht => List.mem_append_left _ (List.mem_flatMap.2 ⟨n, hn, ht⟩)) 0
  have h2 := writeAll_padded (K := K) (OutputNet.WriteNets true)
    (CounterMap.fresh.queries (m.blocks.map (fun b => b.addr))).2
    (specExternalRecord m.blockPos)
    (fun n => n.source ∈ m.allSources ∧ ∀ t ∈ n.sinks, t ∈ m.allSinks)
    (fun n pc hg => OutputNet_WriteNets_external_known m.blockPos _ pc n
      (hf n.source.1 (hsrc n.source hg.1)) (fun t ht => hf t.1 (hsinks t (hg.2 t ht))))
    m.outputs
    (fun n hn => ⟨List.mem_append_left _ (List.mem_map.2 ⟨n, hn, rfl⟩),
      fun t ht => List.mem_append_right _
        (List.mem_append_left _ (List.mem_flatMap.2 ⟨n, hn, ht⟩))⟩)
    (0 + m.inputs.length)
  have h3 := writeAll_unpadded (K := K) (OutputNet.WriteNets false)
    (CounterMap.fresh.queries (m.blocks.map (fun b => b.addr))).2
    (specInternalRecord m.blockPos)
    (fun n => n.source ∈ m.allSources ∧ ∀ t ∈ n.sinks, t ∈ m.allSinks)
    (fun n pc hg => OutputNet_WriteNets_internal_known m.blockPos _ pc n
      (hf n.source.1 (hsrc n.source hg.1)) (fun t ht => hf t.1 (hsinks t (hg.2 t ht))))
    m.internalNets
    (fun n hn => ⟨List.mem_append_right _ (List.mem_map.2 ⟨n, hn, rfl⟩),
      fun t ht => List.mem_append_right _
        (List.mem_append_right _ (List.mem_flatMap.2 ⟨n, hn, ht⟩))⟩)
    (Int.ofNat (0 + m.inputs.length + m.outputs.length))
  simp only [Nat.zero_add] at h1 h2 h3
  have h1' : writeAll (K := K) InputNet.WriteNets m.inputs
      ⟨(CounterMap.fresh.queries (m.blocks.map (fun b => b.addr))).2, 0⟩ = _ := h1
  unfold Module.netsBody
  simp only [h1', h2, h3, Module.specNetsRecords, List.flatten_append]

end NetsNames
/-! ## The area column of the summary artifact -/

section AreaColumn

variable {K : Type} [LinearOrderedField K]

theorem Line.area_targetOnlyLine (t : Int) (tg : Target K) :
    Line.area (targetOnlyLine t tg) = some (t : K) := rfl

theorem Line.area_bucketLine (a : Actual K) (tg : Target K) :
    Line.area (bucketLine a tg) = some a.B := rfl

omit [LinearOrderedField K] in
theorem areaColumn_append (L1 L2 : List (Line K)) :
    areaColumn (L1 ++ L2) = areaColumn L1 ++ areaColumn L2 := by
  simp [areaColumn, List.filterMap_append]

theorem areaColumn_targetOnly (seg : IntMap (Region K)) :
    areaColumn (seg.map (fun e => targetOnlyLine e.1 e.2.target))
      = seg.map (fun e => (e.1 : K)) := by
  induction seg with
  | nil => rfl
  | cons e tl ih =>
    unfold areaColumn at ih ⊢
    rw [List.map_cons, List.filterMap_cons, Line.area_targetOnlyLine, ih, List.map_cons]

/-- The area column of the rows of a plan: for every bucket the thresholds
of its target-only rows, then its mean area. -/
theorem areaColumn_datRows (x : Extern K)
    (rows : List ((IntMap (Region K) × Target K) × (Int × List TreeNode))) :
    areaColumn (datRows x rows)
      = rows.flatMap (fun p => p.1.1.map (fun e => (e.1 : K)) ++ [(bucketActual x p.2.2).B]) := by
  induction rows with
  | nil => rfl
  | cons p tl ih =>
    obtain ⟨⟨seg, tg⟩, bi⟩ := p
    simp only [datRows, List.flatMap_cons]
    rw [areaColumn_append, areaColumn_targetOnly]
    have e : areaColumn (bucketLine (bucketActual x bi.2) tg :: datRows x tl)
        = (bucketActual x bi.2).B :: areaColumn (datRows x tl) := by
      unfold areaColumn
      rw [List.filterMap_cons, Line.area_bucketLine]
    rw [e, ih]
    simp

/-- Where the region loop leaves the cursor: every region from the cursor on
has a threshold of at least `1.0001 * B`, or lies above a region that is not
below `0.999 * B`. -/
theorem regionLoop_cursor (gm : Target K) (B : K) (rs : IntMap (Region K))
    (hs : IntMap.Sorted rs) :
    ∀ res, regionLoop gm B rs = some res →
      ∀ e ∈ res.2.2, B * 1.0001 ≤ (e.1 : K) ∨ B * 0.999 + 1 ≤ (e.1 : K) := by
  induction rs with
  | nil =>
    intro res h
    simp only [regionLoop, Option.some.injEq] at h
    subst h
    simp
  | cons hd tl ih =>
    obtain ⟨t, r⟩ := hd
    unfold IntMap.Sorted at hs ih
    rw [List.pairwise_cons] at hs
    intro res h
    simp only [regionLoop] at h
    by_cases h1 : (t : K) < B * 1.0001
    · by_cases h2 : (t : K) < B * 0.999
      · rw [if_pos h1, if_pos h2] at h
        cases hr : regionLoop gm B tl with
        | none => rw [hr] at h; cases h
        | some res' =>
          rw [hr, Option.map_some'] at h
          cases h
          exact ih hs.2 res' hr
      · rw [if_pos h1, if_neg h2] at h
        cases h
        intro e he
        right
        have hlt : t < e.1 := hs.1 e he
        have hle : ((t + 1 : Int) : K) ≤ (e.1 : K) := by exact_mod_cast hlt
        push_cast at hle
        linarith [not_lt.1 h2]
    · by_cases h2 : (t : K) < B * 0.999
      · rw [if_neg h1, if_pos h2] at h
        cases h
      · rw [if_neg h1, if_neg h2] at h
        cases h
        intro e he
        left
        rcases List.mem_cons.1 he with he | he
        · rw [he]; exact not_lt.1 h1
        · have hlt : t < e.1 := hs.1 e he
          have hle : (t : K) ≤ (e.1 : K) := by exact_mod_cast hlt.le
          exact le_trans (not_lt.1 h1) hle

/-- The rows of the bucket loop over a sorted region table: the plan of
`datLines_plan`, in which every target-only row lies below `0.999` times the
mean area of its bucket, and above the tolerance of every earlier bucket. -/
theorem datLines_rows (x : Extern K) (s : ModuleType K) (buckets : IntMap (List TreeNode)) :
    ∀ (ri : IntMap (Region K)) (L : List (Line K)), IntMap.Sorted ri →
      datLines x s buckets ri = some L →
      ∃ plan : List (IntMap (Region K) × Target K),
        plan.length = buckets.length ∧
        List.Sublist (plan.map Prod.fst).flatten ri ∧
        L = datRows x (plan.zip buckets) ∧
        (∀ p ∈ plan.zip buckets, ∀ e ∈ p.1.1,
          (e.1 : K) < (bucketActual x p.2.2).B * 0.999) ∧
        List.Pairwise (fun p q => ∀ e ∈ q.1.1,
            (bucketActual x p.2.2).B * 1.0001 ≤ (e.1 : K) ∨
            (bucketActual x p.2.2).B * 0.999 + 1 ≤ (e.1 : K))
          (plan.zip buckets) := by
  induction buckets with
  | nil =>
    intro ri L _ h
    simp only [datLines, Option.some.injEq] at h
    subst h
    exact ⟨[], rfl, by simp, rfl, by simp, by simp⟩
  | cons bi more ih =>
    intro ri L hsorted h
    cases hr : regionLoop (Extern.GetMeanIO x s (bucketActual x bi.2).B) (bucketActual x bi.2).B ri with
    | none => simp [datLines, hr] at h
    | some res =>
      rw [datLines_cons x s bi more ri res hr] at h
      cases hm : datLines x s more res.2.2 with
      | none => rw [hm] at h; cases h
      | some L' =>
        rw [hm, Option.map_some', Option.some.injEq] at h
        obtain ⟨h1, h2⟩ := regionLoop_some _ _ ri res hr
        have hsub : List.Sublist res.2.2 ri :=
          (h2.trans (List.dropWhile_suffix _)).sublist
        have hsorted' : IntMap.Sorted res.2.2 := List.Pairwise.sublist hsub hsorted
        obtain ⟨plan, hlen, hsubp, hL, hbelow, hpair⟩ := ih res.2.2 L' hsorted' hm
        have hcur := regionLoop_cursor _ _ ri hsorted res hr
        refine ⟨(ri.takeWhile (fun e => decide ((e.1 : K) < (bucketActual x bi.2).B * 0.999)),
          res.2.1) :: plan, by simp [hlen], ?_, ?_, ?_, ?_⟩
        · simp only [List.map_cons, List.flatten_cons]
          have hd := List.Sublist.append (List.Sublist.refl (ri.takeWhile
            (fun e => decide ((e.1 : K) < (bucketActual x bi.2).B * 0.999))))
            (hsubp.trans h2.sublist)
          rwa [List.takeWhile_append_dropWhile] at hd
        · rw [← h, hL, h1]
          rfl
        · intro p hp e he
          rw [List.zip_cons_cons, List.mem_cons] at hp
          rcases hp with hp | hp
          · subst hp
            have := List.mem_takeWhile_imp he
            simpa using this
          · exact hbelow p hp e he
        · rw [List.zip_cons_cons, List.pairwise_cons]
          refine ⟨?_, hpair⟩
          intro q hq e he
          obtain ⟨⟨seg, tg⟩, bq⟩ := q
          have hq1 : (seg, tg) ∈ plan := (List.of_mem_zip hq).1
          have hmem : e ∈ (plan.map Prod.fst).flatten :=
            List.mem_flatten.2 ⟨seg, List.mem_map.2 ⟨(seg, tg), hq1, rfl⟩, he⟩
          exact hcur e (hsubp.subset hmem)

end AreaColumn
/-! ## A sample run with two regions inside the tolerance of a bucket -/

theorem FileSys.read_write_self {K : Type} (fs : FileSys K) (f : String)
    (lines : List (Line K)) : (fs.write f lines).read f = some lines := by
  simp [FileSys.read, FileSys.write]

theorem areaColumn_statHeader {K : Type} (g : Globals) (kind name : String) (L : List (Line K)) :
    areaColumn (statHeader g kind name ++ datColumns ++ L) = areaColumn L := by
  rw [areaColumn_append, areaColumn_append]
  rfl

theorem toleranceType_buckets :
    (toleranceType ℝ).FillBuckets Real.log
      = .ok { toleranceType ℝ with buckets :=
          [(12, [.leaf 3000 2 2, .leaf 3000 2 2]),
           (13, [.compound 6000 4 4 (.leaf 3000 2 2) (.leaf 3000 2 2)]),
           (14, [.compound 6000 4 4 (.leaf 3000 2 2) (.leaf 3000 2 2)])] } := by
  have e1 : bucketIndex Real.log 3000 = 12 := by
    simpa using bucketIndex_real_eq 3000 12 (by norm_num) (by norm_num) (by norm_num)
  have e2 : bucketIndex Real.log 6000 = 13 := by
    simpa using bucketIndex_real_eq 6000 13 (by norm_num) (by norm_num) (by norm_num)
  simp [ModuleType.FillBuckets, toleranceType, TreeNode.FillBucketsWithTree, e1, e2,
    IntMap.modify, lastKey]

theorem tolerance_B_leaves :
    (bucketActual (sampleExtern Real.log Real.exp Real.sqrt)
      [.leaf 3000 2 2, .leaf 3000 2 2]).B = 3000 := by
  rw [bucketActual_B]
  have h : (0 + Real.log 3000 + Real.log 3000) / 2 = Real.log 3000 := by ring
  simp [sampleExtern, TreeNode.Size, h, Real.exp_log]

theorem tolerance_B_root :
    (bucketActual (sampleExtern Real.log Real.exp Real.sqrt)
      [.compound 6000 4 4 (.leaf 3000 2 2) (.leaf 3000 2 2)]).B = 6000 := by
  rw [bucketActual_B]
  simp [sampleExtern, TreeNode.Size, Real.exp_log]

/-- The rows of the sample: the row of the bucket of the leaves (area 3000,
with the region at 2998 adopted), a target-only row for the region at 2999,
and the two rows of the root (area 6000). -/
theorem tolerance_datLines (s : ModuleType ℝ) :
    datLines (sampleExtern Real.log Real.exp Real.sqrt) s
        [(12, [.leaf 3000 2 2, .leaf 3000 2 2]),
         (13, [.compound 6000 4 4 (.leaf 3000 2 2) (.leaf 3000 2 2)]),
         (14, [.compound 6000 4 4 (.leaf 3000 2 2) (.leaf 3000 2 2)])]
        [(2998, sampleRegion ℝ), (2999, sampleRegion ℝ)]
      = some
        [bucketLine (bucketActual (sampleExtern Real.log Real.exp Real.sqrt)
            [.leaf 3000 2 2, .leaf 3000 2 2]) (sampleRegion ℝ).target,
         targetOnlyLine 2999 (sampleRegion ℝ).target,
         bucketLine (bucketActual (sampleExtern Real.log Real.exp Real.sqrt)
            [.compound 6000 4 4 (.leaf 3000 2 2) (.leaf 3000 2 2)]) ⟨6000, 6000, 6000, 6000, 6000, 6000⟩,
         bucketLine (bucketActual (sampleExtern Real.log Real.exp Real.sqrt)
            [.compound 6000 4 4 (.leaf 3000 2 2) (.leaf 3000 2 2)]) ⟨6000, 6000, 6000, 6000, 6000, 6000⟩] := by
  have h1 : regionLoop
      (Extern.GetMeanIO (sampleExtern Real.log Real.exp Real.sqrt) s
        (bucketActual (sampleExtern Real.log Real.exp Real.sqrt)
          [.leaf 3000 2 2, .leaf 3000 2 2]).B)
      (bucketActual (sampleExtern Real.log Real.exp Real.sqrt)
        [.leaf 3000 2 2, .leaf 3000 2 2]).B
      [(2998, sampleRegion ℝ), (2999, sampleRegion ℝ)]
      = some ([], (sampleRegion ℝ).target, [(2999, sampleRegion ℝ)]) := by
    apply regionLoop_adopt
    · rw [tolerance_B_leaves]; norm_num
    · rw [tolerance_B_leaves]; norm_num
  have h2 : regionLoop
      (Extern.GetMeanIO (sampleExtern Real.log Real.exp Real.sqrt) s
        (bucketActual (sampleExtern Real.log Real.exp Real.sqrt)
          [.compound 6000 4 4 (.leaf 3000 2 2) (.leaf 3000 2 2)]).B)
      (bucketActual (sampleExtern Real.log Real.exp Real.sqrt)
        [.compound 6000 4 4 (.leaf 3000 2 2) (.leaf 3000 2 2)]).B
      [(2999, sampleRegion ℝ)]
      = some ([targetOnlyLine 2999 (sampleRegion ℝ).target],
          ⟨6000, 6000, 6000, 6000, 6000, 6000⟩, []) := by
    rw [tolerance_B_root]
    simp only [regionLoop, sampleExtern]
    norm_num
  have h3 : regionLoop
      (Extern.GetMeanIO (sampleExtern Real.log Real.exp Real.sqrt) s
        (bucketActual (sampleExtern Real.log Real.exp Real.sqrt)
          [.compound 6000 4 4 (.leaf 3000 2 2) (.leaf 3000 2 2)]).B)
      (bucketActual (sampleExtern Real.log Real.exp Real.sqrt)
        [.compound 6000 4 4 (.leaf 3000 2 2) (.leaf 3000 2 2)]).B
      []
      = some ([], ⟨6000, 6000, 6000, 6000, 6000, 6000⟩, []) := by
    rw [tolerance_B_root]
    simp only [regionLoop, sampleExtern]
  rw [datLines_cons _ _ _ _ _ _ h1, datLines_cons _ _ _ _ _ _ h2, datLines_cons _ _ _ _ _ _ h3]
  simp [datLines]

/-- The whole `WriteDat` run on the sample. -/
theorem tolerance_WriteDat :
    (toleranceType ℝ).WriteDat (sampleExtern Real.log Real.exp Real.sqrt) sampleGlobals
        (sampleFiles ℝ) "c"
      = .done { toleranceType ℝ with
            buckets :=
              [(12, [.leaf 3000 2 2, .leaf 3000 2 2]),
               (13, [.compound 6000 4 4 (.leaf 3000 2 2) (.leaf 3000 2 2)]),
               (14, [.compound 6000 4 4 (.leaf 3000 2 2) (.leaf 3000 2 2)])],
            datWritten := true }
          ((sampleFiles ℝ).write ("c" ++ ".dat")
            (statHeader sampleGlobals "data" "c" ++ datColumns ++
              [bucketLine (bucketActual (sampleExtern Real.log Real.exp Real.sqrt)
                  [.leaf 3000 2 2, .leaf 3000 2 2]) (sampleRegion ℝ).target,
               targetOnlyLine 2999 (sampleRegion ℝ).target,
               bucketLine (bucketActual (sampleExtern Real.log Real.exp Real.sqrt)
                  [.compound 6000 4 4 (.leaf 3000 2 2) (.leaf 3000 2 2)])
                  ⟨6000, 6000, 6000, 6000, 6000, 6000⟩,
               bucketLine (bucketActual (sampleExtern Real.log Real.exp Real.sqrt)
                  [.compound 6000 4 4 (.leaf 3000 2 2) (.leaf 3000 2 2)])
                  ⟨6000, 6000, 6000, 6000, 6000, 6000⟩])) :=
  WriteDat_run (sampleExtern Real.log Real.exp Real.sqrt) sampleGlobals (toleranceType ℝ) _
    (sampleFiles ℝ) "c" _ rfl toleranceType_buckets rfl (tolerance_datLines _)

/-- The claim C22 fails on the sample: every area is at least 1, the root has
the largest area, the two thresholds ascend; the rows written have the areas
3000, 2999, 6000, 6000, and the second is below the first. -/
theorem dat_area_column_decreases :
    (∀ n ∈ (TreeNode.compound 6000 4 4 (.leaf 3000 2 2) (.leaf 3000 2 2)).nodes,
      1 ≤ n.Size ∧ n.Size ≤ (TreeNode.compound 6000 4 4 (.leaf 3000 2 2) (.leaf 3000 2 2)).Size) ∧
    IntMap.Sorted (toleranceType ℝ).regions ∧
    (((toleranceType ℝ).WriteDat (sampleExtern Real.log Real.exp Real.sqrt) sampleGlobals
        (sampleFiles ℝ) "c").files.bind (fun fs => fs.read ("c" ++ ".dat"))).map areaColumn
      = some [3000, 2999, 6000, 6000] ∧
    ¬ List.Pairwise (fun a b : ℝ => a ≤ b) [3000, 2999, 6000, 6000] := by
  refine ⟨by decide, ?_, ?_, ?_⟩
  · simp [toleranceType, IntMap.Sorted]
  · rw [tolerance_WriteDat]
    simp only [Outcome.files, Option.some_bind, FileSys.read_write_self, Option.map_some',
      areaColumn_statHeader]
    simp [areaColumn, Line.area_bucketLine, Line.area_targetOnlyLine, List.filterMap_cons,
      tolerance_B_leaves, tolerance_B_root]
  · intro h
    rw [List.pairwise_cons] at h
    have := h.1 2999 (by simp)
    norm_num at this

/-! ## The mean areas of the buckets over the reals -/

theorem IntMap.modify_above {V : Type} (d : V) (f : V → V) (k : Int) :
    ∀ m : IntMap V, (∀ e ∈ m, e.1 < k) → IntMap.modify d f k m = m ++ [(k, f d)] := by
  intro m
  induction m with
  | nil => intro _; rfl
  | cons hd tl ih =>
    obtain ⟨k', v⟩ := hd
    intro h
    have h1 : k' < k := h (k', v) (List.mem_cons_self _ _)
    have h2 := ih (fun e he => h e (List.mem_cons_of_mem _ he))
    simp only [IntMap.modify, if_neg (not_lt.2 h1.le), if_neg (ne_of_gt h1), h2,
      List.cons_append]

/-- The cache that `FillBuckets` leaves for a single tree: the buckets of
its nodes by index, followed by one more bucket holding the root. -/
theorem FillBuckets_append_root {K : Type} [LinearOrderedField K] [FloorRing K] (log : K → K)
    (s : ModuleType K) (key : Int) (root : TreeNode) (hs : s.forrest = [(key, root)])
    (hb : s.buckets = []) :
    ∃ b0 : IntMap (List TreeNode), BucketInv log b0 root.nodes ∧
      s.FillBuckets log = .ok { s with buckets := b0 ++ [(lastKey b0 + 1, [root])] } := by
  have h : BucketInv log (root.FillBucketsWithTree log []) root.nodes := by
    simpa using BucketInv.FillBucketsWithTree log root [] [] (BucketInv.empty_cache log)
  refine ⟨root.FillBucketsWithTree log [], h, ?_⟩
  have hlt : ∀ e ∈ root.FillBucketsWithTree log [],
      e.1 < lastKey (root.FillBucketsWithTree log []) + 1 := by
    intro e he
    have hne : root.FillBucketsWithTree log [] ≠ [] := List.ne_nil_of_mem he
    have := (lastKey_spec _ h.sorted hne).2 e he
    omega
  have hm := IntMap.modify_above ([] : List TreeNode) (fun l => l ++ [root])
    (lastKey (root.FillBucketsWithTree log []) + 1) _ hlt
  simp only [List.nil_append] at hm
  simp [ModuleType.FillBuckets, hb, hs, hm]

theorem sum_le_of_forall_le {α : Type} (f : α → ℝ) (b : ℝ) (l : List α)
    (h : ∀ n ∈ l, f n ≤ b) : (l.map f).sum ≤ (l.length : ℝ) * b := by
  induction l with
  | nil => simp
  | cons a tl ih =>
    have h1 := h a (List.mem_cons_self _ _)
    have h2 := ih (fun n hn => h n (List.mem_cons_of_mem _ hn))
    simp only [List.map_cons, List.sum_cons, List.length_cons, Nat.cast_add, Nat.cast_one]
    linarith

theorem le_sum_of_forall_le {α : Type} (f : α → ℝ) (a : ℝ) (l : List α)
    (h : ∀ n ∈ l, a ≤ f n) : (l.length : ℝ) * a ≤ (l.map f).sum := by
  induction l with
  | nil => simp
  | cons a' tl ih =>
    have h1 := h a' (List.mem_cons_self _ _)
    have h2 := ih (fun n hn => h n (List.mem_cons_of_mem _ hn))
    simp only [List.map_cons, List.sum_cons, List.length_cons, Nat.cast_add, Nat.cast_one]
    linarith

theorem sum_lt_of_forall_lt {α : Type} (f : α → ℝ) (b : ℝ) (l : List α) (hne : l ≠ [])
    (h : ∀ n ∈ l, f n < b) : (l.map f).sum < (l.length : ℝ) * b := by
  cases l with
  | nil => exact absurd rfl hne
  | cons a tl =>
    have h1 := h a (List.mem_cons_self _ _)
    have h2 := sum_le_of_forall_le f b tl (fun n hn => (h n (List.mem_cons_of_mem _ hn)).le)
    simp only [List.map_cons, List.sum_cons, List.length_cons, Nat.cast_add, Nat.cast_one]
    linarith

/-- The mean area of a bucket over the reals: `exp` of the mean of the
logarithms of the areas of its members. -/
theorem bucketActual_B_real (x : Extern ℝ) (hlog : x.log = Real.log) (hexp : x.exp = Real.exp)
    (l : List TreeNode) :
    (bucketActual x l).B
      = Real.exp ((l.map (fun n => Real.log (n.Size : ℝ))).sum / (l.length : ℝ)) := by
  rw [bucketActual_B, hlog, hexp, foldl_add_eq_sum]
  simp

/-- The logarithm of an area of at least 1 lies between its bucket index and
the next integer, in units of `log 1.9`. -/
theorem log_between_index (a : Int) (h : 1 ≤ a) :
    (bucketIndex Real.log a : ℝ) * Real.log 1.9 ≤ Real.log (a : ℝ) ∧
    Real.log (a : ℝ) < ((bucketIndex Real.log a : ℝ) + 1) * Real.log 1.9 := by
  rw [bucketIndex_real_floor a h]
  have hc := log_base_pos
  constructor
  · have := Int.floor_le (Real.log (a : ℝ) / Real.log 1.9)
    rwa [le_div_iff₀ hc] at this
  · have := Int.lt_floor_add_one (Real.log (a : ℝ) / Real.log 1.9)
    rwa [div_lt_iff₀ hc] at this

/-- The mean of the logarithms over a bucket whose members all have the index
`k` lies between `k` and `k + 1`, in units of `log 1.9`. -/
theorem mean_log_between (l : List TreeNode) (k : Int) (hne : l ≠ [])
    (h1 : ∀ n ∈ l, 1 ≤ n.Size) (hk : ∀ n ∈ l, bucketIndex Real.log n.Size = k) :
    (k : ℝ) * Real.log 1.9 ≤ (l.map (fun n => Real.log (n.Size : ℝ))).sum / (l.length : ℝ) ∧
    (l.map (fun n => Real.log (n.Size : ℝ))).sum / (l.length : ℝ)
      < ((k : ℝ) + 1) * Real.log 1.9 := by
  have hlen : (0 : ℝ) < (l.length : ℝ) := by
    have : 0 < l.length := List.length_pos.2 hne
    exact_mod_cast this
  constructor
  · rw [le_div_iff₀ hlen, mul_comm]
    apply le_sum_of_forall_le
    intro n hn
    have := (log_between_index n.Size (h1 n hn)).1
    rwa [hk n hn] at this
  · rw [div_lt_iff₀ hlen, mul_comm]
    apply sum_lt_of_forall_lt _ _ _ hne
    intro n hn
    have := (log_between_index n.Size (h1 n hn)).2
    rwa [hk n hn] at this

/-- The mean of the logarithms over a bucket is at most the logarithm of an
upper bound of the areas. -/
theorem mean_log_le (l : List TreeNode) (top : Int) (hne : l ≠ [])
    (h1 : ∀ n ∈ l, 1 ≤ n.Size) (ht : ∀ n ∈ l, n.Size ≤ top) :
    (l.map (fun n => Real.log (n.Size : ℝ))).sum / (l.length : ℝ) ≤ Real.log (top : ℝ) := by
  have hlen : (0 : ℝ) < (l.length : ℝ) := by
    have : 0 < l.length := List.length_pos.2 hne
    exact_mod_cast this
  rw [div_le_iff₀ hlen, mul_comm]
  apply sum_le_of_forall_le
  intro n hn
  have hpos : (0 : ℝ) < (n.Size : ℝ) := by
    have : (1 : ℝ) ≤ (n.Size : ℝ) := by exact_mod_cast h1 n hn
    linarith
  exact Real.log_le_log hpos (by exact_mod_cast ht n hn)

theorem BucketInv.entry {K : Type} [LinearOrderedField K] [FloorRing K] {log : K → K}
    {b : IntMap (List TreeNode)} {ns : List TreeNode} (h : BucketInv log b ns)
    (e : Int × List TreeNode) (he : e ∈ b) :
    e.2 ≠ [] ∧ ∀ n ∈ e.2, n ∈ ns ∧ bucketIndex log n.Size = e.1 := by
  have hf : IntMap.find b e.1 = some e.2 := (IntMap.mem_iff_find b h.sorted e.1 e.2).1 he
  refine ⟨h.nonempty _ _ hf, ?_⟩
  intro n hn
  have hg := h.get e.1
  rw [hf, Option.getD_some] at hg
  rw [hg, List.mem_filter] at hn
  exact ⟨hn.1, by simpa using hn.2⟩

/-- Over the reals, for a tree with all areas at least 1 whose root has the
largest area: the mean areas of the buckets do not decrease along the
cache (the buckets of the nodes in index order, then the bucket of the
root), and each lies between 0 and the area of the root. -/
theorem bucket_areas_real (x : Extern ℝ) (hlog : x.log = Real.log) (hexp : x.exp = Real.exp)
    (root : TreeNode) (h1 : ∀ n ∈ root.nodes, 1 ≤ n.Size)
    (hmax : ∀ n ∈ root.nodes, n.Size ≤ root.Size)
    (b0 : IntMap (List TreeNode)) (hinv : BucketInv Real.log b0 root.nodes) (M : Int) :
    List.Pairwise (fun e e' => (bucketActual x e.2).B ≤ (bucketActual x e'.2).B)
      (b0 ++ [(M, [root])]) ∧
    ∀ e ∈ b0 ++ [(M, [root])],
      0 < (bucketActual x e.2).B ∧ (bucketActual x e.2).B ≤ (root.Size : ℝ) := by
  have hroot1 : (1 : ℝ) ≤ (root.Size : ℝ) := by
    exact_mod_cast h1 root root.self_mem_nodes
  have hrootpos : (0 : ℝ) < (root.Size : ℝ) := by linarith
  have hBroot : (bucketActual x [root]).B = (root.Size : ℝ) := by
    rw [bucketActual_B_real x hlog hexp]
    simp [Real.exp_log hrootpos]
  have hle : ∀ e ∈ b0, (bucketActual x e.2).B ≤ (root.Size : ℝ) := by
    intro e he
    obtain ⟨hne, hm⟩ := hinv.entry e he
    rw [bucketActual_B_real x hlog hexp, ← Real.exp_log hrootpos]
    apply Real.exp_le_exp.2
    exact mean_log_le e.2 root.Size hne (fun n hn => h1 n (hm n hn).1)
      (fun n hn => hmax n (hm n hn).1)
  constructor
  · rw [List.pairwise_append]
    refine ⟨?_, List.pairwise_singleton _ _, ?_⟩
    · refine List.Pairwise.imp_of_mem ?_ hinv.sorted
      intro e e' he he' hlt
      obtain ⟨hne, hm⟩ := hinv.entry e he
      obtain ⟨hne', hm'⟩ := hinv.entry e' he'
      rw [bucketActual_B_real x hlog hexp, bucketActual_B_real x hlog hexp]
      apply Real.exp_le_exp.2
      have b1 := (mean_log_between e.2 e.1 hne (fun n hn => h1 n (hm n hn).1)
        (fun n hn => (hm n hn).2)).2
      have b2 := (mean_log_between e'.2 e'.1 hne' (fun n hn => h1 n (hm' n hn).1)
        (fun n hn => (hm' n hn).2)).1
      have hk : ((e.1 : ℝ) + 1) ≤ (e'.1 : ℝ) := by
        exact_mod_cast Int.add_one_le_iff.2 hlt
      have hc := log_base_pos
      have := mul_le_mul_of_nonneg_right hk hc.le
      linarith
    · intro e he e' he'
      rw [List.mem_singleton] at he'
      subst he'
      rw [hBroot]
      exact hle e he
  · intro e he
    refine ⟨?_, ?_⟩
    · rw [bucketActual_B_real x hlog hexp]
      exact Real.exp_pos _
    · rcases List.mem_append.1 he with he | he
      · exact hle e he
      · rw [List.mem_singleton] at he
        subst he
        exact hBroot.le

/-- The area column is sorted when the mean areas of the buckets do not
decrease and stay between 0 and 1000, along a plan that keeps every
target-only row below its bucket and above the tolerance of the earlier
buckets. -/
theorem areaColumn_sorted (x : Extern ℝ)
    (rows : List ((IntMap (Region ℝ) × Target ℝ) × (Int × List TreeNode)))
    (hseg : ∀ p ∈ rows, IntMap.Sorted p.1.1)
    (hB : List.Pairwise (fun p q => (bucketActual x p.2.2).B ≤ (bucketActual x q.2.2).B) rows)
    (hbound : ∀ p ∈ rows, 0 < (bucketActual x p.2.2).B ∧ (bucketActual x p.2.2).B ≤ 1000)
    (hbelow : ∀ p ∈ rows, ∀ e ∈ p.1.1, (e.1 : ℝ) < (bucketActual x p.2.2).B * 0.999)
    (hcur : List.Pairwise (fun p q => ∀ e ∈ q.1.1,
        (bucketActual x p.2.2).B * 1.0001 ≤ (e.1 : ℝ) ∨
        (bucketActual x p.2.2).B * 0.999 + 1 ≤ (e.1 : ℝ)) rows) :
    List.Pairwise (fun a b : ℝ => a ≤ b) (areaColumn (datRows x rows)) := by
  rw [areaColumn_datRows, List.pairwise_flatMap]
  have hup : ∀ p ∈ rows, ∀ a ∈ p.1.1.map (fun e => (e.1 : ℝ)) ++ [(bucketActual x p.2.2).B],
      a ≤ (bucketActual x p.2.2).B := by
    intro p hp a ha
    rcases List.mem_append.1 ha with ha | ha
    · obtain ⟨e, he, rfl⟩ := List.mem_map.1 ha
      have := hbelow p hp e he
      have hpos := (hbound p hp).1
      nlinarith
    · rw [List.mem_singleton] at ha
      exact ha.le
  constructor
  · intro p hp
    rw [List.pairwise_append]
    refine ⟨?_, List.pairwise_singleton _ _, ?_⟩
    · rw [List.pairwise_map]
      refine List.Pairwise.imp ?_ (hseg p hp)
      intro e e' hlt
      exact_mod_cast hlt.le
    · intro a ha b hb
      rw [List.mem_singleton] at hb
      subst hb
      exact hup p hp a (List.mem_append_left _ ha)
  · refine List.Pairwise.imp_of_mem ?_ (hB.and hcur)
    intro p q hp hq hpq a ha b hb
    obtain ⟨h1, h2⟩ := hpq
    have ha' := hup p hp a ha
    obtain ⟨hpos, h1000⟩ := hbound p hp
    rcases List.mem_append.1 hb with hb | hb
    · obtain ⟨e, he, rfl⟩ := List.mem_map.1 hb
      rcases h2 e he with h | h
      · nlinarith
      · linarith
    · rw [List.mem_singleton] at hb
      subst hb
      linarith

/-- C22, as amended. Over the reals, for a single tree with all areas at
least 1 whose root has the largest area, and a region table sorted by
threshold, `WriteDat` writes for every bucket a run of target-only rows
followed by the row of the bucket, and in the area column: the areas of the
bucket rows do not decrease; the areas of the target-only rows increase
strictly; every target-only row lies below 0.999 times the area of the row
of its bucket; and a target-only row that comes after the row of a bucket of
area `B` has an area of at least `1.0001 * B` or at least `0.999 * B + 1`, so
it can lie below `B` when `B > 1000`. When the area of the root is at most
1000 the whole area column is non-decreasing. -/
theorem dat_area_column (gm : ModuleType ℝ → ℝ → Target ℝ)
    (gio : ModuleType ℝ → Int → Int × Int) (g : Globals) (s : ModuleType ℝ) (fs : FileSys ℝ)
    (name : String) (key : Int) (root : TreeNode)
    (hd : s.datWritten = false) (hb : s.buckets = []) (hs : s.forrest = [(key, root)])
    (h1 : ∀ n ∈ root.nodes, 1 ≤ n.Size) (hmax : ∀ n ∈ root.nodes, n.Size ≤ root.Size)
    (hr : IntMap.Sorted s.regions) (ho : fs.canOpen (name ++ ".dat") = true) :
    ∃ (s1 : ModuleType ℝ) (plan : List (IntMap (Region ℝ) × Target ℝ)),
      s.FillBuckets Real.log = .ok s1 ∧ plan.length = s1.buckets.length ∧
      s.WriteDat (Extern.mk Real.log Real.exp Real.sqrt gm gio) g fs name
        = .done { s1 with datWritten := true }
          (fs.write (name ++ ".dat") (statHeader g "data" name ++ datColumns ++
            datRows (Extern.mk Real.log Real.exp Real.sqrt gm gio) (plan.zip s1.buckets))) ∧
      areaColumn (datRows (Extern.mk Real.log Real.exp Real.sqrt gm gio) (plan.zip s1.buckets))
        = (plan.zip s1.buckets).flatMap (fun p => p.1.1.map (fun e => (e.1 : ℝ))
            ++ [(bucketActual (Extern.mk Real.log Real.exp Real.sqrt gm gio) p.2.2).B]) ∧
      List.Pairwise (fun p q =>
          (bucketActual (Extern.mk Real.log Real.exp Real.sqrt gm gio) p.2.2).B
            ≤ (bucketActual (Extern.mk Real.log Real.exp Real.sqrt gm gio) q.2.2).B)
        (plan.zip s1.buckets) ∧
      List.Pairwise (fun a b : Int => a < b)
        ((plan.zip s1.buckets).flatMap (fun p => p.1.1.map Prod.fst)) ∧
      (∀ p ∈ plan.zip s1.buckets, ∀ e ∈ p.1.1, (e.1 : ℝ)
        < (bucketActual (Extern.mk Real.log Real.exp Real.sqrt gm gio) p.2.2).B * 0.999) ∧
      List.Pairwise (fun p q => ∀ e ∈ q.1.1,
          (bucketActual (Extern.mk Real.log Real.exp Real.sqrt gm gio) p.2.2).B * 1.0001
            ≤ (e.1 : ℝ) ∨
          (bucketActual (Extern.mk Real.log Real.exp Real.sqrt gm gio) p.2.2).B * 0.999 + 1
            ≤ (e.1 : ℝ))
        (plan.zip s1.buckets) ∧
      (root.Size ≤ 1000 → List.Pairwise (fun a b : ℝ => a ≤ b)
        (areaColumn (datRows (Extern.mk Real.log Real.exp Real.sqrt gm gio)
          (plan.zip s1.buckets)))) := by
  obtain ⟨b0, hinv, hF⟩ := FillBuckets_append_root Real.log s key root hs hb
  obtain ⟨L, hL⟩ := datLines_isSome (Extern.mk Real.log Real.exp Real.sqrt gm gio)
    { s with buckets := b0 ++ [(lastKey b0 + 1, [root])] } (fun v => Real.exp_pos v)
    (b0 ++ [(lastKey b0 + 1, [root])]) s.regions
  obtain ⟨plan, hlen, hsub, hrows, hbelow, hcur⟩ := datLines_rows
    (Extern.mk Real.log Real.exp Real.sqrt gm gio)
    { s with buckets := b0 ++ [(lastKey b0 + 1, [root])] }
    (b0 ++ [(lastKey b0 + 1, [root])]) s.regions L hr hL
  obtain ⟨hpw, hbnd⟩ := bucket_areas_real (Extern.mk Real.log Real.exp Real.sqrt gm gio)
    rfl rfl root h1 hmax b0 hinv (lastKey b0 + 1)
  have hsnd : (plan.zip (b0 ++ [(lastKey b0 + 1, [root])])).map Prod.snd
      = b0 ++ [(lastKey b0 + 1, [root])] := List.map_snd_zip _ _ (le_of_eq hlen.symm)
  have hfst : (plan.zip (b0 ++ [(lastKey b0 + 1, [root])])).map Prod.fst = plan :=
    List.map_fst_zip _ _ (le_of_eq hlen)
  have hpw' : List.Pairwise (fun p q =>
      (bucketActual (Extern.mk Real.log Real.exp Real.sqrt gm gio) p.2.2).B
        ≤ (bucketActual (Extern.mk Real.log Real.exp Real.sqrt gm gio) q.2.2).B)
      (plan.zip (b0 ++ [(lastKey b0 + 1, [root])])) := by
    rw [← hsnd, List.pairwise_map] at hpw
    exact hpw
  have hsegsub : ∀ p ∈ plan.zip (b0 ++ [(lastKey b0 + 1, [root])]),
      List.Sublist p.1.1 s.regions := by
    intro p hp
    obtain ⟨⟨seg, tg⟩, bq⟩ := p
    have hq1 : (seg, tg) ∈ plan := (List.of_mem_zip hp).1
    exact (List.sublist_flatten_of_mem (List.mem_map.2 ⟨(seg, tg), hq1, rfl⟩)).trans hsub
  have hthr : List.Pairwise (fun a b : Int => a < b)
      ((plan.zip (b0 ++ [(lastKey b0 + 1, [root])])).flatMap
        (fun p => p.1.1.map Prod.fst)) := by
    have e : (plan.zip (b0 ++ [(lastKey b0 + 1, [root])])).flatMap
        (fun p => p.1.1.map Prod.fst)
        = ((plan.map Prod.fst).flatten).map Prod.fst := by
      conv_rhs => rw [← hfst]
      simp [List.flatMap_def, List.map_flatten, List.map_map, Function.comp_def]
    rw [e]
    have hr' : List.Pairwise (fun a b : Int => a < b) (s.regions.map Prod.fst) := by
      rw [List.pairwise_map]
      exact hr
    exact List.Pairwise.sublist (hsub.map Prod.fst) hr'
  refine ⟨{ s with buckets := b0 ++ [(lastKey b0 + 1, [root])] }, plan, hF, hlen, ?_,
    areaColumn_datRows _ _, hpw', hthr, hbelow, hcur, ?_⟩
  · rw [← hrows]
    exact WriteDat_run (Extern.mk Real.log Real.exp Real.sqrt gm gio) g s _ fs name L hd hF ho hL
  · intro h1000
    have h1000' : (root.Size : ℝ) ≤ 1000 := by exact_mod_cast h1000
    apply areaColumn_sorted _ _ _ hpw' _ hbelow hcur
    · intro p hp
      exact List.Pairwise.sublist (hsegsub p hp) hr
    · intro p hp
      have hmem : p.2 ∈ b0 ++ [(lastKey b0 + 1, [root])] := (List.of_mem_zip
        (show (p.1, p.2) ∈ plan.zip (b0 ++ [(lastKey b0 + 1, [root])]) from hp)).2
      obtain ⟨c1, c2⟩ := hbnd p.2 hmem
      exact ⟨c1, le_trans c2 h1000'⟩

/-- Witness for C22 as amended: the single leaf of area 3 with the region at
threshold 1. The rows written have the areas 1, 3, 3: a target-only row for
the region, then the rows of the two buckets; the area of the root is below
1000 and the column does not decrease. -/
theorem dat_area_column_witness :
    (leafType ℝ 3).datWritten = false ∧ (leafType ℝ 3).buckets = [] ∧
    (leafType ℝ 3).forrest = [(0, .leaf 3 2 2)] ∧
    (∀ n ∈ (TreeNode.leaf 3 2 2).nodes, 1 ≤ n.Size) ∧
    (∀ n ∈ (TreeNode.leaf 3 2 2).nodes, n.Size ≤ (TreeNode.leaf 3 2 2).Size) ∧
    IntMap.Sorted (leafType ℝ 3).regions ∧
    (sampleFiles ℝ).canOpen ("c" ++ ".dat") = true ∧
    (((leafType ℝ 3).WriteDat (sampleExtern Real.log Real.exp Real.sqrt) sampleGlobals
        (sampleFiles ℝ) "c").files.bind (fun fs => fs.read ("c" ++ ".dat"))).map areaColumn
      = some [1, 3, 3] ∧
    ∃ (s1 : ModuleType ℝ) (plan : List (IntMap (Region ℝ) × Target ℝ)),
      (leafType ℝ 3).WriteDat (sampleExtern Real.log Real.exp Real.sqrt) sampleGlobals
          (sampleFiles ℝ) "c"
        = .done { s1 with datWritten := true }
          ((sampleFiles ℝ).write ("c" ++ ".dat") (statHeader sampleGlobals "data" "c"
            ++ datColumns
            ++ datRows (sampleExtern Real.log Real.exp Real.sqrt) (plan.zip s1.buckets))) ∧
      List.Pairwise (fun a b : ℝ => a ≤ b)
        (areaColumn (datRows (sampleExtern Real.log Real.exp Real.sqrt)
          (plan.zip s1.buckets))) := by
  have hn1 : ∀ n ∈ (TreeNode.leaf 3 2 2).nodes, 1 ≤ n.Size := by decide
  have hn2 : ∀ n ∈ (TreeNode.leaf 3 2 2).nodes, n.Size ≤ (TreeNode.leaf 3 2 2).Size := by
    decide
  have hr : IntMap.Sorted (leafType ℝ 3).regions := by simp [leafType, IntMap.Sorted]
  refine ⟨rfl, rfl, rfl, hn1, hn2, hr, rfl, ?_, ?_⟩
  · rw [leaf_three_WriteDat sampleGlobals (sampleFiles ℝ) "c" rfl]
    simp only [Outcome.files, Option.some_bind, FileSys.read_write_self, Option.map_some',
      areaColumn_statHeader]
    simp [areaColumn, Line.area, List.filterMap_cons]
  · obtain ⟨s1, plan, -, -, hW, -, -, -, -, -, h5⟩ :=
      dat_area_column (fun _ B => ⟨B, B, B, B, B, B⟩) (fun _ _ => (0, 0)) sampleGlobals
        (leafType ℝ 3) (sampleFiles ℝ) "c" 0 (.leaf 3 2 2) rfl rfl rfl hn1 hn2 hr rfl
    exact ⟨s1, plan, hW, h5 (by decide)⟩

/-! ## Destinations that cannot be opened -/

theorem cannot_open_ext_ne (name a b : String) (h : a ≠ b) :
    "Cannot open " ++ (name ++ a) ++ " for writing"
      ≠ "Cannot open " ++ (name ++ b) ++ " for writing" := by
  intro e
  apply h
  have e2 := congrArg String.data e
  simp only [String.data_append, List.append_assoc] at e2
  have e3 := List.append_cancel_left (List.append_cancel_left e2)
  exact String.ext (List.append_cancel_right e3)

section OpenFailure

variable {K : Type} [LinearOrderedField K] [FloorRing K]

omit [LinearOrderedField K] [FloorRing K] in
/-- When `WriteRtd` throws the message naming `<name>.rtd`: the flag is
unset, the forest is a single tree and the file cannot be opened. -/
theorem WriteRtd_cannot_open_only (g : Globals) (s s' : ModuleType K) (fs fs' : FileSys K)
    (name : String)
    (h : s.WriteRtd g fs name
      = .thrown ("Cannot open " ++ (name ++ ".rtd") ++ " for writing") s' fs') :
    s.rtdWritten = false ∧ s.forrest.length = 1 ∧ fs.canOpen (name ++ ".rtd") = false := by
  unfold ModuleType.WriteRtd at h
  by_cases hd : s.rtdWritten = true
  · simp [hd] at h
  · have hd' : s.rtdWritten = false := by simpa using hd
    match hs : s.forrest with
    | [] =>
      simp [hd', hs] at h
      exact absurd h.1.symm (cannot_open_ne_structural _)
    | _ :: _ :: _ =>
      simp [hd', hs] at h
      exact absurd h.1.symm (cannot_open_ne_structural _)
    | [root] =>
      by_cases hc : fs.canOpen (name ++ ".rtd") = true
      · simp [hd', hs, hc] at h
      · exact ⟨hd', rfl, by simpa using hc⟩

/-- The only message of a failing `FillBuckets`. -/
theorem FillBuckets_error (log : K → K) (s : ModuleType K) (msg : String)
    (h : s.FillBuckets log = .error msg) :
    msg = "Internal error: forrest is not a tree" ∧ s.buckets = [] ∧ s.forrest.length ≠ 1 := by
  unfold ModuleType.FillBuckets at h
  by_cases hb : (s.buckets.length != 0) = true
  · simp [hb] at h
  · have hb' : s.buckets = [] := by
      apply List.length_eq_zero.1
      simpa using hb
    match hs : s.forrest with
    | [] => simp [hb, hs] at h; exact ⟨h.symm, hb', by simp⟩
    | _ :: _ :: _ => simp [hb, hs] at h; exact ⟨h.symm, hb', by simp⟩
    | [root] => simp [hb, hs] at h

/-- When `WriteDat` throws the message naming `<name>.dat`: the flag is
unset, `FillBuckets` has succeeded and the file cannot be opened. -/
theorem WriteDat_cannot_open_only (x : Extern K) (g : Globals) (s s' : ModuleType K)
    (fs fs' : FileSys K) (name : String)
    (h : s.WriteDat x g fs name
      = .thrown ("Cannot open " ++ (name ++ ".dat") ++ " for writing") s' fs') :
    s.datWritten = false ∧ s.FillBuckets x.log = .ok s' ∧
      fs.canOpen (name ++ ".dat") = false := by
  unfold ModuleType.WriteDat at h
  by_cases hd : s.datWritten = true
  · simp [hd] at h
  · have hd' : s.datWritten = false := by simpa using hd
    cases hF : s.FillBuckets x.log with
    | error e =>
      have he := (FillBuckets_error x.log s e hF).1
      subst he
      simp [hd', hF] at h
      exact absurd h.1.symm (cannot_open_ne_structural _)
    | ok s1 =>
      by_cases hc : fs.canOpen (name ++ ".dat") = true
      · cases hl : datLines x s1 s1.buckets s1.regions with
        | none => simp [hd', hF, hc, hl] at h
        | some L => simp [hd', hF, hc, hl] at h
      · simp [hd', hF, hc] at h
        exact ⟨hd', by rw [h.1], by simpa using hc⟩

/-- The messages with which `WriteRtd` and `WriteDat` fail. -/
theorem stats_thrown_messages (x : Extern K) (g : Globals) (s : ModuleType K)
    (fs : FileSys K) (name : String) :
    (∀ msg s' fs', s.WriteRtd g fs name = .thrown msg s' fs' →
      msg = "Internal error: forrest is not a tree" ∨
      msg = "Cannot open " ++ (name ++ ".rtd") ++ " for writing") ∧
    (∀ msg s' fs', s.WriteDat x g fs name = .thrown msg s' fs' →
      msg = "Internal error: forrest is not a tree" ∨
      msg = "Cannot open " ++ (name ++ ".dat") ++ " for writing") := by
  constructor
  · intro msg s' fs' h
    rcases WriteRtd_cases g s fs name with ⟨-, e⟩ | ⟨-, e⟩ | ⟨-, e⟩ | ⟨-, l, e⟩
    · rw [e] at h; cases h
    · rw [e] at h; cases h; exact Or.inl rfl
    · rw [e] at h; cases h; exact Or.inr rfl
    · rw [e] at h; cases h
  · intro msg s' fs' h
    rcases WriteDat_cases x g s fs name with ⟨-, e⟩ | ⟨-, -, e⟩ | ⟨-, s1, -, e | e | ⟨l, e⟩⟩
    · rw [e] at h; cases h
    · rw [e] at h; cases h; exact Or.inl rfl
    · rw [e] at h; cases h; exact Or.inr rfl
    · rw [e] at h; cases h
    · rw [e] at h; cases h

/-- When `WritePlots` throws the message naming `<name>.plot`: `WriteRtd` and
then `WriteDat` have returned, and the file cannot be opened. -/
theorem WritePlots_cannot_open_only (x : Extern K) (g : Globals) (s s' : ModuleType K)
    (fs fs' : FileSys K) (name : String)
    (h : Module.WritePlots x g s fs name
      = .thrown ("Cannot open " ++ (name ++ ".plot") ++ " for writing") s' fs') :
    ∃ s1 fs1, s.WriteRtd g fs name = .done s1 fs1 ∧
      s1.WriteDat x g fs1 name = .done s' fs' ∧ fs.canOpen (name ++ ".plot") = false := by
  have hne : ("Cannot open " ++ (name ++ ".plot") ++ " for writing")
      ≠ "Internal error: forrest is not a tree" := cannot_open_ne_structural _
  cases h1 : s.WriteRtd g fs name with
  | hang => simp [Module.WritePlots, h1] at h
  | thrown msg s1 fs1 =>
    simp only [Module.WritePlots, h1, Outcome.thrown.injEq] at h
    rcases (stats_thrown_messages x g s fs name).1 msg s1 fs1 h1 with e | e
    · rw [e] at h; exact absurd h.1.symm hne
    · rw [e] at h
      exact absurd h.1 (cannot_open_ext_ne name ".rtd" ".plot" (by decide))
  | done s1 fs1 =>
    cases h2 : s1.WriteDat x g fs1 name with
    | hang => simp [Module.WritePlots, h1, h2] at h
    | thrown msg s2 fs2 =>
      simp only [Module.WritePlots, h1, h2, Outcome.thrown.injEq] at h
      rcases (stats_thrown_messages x g s1 fs1 name).2 msg s2 fs2 h2 with e | e
      · rw [e] at h; exact absurd h.1.symm hne
      · rw [e] at h
        exact absurd h.1 (cannot_open_ext_ne name ".dat" ".plot" (by decide))
    | done s2 fs2 =>
      rw [WritePlots_after_stats x g s s1 s2 fs fs1 fs2 name h1 h2] at h
      by_cases hc : fs2.canOpen (name ++ ".plot") = true
      · simp [hc] at h
      · have hc2 : fs2.canOpen (name ++ ".plot") = false := by simpa using hc
        simp only [hc2, Bool.not_false, if_true, Outcome.thrown.injEq, true_and] at h
        obtain ⟨fa, ha, hca, -, -⟩ := WriteRtd_files g s fs name
        rw [h1] at ha
        simp only [Outcome.files, Option.some.injEq] at ha
        subst ha
        obtain ⟨hb, -⟩ := WriteDat_files x g s1 fs1 name
        obtain ⟨hcb, -⟩ := hb fs2 (by rw [h2]; rfl)
        refine ⟨s1, fs1, rfl, ?_, ?_⟩
        · rw [← h.1, ← h.2]; exact h2
        · rw [← hca, ← hcb]; exact hc2

end OpenFailure
/-- C20, as amended. (1) The writers of `Module` that open their destination
first (`WriteTree`, `WritePtree`, `WriteHnl`, `WriteNetD`, `WriteNetD2`,
`WriteInfo`, and `WriteNets` for `<stub>.nodes`) throw "Cannot open
<stub>.<ext> for writing" and leave all files untouched when the destination
cannot be opened. (2) `WriteNets` throws the message for `<stub>.nets` when
that file cannot be opened after `<stub>.nodes` was written. (3) `WriteRtd`
returns at once when `rtdWritten` is set, throws the structural error when
the flag is unset and the forest is not a single tree, and throws the
message for `<stub>.rtd` when the flag is unset, the forest is a single tree
and the file cannot be opened, and only then. (4) `WriteDat` returns at once
when `datWritten` is set, throws the structural error when `FillBuckets`
fails, and throws the message for `<stub>.dat` when the flag is unset,
`FillBuckets` has succeeded and the file cannot be opened, and only then.
(5) `WritePlots` throws the message for `<stub>.plot` when `WriteRtd` and
then `WriteDat` have returned and the file cannot be opened, and only then.
(6) In every case nothing is written to a destination that cannot be
opened. -/
theorem cannot_open_message {K : Type} [LinearOrderedField K] [FloorRing K] (x : Extern K)
    (g : Globals) (m : Module) (s : ModuleType K) (fs : FileSys K) (name pre : String) :
    ((fs.canOpen (name ++ ".tree") = false → m.WriteTree x g s fs name
        = .thrown ("Cannot open " ++ (name ++ ".tree") ++ " for writing") () fs) ∧
      (fs.canOpen (name ++ ".ptree") = false → m.WritePtree x g s fs name
        = .thrown ("Cannot open " ++ (name ++ ".ptree") ++ " for writing") () fs) ∧
      (fs.canOpen (name ++ ".hnl") = false → m.WriteHnl x g s fs name
        = .thrown ("Cannot open " ++ (name ++ ".hnl") ++ " for writing") () fs) ∧
      (fs.canOpen (name ++ ".netD") = false → m.WriteNetD fs name
        = .thrown ("Cannot open " ++ (name ++ ".netD") ++ " for writing") () fs) ∧
      (fs.canOpen (name ++ ".netD2") = false → m.WriteNetD2 fs name
        = .thrown ("Cannot open " ++ (name ++ ".netD2") ++ " for writing") () fs) ∧
      (fs.canOpen (name ++ ".info") = false → m.WriteInfo x g s pre fs name
        = .thrown ("Cannot open " ++ (name ++ ".info") ++ " for writing") () fs) ∧
      (fs.canOpen (name ++ ".nodes") = false → m.WriteNets x g s fs name
        = .thrown ("Cannot open " ++ (name ++ ".nodes") ++ " for writing") () fs)) ∧
    (fs.canOpen (name ++ ".nodes") = true → fs.canOpen (name ++ ".nets") = false →
      m.WriteNets x g s fs name
        = .thrown ("Cannot open " ++ (name ++ ".nets") ++ " for writing") ()
            (fs.write (name ++ ".nodes") (m.nodesFile x g s name)) ∧
      (fs.write (name ++ ".nodes") (m.nodesFile x g s name)).read (name ++ ".nets")
        = fs.read (name ++ ".nets")) ∧
    ((s.rtdWritten = false → s.forrest.length = 1 → fs.canOpen (name ++ ".rtd") = false →
        s.WriteRtd g fs name
          = .thrown ("Cannot open " ++ (name ++ ".rtd") ++ " for writing") s fs) ∧
      (∀ s1, s.datWritten = false → s.FillBuckets x.log = .ok s1 →
        fs.canOpen (name ++ ".dat") = false →
        s.WriteDat x g fs name
          = .thrown ("Cannot open " ++ (name ++ ".dat") ++ " for writing") s1 fs) ∧
      (∀ s1 s2 fs1 fs2, s.WriteRtd g fs name = .done s1 fs1 →
        s1.WriteDat x g fs1 name = .done s2 fs2 → fs.canOpen (name ++ ".plot") = false →
        Module.WritePlots x g s fs name
          = .thrown ("Cannot open " ++ (name ++ ".plot") ++ " for writing") s2 fs2)) ∧
    ((fs.canOpen (name ++ ".rtd") = false → (s.WriteRtd g fs name).files = some fs) ∧
      (fs.canOpen (name ++ ".dat") = false → (s.WriteDat x g fs name).files = some fs) ∧
      (fs.canOpen (name ++ ".plot") = false →
        ∀ fs', (Module.WritePlots x g s fs name).files = some fs' →
          fs'.read (name ++ ".plot") = fs.read (name ++ ".plot"))) ∧
    ((s.rtdWritten = true → s.WriteRtd g fs name = .done s fs) ∧
      (s.rtdWritten = false → s.forrest.length ≠ 1 →
        s.WriteRtd g fs name = .thrown "Internal error: forrest is not a tree" s fs) ∧
      (∀ s' fs', s.WriteRtd g fs name
          = .thrown ("Cannot open " ++ (name ++ ".rtd") ++ " for writing") s' fs' →
        s.rtdWritten = false ∧ s.forrest.length = 1 ∧
          fs.canOpen (name ++ ".rtd") = false)) ∧
    ((s.datWritten = true → s.WriteDat x g fs name = .done s fs) ∧
      (∀ msg, s.datWritten = false → s.FillBuckets x.log = .error msg →
        msg = "Internal error: forrest is not a tree" ∧ s.buckets = [] ∧
          s.forrest.length ≠ 1 ∧
          s.WriteDat x g fs name = .thrown "Internal error: forrest is not a tree" s fs) ∧
      (s.datWritten = false → s.buckets = [] → s.forrest.length ≠ 1 →
        s.WriteDat x g fs name = .thrown "Internal error: forrest is not a tree" s fs) ∧
      (∀ s' fs', s.WriteDat x g fs name
          = .thrown ("Cannot open " ++ (name ++ ".dat") ++ " for writing") s' fs' →
        s.datWritten = false ∧ s.FillBuckets x.log = .ok s' ∧
          fs.canOpen (name ++ ".dat") = false)) ∧
    (∀ s' fs', Module.WritePlots x g s fs name
        = .thrown ("Cannot open " ++ (name ++ ".plot") ++ " for writing") s' fs' →
      ∃ s1 fs1, s.WriteRtd g fs name = .done s1 fs1 ∧
        s1.WriteDat x g fs1 name = .done s' fs' ∧ fs.canOpen (name ++ ".plot") = false) := by
  refine ⟨⟨?_, ?_, ?_, ?_, ?_, ?_, ?_⟩, ?_, ⟨?_, ?_, ?_⟩, ⟨?_, ?_, ?_⟩, ⟨?_, ?_, ?_⟩,
    ⟨?_, ?_, ?_, ?_⟩, ?_⟩
  · intro h; simp [Module.WriteTree, h]
  · intro h; simp [Module.WritePtree, h]
  · intro h; simp [Module.WriteHnl, h]
  · intro h; simp [Module.WriteNetD, h]
  · intro h; simp [Module.WriteNetD2, h]
  · intro h; simp [Module.WriteInfo, h]
  · intro h; simp [Module.WriteNets, h]
  · intro h1 h2
    refine ⟨?_, FileSys.read_write_ne fs _ _ _ (append_ext_ne name _ _ (by decide))⟩
    simp [Module.WriteNets, h1, h2, FileSys.write]
  · intro hr hf hc
    match hs : s.forrest with
    | [] => rw [hs] at hf; simp at hf
    | _ :: _ :: _ => rw [hs] at hf; simp at hf
    | [root] => simp [ModuleType.WriteRtd, hr, hs, hc]
  · intro s1 hd hF hc
    simp [ModuleType.WriteDat, hd, hF, hc]
  · intro s1 s2 fs1 fs2 h1 h2 hc
    obtain ⟨fa, ha, hca, -, -⟩ := WriteRtd_files g s fs name
    rw [h1] at ha
    simp only [Outcome.files, Option.some.injEq] at ha
    subst ha
    obtain ⟨hb, -⟩ := WriteDat_files x g s1 fs1 name
    obtain ⟨hcb, -⟩ := hb fs2 (by rw [h2]; rfl)
    have hc2 : fs2.canOpen (name ++ ".plot") = false := by rw [hcb, hca, hc]
    rw [WritePlots_after_stats x g s s1 s2 fs fs1 fs2 name h1 h2]
    simp [hc2]
  · intro hc
    obtain ⟨fa, ha, -, -, hfa⟩ := WriteRtd_files g s fs name
    rw [ha, hfa hc]
  · intro hc
    exact (WriteDat_files x g s fs name).2 hc
  · intro hc
    exact WritePlots_files x g s fs name hc
  · intro hr
    simp [ModuleType.WriteRtd, hr]
  · intro hr hf
    exact WriteRtd_of_length_ne_one g s fs name hr hf
  · intro s' fs' h
    exact WriteRtd_cannot_open_only g s s' fs fs' name h
  · intro hd
    simp [ModuleType.WriteDat, hd]
  · intro msg hd hF
    obtain ⟨e1, e2, e3⟩ := FillBuckets_error x.log s msg hF
    subst e1
    refine ⟨rfl, e2, e3, ?_⟩
    simp [ModuleType.WriteDat, hd, hF]
  · intro hd hb hf
    simp [ModuleType.WriteDat, hd, FillBuckets_of_length_ne_one x.log s hb hf]
  · intro s' fs' h
    exact WriteDat_cannot_open_only x g s s' fs fs' name h
  · intro s' fs' h
    exact WritePlots_cannot_open_only x g s s' fs fs' name h

/-- The claim C20 fails for `WriteRtd` on the empty forest when no path can
be opened: the writer throws the structural error, not the message naming
`c.rtd`. -/
theorem cannot_open_not_reached :
    (closedFiles ℝ).canOpen ("c" ++ ".rtd") = false ∧
    (emptyForestType ℝ).WriteRtd sampleGlobals (closedFiles ℝ) "c"
      = .thrown "Internal error: forrest is not a tree" (emptyForestType ℝ) (closedFiles ℝ) ∧
    (emptyForestType ℝ).WriteRtd sampleGlobals (closedFiles ℝ) "c"
      ≠ .thrown ("Cannot open " ++ ("c" ++ ".rtd") ++ " for writing") (emptyForestType ℝ)
          (closedFiles ℝ) := by
  have h : (emptyForestType ℝ).WriteRtd sampleGlobals (closedFiles ℝ) "c"
      = .thrown "Internal error: forrest is not a tree" (emptyForestType ℝ) (closedFiles ℝ) :=
    WriteRtd_of_length_ne_one sampleGlobals (emptyForestType ℝ) (closedFiles ℝ) "c" rfl
      (by decide)
  refine ⟨rfl, h, ?_⟩
  rw [h]
  intro e
  simp only [Outcome.thrown.injEq] at e
  exact cannot_open_ne_structural _ e.1.symm

/-- Witness for C20 as amended: the sample module when no path can be opened,
and the single leaf of area 3, for which `WriteRtd` reaches the open and
throws the message naming `c.rtd`. -/
theorem cannot_open_message_witness :
    (closedFiles ℝ).canOpen ("c" ++ ".netD") = false ∧
    sampleModule.WriteNetD (closedFiles ℝ) "c"
      = .thrown ("Cannot open " ++ ("c" ++ ".netD") ++ " for writing") () (closedFiles ℝ) ∧
    (leafType ℝ 3).rtdWritten = false ∧ (leafType ℝ 3).forrest.length = 1 ∧
    (closedFiles ℝ).canOpen ("c" ++ ".rtd") = false ∧
    (leafType ℝ 3).WriteRtd sampleGlobals (closedFiles ℝ) "c"
      = .thrown ("Cannot open " ++ ("c" ++ ".rtd") ++ " for writing") (leafType ℝ 3)
          (closedFiles ℝ) :=
  ⟨rfl, (cannot_open_message (sampleExtern Real.log Real.exp Real.sqrt) sampleGlobals
    sampleModule (emptyForestType ℝ) (closedFiles ℝ) "c" "").1.2.2.2.1 rfl,
   rfl, rfl, rfl,
   (cannot_open_message (sampleExtern Real.log Real.exp Real.sqrt) sampleGlobals
    sampleModule (leafType ℝ 3) (closedFiles ℝ) "c" "").2.2.1.1 rfl rfl rfl⟩

/-! ## The characters of pad and block names -/

theorem padLines_range {K : Type} (n : Nat) :
    padLines (K := K) (Int.ofNat n)
      = (List.range' 1 n).map
          (fun k => [.str "pad_", .int (Int.ofNat k), .str " terminal"]) := by
  unfold padLines
  rw [List.range'_eq_map_range, List.map_map]
  have hn : (Int.ofNat n).toNat = n := rfl
  rw [hn]
  simp [Function.comp_def, add_comm, ← List.map_eq_flatMap]

theorem digitChar_ne_underscore : ∀ d < 10, Nat.digitChar d ≠ '_' := by decide

theorem digitChar_inj : ∀ a < 10, ∀ b < 10, Nat.digitChar a = Nat.digitChar b → a = b := by
  decide

theorem toDigitsCore_no_underscore (fuel : Nat) :
    ∀ (n : Nat) (ds : List Char), '_' ∉ ds → '_' ∉ Nat.toDigitsCore 10 fuel n ds := by
  induction fuel with
  | zero => intro n ds h; exact h
  | succ f ih =>
    intro n ds h
    have hd : '_' ∉ Nat.digitChar (n % 10) :: ds := by
      intro hm
      rcases List.mem_cons.1 hm with hm | hm
      · exact digitChar_ne_underscore (n % 10) (Nat.mod_lt _ (by norm_num)) hm.symm
      · exact h hm
    simp only [Nat.toDigitsCore]
    split
    · exact hd
    · exact ih _ _ hd

/-- The decimal digits of a number hold no underscore. -/
theorem toDigits_no_underscore (n : Nat) : '_' ∉ Nat.toDigits 10 n :=
  toDigitsCore_no_underscore (n + 1) n [] (by simp)

theorem toDigitsCore_eq_digits (fuel : Nat) :
    ∀ (n : Nat) (ds : List Char), n < fuel → 0 < n →
      Nat.toDigitsCore 10 fuel n ds
        = (Nat.digits 10 n).reverse.map Nat.digitChar ++ ds := by
  induction fuel with
  | zero => intro n ds h; omega
  | succ f ih =>
    intro n ds hlt hpos
    simp only [Nat.toDigitsCore]
    rw [Nat.digits_def' (by norm_num) hpos]
    by_cases h0 : n / 10 = 0
    · rw [if_pos h0, h0]
      simp
    · rw [if_neg h0]
      have h1 : n / 10 < f := by omega
      rw [ih (n / 10) _ h1 (Nat.pos_of_ne_zero h0)]
      simp

/-- The digits written for a positive number are its digits in base 10, the
most significant first. -/
theorem toDigits_eq_digits (n : Nat) (hpos : 0 < n) :
    Nat.toDigits 10 n = (Nat.digits 10 n).reverse.map Nat.digitChar := by
  unfold Nat.toDigits
  rw [toDigitsCore_eq_digits (n + 1) n [] (by omega) hpos, List.append_nil]

theorem map_digitChar_inj :
    ∀ (l1 l2 : List Nat), (∀ d ∈ l1, d < 10) → (∀ d ∈ l2, d < 10) →
      l1.map Nat.digitChar = l2.map Nat.digitChar → l1 = l2
  | [], [], _, _, _ => rfl
  | [], _ :: _, _, _, h => by simp at h
  | _ :: _, [], _, _, h => by simp at h
  | a :: l1, b :: l2, h1, h2, h => by
    simp only [List.map_cons, List.cons.injEq] at h
    have e := digitChar_inj a (h1 a (List.mem_cons_self _ _)) b
      (h2 b (List.mem_cons_self _ _)) h.1
    rw [e, map_digitChar_inj l1 l2 (fun d hd => h1 d (List.mem_cons_of_mem _ hd))
      (fun d hd => h2 d (List.mem_cons_of_mem _ hd)) h.2]

theorem toDigits_zero : Nat.toDigits 10 0 = ['0'] := by decide

theorem toDigits_ne_zero_digits (n : Nat) (hpos : 0 < n) : Nat.toDigits 10 n ≠ ['0'] := by
  rw [toDigits_eq_digits n hpos]
  intro h
  have hlt : ∀ d ∈ (Nat.digits 10 n).reverse, d < 10 := by
    intro d hd
    exact Nat.digits_lt_base (by norm_num) (List.mem_reverse.1 hd)
  have h0 : (['0'] : List Char) = [(0 : Nat)].map Nat.digitChar := by decide
  rw [h0] at h
  have e := map_digitChar_inj _ _ hlt (by simp) h
  have e2 : Nat.digits 10 n = [0] := by
    have := congrArg List.reverse e
    simpa using this
  have hlast := Nat.getLast_digit_ne_zero 10 (Nat.pos_iff_ne_zero.1 hpos)
  simp [e2] at hlast

/-- Two numbers written with the same digits are equal. -/
theorem toDigits_inj (a b : Nat) (h : Nat.toDigits 10 a = Nat.toDigits 10 b) : a = b := by
  rcases Nat.eq_zero_or_pos a with ha | ha
  · rcases Nat.eq_zero_or_pos b with hb | hb
    · rw [ha, hb]
    · rw [ha, toDigits_zero] at h
      exact absurd h.symm (toDigits_ne_zero_digits b hb)
  · rcases Nat.eq_zero_or_pos b with hb | hb
    · rw [hb, toDigits_zero] at h
      exact absurd h (toDigits_ne_zero_digits a ha)
    · rw [toDigits_eq_digits a ha, toDigits_eq_digits b hb] at h
      have e := map_digitChar_inj _ _
        (fun d hd => Nat.digits_lt_base (by norm_num) (List.mem_reverse.1 hd))
        (fun d hd => Nat.digits_lt_base (by norm_num) (List.mem_reverse.1 hd)) h
      exact Nat.digits.injective 10 (List.reverse_injective e)

section NameChars

variable {K : Type}

theorem Line.chars_pad (fmt : K → List Char) (k : Nat) :
    Line.chars fmt [.str "pad_", .int (Int.ofNat k)] = padChars k := by
  simp [Line.chars, Item.chars, decimal, padChars]

theorem Line.chars_block (fmt : K → List Char) (nm : String) (i : Nat) :
    Line.chars fmt [.str nm, .str "_", .int (Int.ofNat i)] = blockChars nm i := by
  simp [Line.chars, Item.chars, decimal, blockChars]

theorem Line.nodeChars_pad (fmt : K → List Char) (k : Nat) (mk : String) :
    Line.nodeChars fmt [.str "pad_", .int (Int.ofNat k), .str mk] = padChars k :=
  Line.chars_pad fmt k

theorem Line.nodeChars_block (fmt : K → List Char) (nm : String) (i : Nat) (mk : String) :
    Line.nodeChars fmt [.str nm, .str "_", .int (Int.ofNat i), .str mk] = blockChars nm i :=
  Line.chars_block fmt nm i

/-- Two pads are written with the same name only when they have the same
number. -/
theorem padChars_inj (p k : Nat) : padChars p = padChars k ↔ p = k := by
  constructor
  · intro h
    unfold padChars at h
    exact toDigits_inj p k (List.append_cancel_left h)
  · rintro rfl
    rfl

end NameChars

/-- A block is written with the name of the pad `pad_<k>` only when its cell
is named `pad` and its number is `k`. -/
theorem blockChars_eq_pad (nm : String) (i k : Nat) (e : blockChars nm i = padChars k) :
    nm = "pad" ∧ i = k := by
  have hp : padChars k = ['p', 'a', 'd'] ++ '_' :: Nat.toDigits 10 k := rfl
  rw [hp] at e
  unfold blockChars at e
  have hx : '_' ∉ ['p', 'a', 'd'] := by decide
  have := (List.append_cons_inj_of_not_mem hx (toDigits_no_underscore k)).1 e.symm
  exact ⟨String.ext this.1.symm, toDigits_inj i k this.2.2.symm⟩

theorem suffix_after_underscore :
    ∀ (x1 x2 d1 d2 : List Char), '_' ∉ d1 → '_' ∉ d2 →
      x1 ++ '_' :: d1 = x2 ++ '_' :: d2 → d1 = d2
  | [], [], _, _, _, _, h => by simpa using h
  | [], c :: x2, d1, d2, h1, _, h => by
    simp only [List.nil_append, List.cons_append, List.cons.injEq] at h
    exact absurd (h.2 ▸ List.mem_append_right x2 (List.mem_cons_self _ _)) h1
  | c :: x1, [], d1, d2, _, h2, h => by
    simp only [List.nil_append, List.cons_append, List.cons.injEq] at h
    exact absurd (h.2 ▸ List.mem_append_right x1 (List.mem_cons_self _ _)) h2
  | c :: x1, c2 :: x2, d1, d2, h1, h2, h => by
    simp only [List.cons_append, List.cons.injEq] at h
    exact suffix_after_underscore x1 x2 d1 d2 h1 h2 h.2

/-- Two blocks are written with the same name only when they have the same
number. -/
theorem blockChars_number (n1 n2 : String) (i j : Nat)
    (e : blockChars n1 i = blockChars n2 j) : i = j :=
  toDigits_inj i j (suffix_after_underscore _ _ _ _ (toDigits_no_underscore i)
    (toDigits_no_underscore j) e)
/-! ## The names referenced by the net records -/

section NetNames

variable {K : Type}

theorem countP_zipWith_right {α β γ : Type} (f : α → β → γ) (p : γ → Bool) (q : β → Bool) :
    ∀ (l1 : List α) (l2 : List β), l1.length = l2.length →
      (∀ a ∈ l1, ∀ b, p (f a b) = q b) →
      (List.zipWith f l1 l2).countP p = l2.countP q
  | [], [], _, _ => rfl
  | [], _ :: _, e, _ => by simp at e
  | _ :: _, [], e, _ => by simp at e
  | a :: l1, b :: l2, e, h => by
    rw [List.zipWith_cons_cons, List.countP_cons, List.countP_cons,
      h a (List.mem_cons_self _ _) b,
      countP_zipWith_right f p q l1 l2 (by simpa using e)
        (fun a' ha' => h a' (List.mem_cons_of_mem _ ha'))]

theorem map_zipWith_mem {α β γ δ : Type} (f : α → β → γ) (g : γ → δ) (h : β → δ) :
    ∀ (l1 : List α) (l2 : List β), l1.length = l2.length →
      (∀ a ∈ l1, ∀ b ∈ l2, g (f a b) = h b) →
      (List.zipWith f l1 l2).map g = l2.map h
  | [], [], _, _ => rfl
  | [], _ :: _, e, _ => by simp at e
  | _ :: _, [], e, _ => by simp at e
  | a :: l1, b :: l2, e, hg => by
    rw [List.zipWith_cons_cons, List.map_cons, List.map_cons,
      hg a (List.mem_cons_self _ _) b (List.mem_cons_self _ _),
      map_zipWith_mem f g h l1 l2 (by simpa using e)
        (fun a' ha' b' hb' => hg a' (List.mem_cons_of_mem _ ha') b' (List.mem_cons_of_mem _ hb'))]

theorem mem_zipWith_range {α γ : Type} (f : α → Nat → γ) (l : List α) (x : γ)
    (h : x ∈ List.zipWith f l (List.range l.length)) :
    ∃ (i : Nat) (hi : i < l.length), x = f (l.get ⟨i, hi⟩) i := by
  obtain ⟨i, hi, e⟩ := List.mem_iff_getElem.1 h
  have hi2 : i < l.length := by simpa using hi
  refine ⟨i, hi2, ?_⟩
  rw [← e]
  simp

/-- The names of the sink lines of a net: every sink block under its cell
name and its position. -/
theorem specSinkLines_names (fmt : K → List Char) (m : Module) (sinks : List Terminal) :
    (specSinkLines (K := K) m.blockPos sinks).map (Line.nodeChars fmt)
      = sinks.map (fun t => blockChars t.1.cell.Name (m.blocks.indexOf t.1)) := by
  unfold specSinkLines
  rw [List.map_map]
  apply List.map_congr_left
  intro t _
  exact Line.nodeChars_block fmt _ _ _

/-- The record of an input net references exactly its own pad, when no sink
is written like a pad. -/
theorem referencesNode_input (fmt : K → List Char) (m : Module) (k j : Nat) (n : InputNet)
    (hs : ∀ t ∈ n.sinks, blockChars t.1.cell.Name (m.blocks.indexOf t.1) ≠ padChars k) :
    referencesNode fmt (padChars k) (specInputRecord (K := K) m.blockPos (Int.ofNat j) n)
      = (j == k) := by
  have hrest : padChars k ∉ (specSinkLines (K := K) m.blockPos n.sinks).map
      (Line.nodeChars fmt) := by
    rw [specSinkLines_names]
    intro hm
    obtain ⟨t, ht, e⟩ := List.mem_map.1 hm
    exact hs t ht e
  unfold referencesNode specInputRecord
  rw [List.tail_cons, List.map_cons, Line.nodeChars_pad]
  by_cases h : j = k
  · subst h
    simp
  · have hne : padChars k ≠ padChars j := fun e => h ((padChars_inj _ _).1 e).symm
    simp [hne, hrest, h]

/-- The record of an external output net references exactly its own pad,
when neither its source nor a sink is written like a pad. -/
theorem referencesNode_external (fmt : K → List Char) (m : Module) (k j : Nat) (n : OutputNet)
    (hsrc : blockChars n.source.1.cell.Name (m.blocks.indexOf n.source.1) ≠ padChars k)
    (hs : ∀ t ∈ n.sinks, blockChars t.1.cell.Name (m.blocks.indexOf t.1) ≠ padChars k) :
    referencesNode fmt (padChars k) (specExternalRecord (K := K) m.blockPos (Int.ofNat j) n)
      = (j == k) := by
  have hrest : padChars k ∉ (specSinkLines (K := K) m.blockPos n.sinks).map
      (Line.nodeChars fmt) := by
    rw [specSinkLines_names]
    intro hm
    obtain ⟨t, ht, e⟩ := List.mem_map.1 hm
    exact hs t ht e
  have hsrc2 : Line.nodeChars fmt ([.str n.source.1.cell.Name, .str "_",
      .int (m.blockPos n.source.1), .str " O"] : Line K)
        = blockChars n.source.1.cell.Name (m.blocks.indexOf n.source.1) :=
    Line.nodeChars_block fmt _ _ _
  unfold referencesNode specExternalRecord
  rw [List.tail_cons, List.map_cons, List.map_cons, Line.nodeChars_pad, hsrc2]
  by_cases h : j = k
  · subst h
    simp
  · have hne : padChars k ≠ padChars j := fun e => h ((padChars_inj _ _).1 e).symm
    simp [hne, hrest, h, Ne.symm hsrc]

/-- The record of an internal net references no pad, when neither its source
nor a sink is written like a pad. -/
theorem referencesNode_internal (fmt : K → List Char) (m : Module) (k : Nat) (n : OutputNet)
    (hsrc : blockChars n.source.1.cell.Name (m.blocks.indexOf n.source.1) ≠ padChars k)
    (hs : ∀ t ∈ n.sinks, blockChars t.1.cell.Name (m.blocks.indexOf t.1) ≠ padChars k) :
    referencesNode fmt (padChars k) (specInternalRecord (K := K) m.blockPos n) = false := by
  have hrest : padChars k ∉ (specSinkLines (K := K) m.blockPos n.sinks).map
      (Line.nodeChars fmt) := by
    rw [specSinkLines_names]
    intro hm
    obtain ⟨t, ht, e⟩ := List.mem_map.1 hm
    exact hs t ht e
  have hsrc2 : Line.nodeChars fmt ([.str n.source.1.cell.Name, .str "_",
      .int (m.blockPos n.source.1), .str " O"] : Line K)
        = blockChars n.source.1.cell.Name (m.blocks.indexOf n.source.1) :=
    Line.nodeChars_block fmt _ _ _
  unfold referencesNode specInternalRecord
  rw [List.tail_cons, List.map_cons, hsrc2]
  simp [hrest, Ne.symm hsrc]

/-- The names declared by the `.nodes` file of a module with pairwise
distinct blocks. -/
theorem declaredNames_eq (fmt : K → List Char) (m : Module)
    (hI : m.numInputs = (m.inputs.length : Int)) (hO : m.numOutputs = (m.outputs.length : Int))
    (hnd : (m.blocks.map (fun b => b.addr)).Nodup) :
    m.declaredNames fmt
      = (List.range' 1 (m.inputs.length + m.outputs.length)).map padChars
        ++ List.zipWith (fun b i => blockChars b.cell.Name i) m.blocks
            (List.range m.blocks.length) := by
  have e : m.numInputs + m.numOutputs = Int.ofNat (m.inputs.length + m.outputs.length) := by
    rw [hI, hO]
    simp
  unfold Module.declaredNames
  rw [e, padLines_range, nodesBlockLines_positions m.blocks hnd, List.map_map, List.map_zipWith]
  congr 1
  · apply List.map_congr_left
    intro k _
    exact Line.nodeChars_pad fmt k _
  · congr 1
    funext b i
    exact Line.chars_block fmt _ _

/-- The block names declared by `.nodes` are pairwise distinct: they end in
pairwise distinct numbers. -/
theorem blockNames_nodup (bs : List Block) :
    (List.zipWith (fun (b : Block) i => blockChars b.cell.Name i) bs
      (List.range bs.length)).Nodup := by
  rw [← List.map_uncurry_zip_eq_zipWith]
  have hz : (bs.zip (List.range bs.length)).map Prod.snd = List.range bs.length :=
    List.map_snd_zip _ _ (by simp)
  have hnz : ((bs.zip (List.range bs.length)).map Prod.snd).Nodup := by
    rw [hz]
    exact List.nodup_range _
  refine List.Nodup.map_on ?_ (List.Nodup.of_map _ hnz)
  intro p hp q hq h
  exact List.inj_on_of_nodup_map hnz hp hq (blockChars_number _ _ _ _ h)

end NetNames
section NetNamesRecords

variable {K : Type}

theorem filter_range_single (n j : Nat) (p : Nat → Bool) (h1 : 1 ≤ j) (h2 : j ≤ n)
    (hp : ∀ k, 1 ≤ k → k ≤ n → p k = (j == k)) : (List.range' 1 n).filter p = [j] := by
  have e : (List.range' 1 n).filter p = (List.range' 1 n).filter (fun k => k == j) := by
    apply List.filter_congr
    intro k hk
    rw [List.mem_range'_1] at hk
    rw [hp k hk.1 (by omega)]
    exact BEq.comm
  rw [e, List.filter_beq,
    List.count_eq_one_of_mem (List.nodup_range' 1 n) (List.mem_range'_1.2 ⟨h1, by omega⟩)]
  rfl

theorem filter_range_none (n : Nat) (p : Nat → Bool)
    (hp : ∀ k, 1 ≤ k → k ≤ n → p k = false) : (List.range' 1 n).filter p = [] := by
  rw [List.filter_eq_nil_iff]
  intro k hk
  rw [List.mem_range'_1] at hk
  rw [hp k hk.1 (by omega)]
  simp

theorem mem_blockNames (bs : List Block) (b : Block) (hb : b ∈ bs) :
    blockChars b.cell.Name (bs.indexOf b)
      ∈ List.zipWith (fun (b : Block) i => blockChars b.cell.Name i) bs
          (List.range bs.length) := by
  have hi : bs.indexOf b < bs.length := List.indexOf_lt_length.2 hb
  have hbi : bs[bs.indexOf b] = b := List.getElem_indexOf hi
  rw [List.mem_iff_getElem]
  refine ⟨bs.indexOf b, by simpa using hi, ?_⟩
  simp [hbi]

/-- What the pin lines of the records of the specification are. -/
theorem mem_specNetsRecords_tail (m : Module) (pos : Block → Int) (r : List (Line K))
    (hr : r ∈ m.specNetsRecords (K := K) pos) (l : Line K) (hl : l ∈ r.tail) :
    (∃ (k : Nat) (mk : String), 1 ≤ k ∧ k ≤ m.inputs.length + m.outputs.length ∧
      l = [.str "pad_", .int (Int.ofNat k), .str mk]) ∨
    (∃ (t : Terminal) (mk : String), (t ∈ m.allSinks ∨ t ∈ m.allSources) ∧
      l = [.str t.1.cell.Name, .str "_", .int (pos t.1), .str mk]) := by
  unfold Module.specNetsRecords at hr
  have sink : ∀ sinks : List Terminal, (∀ t ∈ sinks, t ∈ m.allSinks) →
      l ∈ specSinkLines (K := K) pos sinks →
      ∃ (t : Terminal) (mk : String), (t ∈ m.allSinks ∨ t ∈ m.allSources) ∧
        l = [.str t.1.cell.Name, .str "_", .int (pos t.1), .str mk] := by
    intro sinks hs hm
    obtain ⟨t, ht, e⟩ := List.mem_map.1 hm
    exact ⟨t, " I", Or.inl (hs t ht), e.symm⟩
  rcases List.mem_append.1 hr with hr | hr
  · rcases List.mem_append.1 hr with hr | hr
    · obtain ⟨n, hn, k, hk, e⟩ := mem_zipWith_elim _ _ _ _ hr
      rw [List.mem_range'_1] at hk
      subst e
      simp only [specInputRecord, List.tail_cons, List.mem_cons] at hl
      rcases hl with hl | hl
      · exact Or.inl ⟨k, " O", hk.1, by omega, hl⟩
      · refine Or.inr (sink n.sinks ?_ hl)
        intro t ht
        unfold Module.allSinks
        exact List.mem_append_left _ (List.mem_flatMap.2 ⟨n, hn, ht⟩)
    · obtain ⟨n, hn, k, hk, e⟩ := mem_zipWith_elim _ _ _ _ hr
      rw [List.mem_range'_1] at hk
      subst e
      simp only [specExternalRecord, List.tail_cons, List.mem_cons] at hl
      rcases hl with hl | hl | hl
      · refine Or.inr ⟨n.source, " O", Or.inr ?_, hl⟩
        unfold Module.allSources
        exact List.mem_append_left _ (List.mem_map.2 ⟨n, hn, rfl⟩)
      · exact Or.inl ⟨k, " I", by omega, by omega, hl⟩
      · refine Or.inr (sink n.sinks ?_ hl)
        intro t ht
        unfold Module.allSinks
        exact List.mem_append_right _
          (List.mem_append_left _ (List.mem_flatMap.2 ⟨n, hn, ht⟩))
  · obtain ⟨n, hn, e⟩ := List.mem_map.1 hr
    subst e
    simp only [specInternalRecord, List.tail_cons, List.mem_cons] at hl
    rcases hl with hl | hl
    · refine Or.inr ⟨n.source, " O", Or.inr ?_, hl⟩
      unfold Module.allSources
      exact List.mem_append_right _ (List.mem_map.2 ⟨n, hn, rfl⟩)
    · refine Or.inr (sink n.sinks ?_ hl)
      intro t ht
      unfold Module.allSinks
      exact List.mem_append_right _
        (List.mem_append_right _ (List.mem_flatMap.2 ⟨n, hn, ht⟩))

/-- In a module where a block of the cell `pad` stands at no position from 1
to the number of pads, no listed block is written like a declared pad. -/
theorem block_not_pad (m : Module)
    (hpad : ∀ b ∈ m.blocks, b.cell.Name = "pad" →
      m.blocks.indexOf b = 0 ∨ m.inputs.length + m.outputs.length < m.blocks.indexOf b)
    (k : Nat) (h1 : 1 ≤ k) (h2 : k ≤ m.inputs.length + m.outputs.length)
    (b : Block) (hb : b ∈ m.blocks) :
    blockChars b.cell.Name (m.blocks.indexOf b) ≠ padChars k := by
  intro e
  obtain ⟨e1, e2⟩ := blockChars_eq_pad _ _ _ e
  rcases hpad b hb e1 with h | h <;> omega

theorem range_pads (a b : Nat) :
    List.range' 1 a ++ List.range' (a + 1) b = List.range' 1 (a + b) := by
  rw [Nat.add_comm a 1, List.range'_append_1, Nat.add_comm b]

/-- Every declared pad is referenced by exactly one record. -/
theorem pad_referenced_once (fmt : K → List Char) (m : Module)
    (hsinks : ∀ t ∈ m.allSinks, t.1 ∈ m.blocks)
    (hsrc : ∀ t ∈ m.allSources, t.1 ∈ m.blocks)
    (hpad : ∀ b ∈ m.blocks, b.cell.Name = "pad" →
      m.blocks.indexOf b = 0 ∨ m.inputs.length + m.outputs.length < m.blocks.indexOf b)
    (k : Nat) (h1 : 1 ≤ k) (h2 : k ≤ m.inputs.length + m.outputs.length) :
    (m.specNetsRecords (K := K) m.blockPos).countP (referencesNode fmt (padChars k)) = 1 := by
  have hK := block_not_pad m hpad k h1 h2
  have hC : (m.internalNets.map (specInternalRecord (K := K) m.blockPos)).countP
      (referencesNode fmt (padChars k)) = 0 := by
    rw [List.countP_eq_zero]
    intro r hr
    obtain ⟨n, hn, rfl⟩ := List.mem_map.1 hr
    rw [referencesNode_internal fmt m k n
      (hK _ (hsrc _ (List.mem_append_right _ (List.mem_map.2 ⟨n, hn, rfl⟩))))
      (fun t ht => hK _ (hsinks t (List.mem_append_right _
        (List.mem_append_right _ (List.mem_flatMap.2 ⟨n, hn, ht⟩)))))]
    simp
  unfold Module.specNetsRecords
  rw [List.countP_append, List.countP_append, hC,
    countP_zipWith_right _ _ (fun j => j == k) m.inputs _ (by simp)
      (fun n hn j => referencesNode_input fmt m k j n
        (fun t ht => hK _ (hsinks t (List.mem_append_left _
          (List.mem_flatMap.2 ⟨n, hn, ht⟩))))),
    countP_zipWith_right _ _ (fun j => j == k) m.outputs _ (by simp)
      (fun n hn j => referencesNode_external fmt m k j n
        (hK _ (hsrc _ (List.mem_append_left _ (List.mem_map.2 ⟨n, hn, rfl⟩))))
        (fun t ht => hK _ (hsinks t (List.mem_append_right _
          (List.mem_append_left _ (List.mem_flatMap.2 ⟨n, hn, ht⟩)))))),
    Nat.add_zero, ← List.countP_append, range_pads, ← List.count_eq_countP]
  exact List.count_eq_one_of_mem (List.nodup_range' 1 _) (List.mem_range'_1.2 ⟨h1, by omega⟩)

/-- Record by record, the declared pads referenced: the pad `k` by the
`k`-th record, for the input nets and then the external output nets, and no
pad by the record of an internal net. -/
theorem pads_by_record (fmt : K → List Char) (m : Module)
    (hsinks : ∀ t ∈ m.allSinks, t.1 ∈ m.blocks)
    (hsrc : ∀ t ∈ m.allSources, t.1 ∈ m.blocks)
    (hpad : ∀ b ∈ m.blocks, b.cell.Name = "pad" →
      m.blocks.indexOf b = 0 ∨ m.inputs.length + m.outputs.length < m.blocks.indexOf b) :
    (m.specNetsRecords (K := K) m.blockPos).map
        (fun r => (List.range' 1 (m.inputs.length + m.outputs.length)).filter
          (fun k => referencesNode fmt (padChars k) r))
      = (List.range' 1 (m.inputs.length + m.outputs.length)).map (fun k => [k])
        ++ List.replicate m.internalNets.length [] := by
  have hK := block_not_pad m hpad
  have hA := map_zipWith_mem
    (fun (n : InputNet) k => specInputRecord (K := K) m.blockPos (Int.ofNat k) n)
    (fun r => (List.range' 1 (m.inputs.length + m.outputs.length)).filter
      (fun k => referencesNode fmt (padChars k) r))
    (fun j => [j]) m.inputs (List.range' 1 m.inputs.length) (by simp)
    (fun n hn j hj => filter_range_single _ j _ (List.mem_range'_1.1 hj).1
      (by have := (List.mem_range'_1.1 hj).2; omega)
      (fun k h1 h2 => referencesNode_input fmt m k j n
        (fun t ht => hK k h1 h2 _ (hsinks t (List.mem_append_left _
          (List.mem_flatMap.2 ⟨n, hn, ht⟩))))))
  have hB := map_zipWith_mem
    (fun (n : OutputNet) k => specExternalRecord (K := K) m.blockPos (Int.ofNat k) n)
    (fun r => (List.range' 1 (m.inputs.length + m.outputs.length)).filter
      (fun k => referencesNode fmt (padChars k) r))
    (fun j => [j]) m.outputs (List.range' (m.inputs.length + 1) m.outputs.length) (by simp)
    (fun n hn j hj => filter_range_single _ j _
      (by have := (List.mem_range'_1.1 hj).1; omega)
      (by have := (List.mem_range'_1.1 hj).2; omega)
      (fun k h1 h2 => referencesNode_external fmt m k j n
        (hK k h1 h2 _ (hsrc _ (List.mem_append_left _ (List.mem_map.2 ⟨n, hn, rfl⟩))))
        (fun t ht => hK k h1 h2 _ (hsinks t (List.mem_append_right _
          (List.mem_append_left _ (List.mem_flatMap.2 ⟨n, hn, ht⟩)))))))
  unfold Module.specNetsRecords
  rw [List.map_append, List.map_append, hA, hB,
    ← List.map_append, range_pads]
  congr 1
  rw [List.eq_replicate_iff]
  refine ⟨by simp, ?_⟩
  intro b hb
  obtain ⟨r, hr, rfl⟩ := List.mem_map.1 hb
  obtain ⟨n, hn, rfl⟩ := List.mem_map.1 hr
  exact filter_range_none _ _ (fun k h1 h2 => referencesNode_internal fmt m k n
    (hK k h1 h2 _ (hsrc _ (List.mem_append_right _ (List.mem_map.2 ⟨n, hn, rfl⟩))))
    (fun t ht => hK k h1 h2 _ (hsinks t (List.mem_append_right _
      (List.mem_append_right _ (List.mem_flatMap.2 ⟨n, hn, ht⟩))))))

/-- The names declared by `.nodes` are pairwise distinct. -/
theorem declaredNames_nodup (fmt : K → List Char) (m : Module)
    (hI : m.numInputs = (m.inputs.length : Int)) (hO : m.numOutputs = (m.outputs.length : Int))
    (hnd : (m.blocks.map (fun b => b.addr)).Nodup)
    (hpad : ∀ b ∈ m.blocks, b.cell.Name = "pad" →
      m.blocks.indexOf b = 0 ∨ m.inputs.length + m.outputs.length < m.blocks.indexOf b) :
    (m.declaredNames fmt).Nodup := by
  rw [declaredNames_eq fmt m hI hO hnd]
  refine List.Nodup.append
    (List.Nodup.map_on (fun a _ b _ h => (padChars_inj a b).1 h) (List.nodup_range' 1 _))
    (blockNames_nodup m.blocks) ?_
  intro x hx1 hx2
  obtain ⟨k, hk, rfl⟩ := List.mem_map.1 hx1
  obtain ⟨i, hi, e⟩ := mem_zipWith_range _ _ _ hx2
  rw [List.mem_range'_1] at hk
  have hb : m.blocks.get ⟨i, hi⟩ ∈ m.blocks := List.get_mem _ _ _
  have hidx : m.blocks.indexOf (m.blocks.get ⟨i, hi⟩) = i := by
    rw [List.get_eq_getElem]
    exact List.indexOf_getElem (List.Nodup.of_map _ hnd) i hi
  have := block_not_pad m hpad k hk.1 (by omega) _ hb
  rw [hidx] at this
  exact this e.symm

/-- Every name on a pin line of a record is declared. -/
theorem pin_names_declared (fmt : K → List Char) (m : Module)
    (hI : m.numInputs = (m.inputs.length : Int)) (hO : m.numOutputs = (m.outputs.length : Int))
    (hnd : (m.blocks.map (fun b => b.addr)).Nodup)
    (hsinks : ∀ t ∈ m.allSinks, t.1 ∈ m.blocks)
    (hsrc : ∀ t ∈ m.allSources, t.1 ∈ m.blocks)
    (r : List (Line K)) (hr : r ∈ m.specNetsRecords (K := K) m.blockPos)
    (l : Line K) (hl : l ∈ r.tail) :
    Line.nodeChars fmt l ∈ m.declaredNames fmt := by
  rw [declaredNames_eq fmt m hI hO hnd]
  rcases mem_specNetsRecords_tail m m.blockPos r hr l hl with ⟨k, mk, h1, h2, e⟩ | ⟨t, mk, ht, e⟩
  · subst e
    rw [Line.nodeChars_pad]
    exact List.mem_append_left _ (List.mem_map.2 ⟨k, List.mem_range'_1.2 ⟨h1, by omega⟩, rfl⟩)
  · subst e
    have hb : t.1 ∈ m.blocks := by
      rcases ht with ht | ht
      · exact hsinks t ht
      · exact hsrc t ht
    have e2 : Line.nodeChars fmt ([.str t.1.cell.Name, .str "_", .int (m.blockPos t.1),
        .str mk] : Line K) = blockChars t.1.cell.Name (m.blocks.indexOf t.1) :=
      Line.nodeChars_block fmt _ _ _
    rw [e2]
    exact List.mem_append_right _ (mem_blockNames m.blocks t.1 hb)

end NetNamesRecords
/-- C21, amended. For a module whose pad counts are the lengths of its net
lists, whose blocks are pairwise distinct, whose nets have their sources and
sinks on listed blocks, and in which no block of a library cell named `pad`
stands at a position from 1 to the number of pads: the `.nodes` file
declares the pads `pad_1` to `pad_(numInputs+numOutputs)` and every block as
`<cellName>_<position>`, and the names it declares, as they are written, are
pairwise distinct; the net records of the `.nets` file are those of the
specification, in which every block is referenced as `<cellName>_<position>`;
the name written on every pin line is a name declared in `.nodes`; every
declared pad is referenced, under the name written, by exactly one record,
which is the record of the same rank: the input nets in list order, then the
external output nets, the internal nets referencing no pad. -/
theorem nets_names_declared {K : Type} [LinearOrderedField K] (x : Extern K) (g : Globals)
    (m : Module) (modType : ModuleType K) (fs : FileSys K) (name : String)
    (fmt : K → List Char)
    (hI : m.numInputs = (m.inputs.length : Int)) (hO : m.numOutputs = (m.outputs.length : Int))
    (hnd : (m.blocks.map (fun b => b.addr)).Nodup)
    (hsinks : ∀ t ∈ m.allSinks, t.1 ∈ m.blocks)
    (hsrc : ∀ t ∈ m.allSources, t.1 ∈ m.blocks)
    (hpad : ∀ b ∈ m.blocks, b.cell.Name = "pad" →
      m.blocks.indexOf b = 0 ∨ m.inputs.length + m.outputs.length < m.blocks.indexOf b) :
    padLines (K := K) (m.numInputs + m.numOutputs)
      = (List.range' 1 (m.inputs.length + m.outputs.length)).map
          (fun k => [.str "pad_", .int (Int.ofNat k), .str " terminal"]) ∧
    (nodesBlockLines (K := K) CounterMap.fresh m.blocks).1
      = List.zipWith (fun b i => [.str b.cell.Name, .str "_", .int (Int.ofNat i)]) m.blocks
          (List.range m.blocks.length) ∧
    (m.netsBody (K := K) (nodesBlockLines (K := K) CounterMap.fresh m.blocks).2).1
      = (m.specNetsRecords m.blockPos).flatten ∧
    m.declaredNames fmt
      = (List.range' 1 (m.inputs.length + m.outputs.length)).map padChars
        ++ List.zipWith (fun b i => blockChars b.cell.Name i) m.blocks
            (List.range m.blocks.length) ∧
    (m.declaredNames fmt).Nodup ∧
    (∀ r ∈ m.specNetsRecords (K := K) m.blockPos, ∀ l ∈ r.tail,
      Line.nodeChars fmt l ∈ m.declaredNames fmt) ∧
    (∀ k : Nat, 1 ≤ k → k ≤ m.inputs.length + m.outputs.length →
      (m.specNetsRecords (K := K) m.blockPos).countP (referencesNode fmt (padChars k)) = 1) ∧
    (m.specNetsRecords (K := K) m.blockPos).map
        (fun r => (List.range' 1 (m.inputs.length + m.outputs.length)).filter
          (fun k => referencesNode fmt (padChars k) r))
      = (List.range' 1 (m.inputs.length + m.outputs.length)).map (fun k => [k])
        ++ List.replicate m.internalNets.length [] ∧
    (∀ l ∈ (m.netsBody (K := K) (nodesBlockLines (K := K) CounterMap.fresh m.blocks).2).1,
      ∀ (nm : String) (id : Int) (mk : String), l = [.str nm, .str "_", .int id, .str mk] →
        [.str nm, .str "_", .int id] ∈ (nodesBlockLines (K := K) CounterMap.fresh m.blocks).1) ∧
    (fs.canOpen (name ++ ".nodes") = true → fs.canOpen (name ++ ".nets") = true →
      m.WriteNets x g modType fs name
        = .done () ((fs.write (name ++ ".nodes") (m.nodesFile x g modType name)).write
            (name ++ ".nets") (m.netsFile x g modType name)) ∧
      (∃ pre : List (Line K), m.nodesFile x g modType name
        = pre ++ padLines (m.numInputs + m.numOutputs)
          ++ (nodesBlockLines CounterMap.fresh m.blocks).1) ∧
      (∃ pre : List (Line K), m.netsFile x g modType name
        = pre ++ (m.netsBody (nodesBlockLines (K := K) CounterMap.fresh m.blocks).2).1)) := by
  have hpads : padLines (K := K) (m.numInputs + m.numOutputs)
      = (List.range' 1 (m.inputs.length + m.outputs.length)).map
          (fun k => [.str "pad_", .int (Int.ofNat k), .str " terminal"]) := by
    have e : m.numInputs + m.numOutputs = Int.ofNat (m.inputs.length + m.outputs.length) := by
      rw [hI, hO]
      simp
    rw [e, padLines_range]
  have hbody : (m.netsBody (K := K) (nodesBlockLines (K := K) CounterMap.fresh m.blocks).2).1
      = (m.specNetsRecords m.blockPos).flatten := by
    rw [netsBody_known (K := K) m hnd hsinks hsrc]
  refine ⟨hpads, nodesBlockLines_positions m.blocks hnd, hbody,
    declaredNames_eq fmt m hI hO hnd, declaredNames_nodup fmt m hI hO hnd hpad,
    pin_names_declared fmt m hI hO hnd hsinks hsrc,
    pad_referenced_once fmt m hsinks hsrc hpad, pads_by_record fmt m hsinks hsrc hpad, ?_, ?_⟩
  · intro l hl nm id mk e
    rw [hbody] at hl
    rcases mem_specNetsRecords m m.blockPos l hl with ⟨d, e'⟩ | ⟨k0, mk', -, -, e'⟩ |
      ⟨t, mk', ht, e'⟩
    · rw [e] at e'; simp at e'
    · rw [e] at e'; simp at e'
    · rw [e] at e'
      simp only [List.cons.injEq, Item.str.injEq, Item.int.injEq, and_true, true_and] at e'
      obtain ⟨e1, e2, -⟩ := e'
      rw [e1, e2]
      have hb : t.1 ∈ m.blocks := by
        rcases ht with ht | ht
        · exact hsinks t ht
        · exact hsrc t ht
      exact mem_nodesBlockLines m.blocks hnd t.1 hb
  · intro h1 h2
    refine ⟨?_, ⟨_, rfl⟩, ⟨_, rfl⟩⟩
    simp [Module.WriteNets, h1, h2, FileSys.write]

/-- Counterexample for C21: a module that meets every condition of the claim
and has a block of the library cell `pad` at position 1 of its block list.
The `.nodes` file declares the name `pad_1` twice, for the first pad and for
that block, and the `.nets` file references `pad_1` on a pin line of all
three of its nets: the input net, whose pad it is, the external output net,
whose source is the block, and the internal net, of which the block is a
sink. -/
theorem nets_pad_named_cell :
    padCellModule.numBlocks = (padCellModule.blocks.length : Int) ∧
    padCellModule.numInputs = (padCellModule.inputs.length : Int) ∧
    padCellModule.numOutputs = (padCellModule.outputs.length : Int) ∧
    (padCellModule.blocks.map (fun b => b.addr)).Nodup ∧
    (∀ t ∈ padCellModule.allSinks, t.1 ∈ padCellModule.blocks) ∧
    (∀ t ∈ padCellModule.allSources, t.1 ∈ padCellModule.blocks) ∧
    (∃ pre : List (Line ℝ),
      padCellModule.nodesFile (sampleExtern Real.log Real.exp Real.sqrt) sampleGlobals
          (emptyForestType ℝ) "c"
        = pre ++ padLines (padCellModule.numInputs + padCellModule.numOutputs)
          ++ (nodesBlockLines CounterMap.fresh padCellModule.blocks).1) ∧
    (∃ pre : List (Line ℝ),
      padCellModule.netsFile (sampleExtern Real.log Real.exp Real.sqrt) sampleGlobals
          (emptyForestType ℝ) "c"
        = pre ++ (padCellModule.netsBody
            (nodesBlockLines (K := ℝ) CounterMap.fresh padCellModule.blocks).2).1) ∧
    (padLines (K := ℝ) (padCellModule.numInputs + padCellModule.numOutputs)
        ++ (nodesBlockLines (K := ℝ) CounterMap.fresh padCellModule.blocks).1).map
          (Line.chars (fun _ => []))
      = ["pad_1 terminal".data, "pad_2 terminal".data, "INV_0".data, "pad_1".data] ∧
    (padCellModule.netsBody (K := ℝ)
        (nodesBlockLines (K := ℝ) CounterMap.fresh padCellModule.blocks).2).1.map
          (Line.chars (fun _ => []))
      = ["NetDegree : 2".data, "pad_1 O".data, "INV_0 I".data,
         "NetDegree : 2".data, "pad_1 O".data, "pad_2 I".data,
         "NetDegree : 2".data, "INV_0 O".data, "pad_1 I".data] ∧
    (padCellModule.specNetsRecords (K := ℝ) padCellModule.blockPos).map
        (fun r => r.map (Line.chars (fun _ => [])))
      = [["NetDegree : 2".data, "pad_1 O".data, "INV_0 I".data],
         ["NetDegree : 2".data, "pad_1 O".data, "pad_2 I".data],
         ["NetDegree : 2".data, "INV_0 O".data, "pad_1 I".data]] ∧
    padCellModule.declaredNames (K := ℝ) (fun _ => [])
      = ["pad_1".data, "pad_2".data, "INV_0".data, "pad_1".data] ∧
    padChars 1 = "pad_1".data ∧
    ¬ (padCellModule.declaredNames (K := ℝ) (fun _ => [])).Nodup ∧
    (padCellModule.specNetsRecords (K := ℝ) padCellModule.blockPos).countP
        (referencesNode (fun _ => []) (padChars 1)) = 3 := by
  refine ⟨rfl, rfl, rfl, by decide, by decide, by decide, ⟨_, rfl⟩, ⟨_, rfl⟩, by decide,
    by decide, by decide, by decide, by decide, by decide, by decide⟩

/-- Witness for C21: the fan-out sample, whose cells are `INV` and `NAND`,
and the sample with a block of the cell `pad` at position 0. The `.nodes`
file of the first declares `pad_1`, `pad_2`, `INV_0` and `NAND_1`; the input
net references `pad_1`, the output net `pad_2`, the internal net no pad. In
the second the block is written `pad_0`, which is no pad, and each of
`pad_1` and `pad_2` is again referenced by one record. -/
theorem nets_names_declared_witness :
    fanoutModule.numInputs = (fanoutModule.inputs.length : Int) ∧
    fanoutModule.numOutputs = (fanoutModule.outputs.length : Int) ∧
    (fanoutModule.blocks.map (fun b => b.addr)).Nodup ∧
    (∀ t ∈ fanoutModule.allSinks, t.1 ∈ fanoutModule.blocks) ∧
    (∀ t ∈ fanoutModule.allSources, t.1 ∈ fanoutModule.blocks) ∧
    (∀ b ∈ fanoutModule.blocks, b.cell.Name = "pad" →
      fanoutModule.blocks.indexOf b = 0 ∨
        fanoutModule.inputs.length + fanoutModule.outputs.length
          < fanoutModule.blocks.indexOf b) ∧
    padLines (K := ℝ) (fanoutModule.numInputs + fanoutModule.numOutputs)
      = [[.str "pad_", .int 1, .str " terminal"], [.str "pad_", .int 2, .str " terminal"]] ∧
    (nodesBlockLines (K := ℝ) CounterMap.fresh fanoutModule.blocks).1
      = [[.str "INV", .str "_", .int 0], [.str "NAND", .str "_", .int 1]] ∧
    (fanoutModule.netsBody (K := ℝ)
        (nodesBlockLines (K := ℝ) CounterMap.fresh fanoutModule.blocks).2).1
      = [[.str "NetDegree : ", .int 3], [.str "pad_", .int 1, .str " O"],
         [.str "INV", .str "_", .int 0, .str " I"], [.str "NAND", .str "_", .int 1, .str " I"],
         [.str "NetDegree : ", .int 2], [.str "NAND", .str "_", .int 1, .str " O"],
         [.str "pad_", .int 2, .str " I"],
         [.str "NetDegree : ", .int 2], [.str "INV", .str "_", .int 0, .str " O"],
         [.str "NAND", .str "_", .int 1, .str " I"]] ∧
    fanoutModule.declaredNames (K := ℝ) (fun _ => [])
      = ["pad_1".data, "pad_2".data, "INV_0".data, "NAND_1".data] ∧
    (fanoutModule.specNetsRecords (K := ℝ) fanoutModule.blockPos).countP
        (referencesNode (fun _ => []) (padChars 1)) = 1 ∧
    (fanoutModule.specNetsRecords (K := ℝ) fanoutModule.blockPos).countP
        (referencesNode (fun _ => []) (padChars 2)) = 1 ∧
    (fanoutModule.specNetsRecords (K := ℝ) fanoutModule.blockPos).map
        (fun r => (List.range' 1
            (fanoutModule.inputs.length + fanoutModule.outputs.length)).filter
          (fun k => referencesNode (fun _ => []) (padChars k) r))
      = [[1], [2], []] ∧
    padFirstModule.declaredNames (K := ℝ) (fun _ => [])
      = ["pad_1".data, "pad_2".data, "pad_0".data, "INV_1".data] ∧
    (padFirstModule.declaredNames (K := ℝ) (fun _ => [])).Nodup ∧
    (padFirstModule.specNetsRecords (K := ℝ) padFirstModule.blockPos).countP
        (referencesNode (fun _ => []) (padChars 1)) = 1 ∧
    (padFirstModule.specNetsRecords (K := ℝ) padFirstModule.blockPos).countP
        (referencesNode (fun _ => []) (padChars 2)) = 1 := by
  have hnd : (fanoutModule.blocks.map (fun b => b.addr)).Nodup := by decide
  have hs : ∀ t ∈ fanoutModule.allSinks, t.1 ∈ fanoutModule.blocks := by decide
  have hr : ∀ t ∈ fanoutModule.allSources, t.1 ∈ fanoutModule.blocks := by decide
  have hp : ∀ b ∈ fanoutModule.blocks, b.cell.Name = "pad" →
      fanoutModule.blocks.indexOf b = 0 ∨
        fanoutModule.inputs.length + fanoutModule.outputs.length
          < fanoutModule.blocks.indexOf b := by decide
  have h := nets_names_declared (sampleExtern Real.log Real.exp Real.sqrt) sampleGlobals
    fanoutModule (emptyForestType ℝ) (sampleFiles ℝ) "c" (fun _ => []) rfl rfl hnd hs hr hp
  have h2 := nets_names_declared (sampleExtern Real.log Real.exp Real.sqrt) sampleGlobals
    padFirstModule (emptyForestType ℝ) (sampleFiles ℝ) "c" (fun _ => []) rfl rfl
    (by decide) (by decide) (by decide) (by decide)
  refine ⟨rfl, rfl, hnd, hs, hr, hp, ?_, ?_, ?_, ?_, ?_, ?_, ?_, ?_, ?_, ?_, ?_⟩
  · rw [h.1]; rfl
  · rw [h.2.1]; rfl
  · rw [h.2.2.1]; rfl
  · rw [h.2.2.2.1]; decide
  · exact h.2.2.2.2.2.2.1 1 (by decide) (by decide)
  · exact h.2.2.2.2.2.2.1 2 (by decide) (by decide)
  · rw [h.2.2.2.2.2.2.2.1]; rfl
  · rw [h2.2.2.2.1]; decide
  · exact h2.2.2.2.2.1
  · exact h2.2.2.2.2.2.2.1 1 (by decide) (by decide)
  · exact h2.2.2.2.2.2.2.1 2 (by decide) (by decide)
end GNL
